import Mathlib

/-!
# Hotline protocol engine (`hotline` package): a shallow embedding

The definitions below translate the Go sources of the `hotline` package into
Lean functions. What the sources use but do not define (types, constants,
helpers of other files) is modelled from the specification, and says so.

Conventions of the embedding:

* a Go `byte` is a `Fin 256`; a Go `[]byte` and a Go `string` are both a
  `List Byte` (a `nil` slice is the empty list; an argument that may be `nil`
  and is told apart from the empty slice is an `Option`);
* a Go `*[]byte` is an `Option Addr`: `none` is the `nil` pointer, `some a`
  points to the cell `a` of `World.mem`; two pointers are equal when their
  addresses are equal (Go pointer comparison), and a write through a pointer
  is seen through every copy of it;
* a Go `*ClientConn` is an `Addr` into `World.conns`;
* a run-time panic (index out of range, `nil` dereference, negative bit
  index) is the result `none`;
* `math/big` integers are `Int`, with bits in two's complement as in Go.
-/

namespace Hotline

/-! ## Bytes and `encoding/binary` -/

abbrev Byte := Fin 256

abbrev Addr := Nat

/-- The value of a byte string read as a big-endian unsigned number. -/
def beValue (bs : List Byte) : Nat :=
  bs.foldl (fun acc b => acc * 256 + b.val) 0

/-- Go `binary.BigEndian.Uint16`: reads the first two bytes, panics on a
shorter slice. -/
def Uint16 (b : List Byte) : Option Nat :=
  if b.length < 2 then none else some (beValue (b.take 2))

/-- Go `binary.BigEndian.Uint32`: reads the first four bytes. -/
def Uint32 (b : List Byte) : Option Nat :=
  if b.length < 4 then none else some (beValue (b.take 4))

/-- Go `binary.BigEndian.Uint64`: reads the first eight bytes. -/
def Uint64 (b : List Byte) : Option Nat :=
  if b.length < 8 then none else some (beValue (b.take 8))

/-- The `n` low-order bytes of `v`, most significant first. -/
def beBytes : Nat → Nat → List Byte
  | 0, _ => []
  | n + 1, v => beBytes n (v / 256) ++ [Fin.ofNat (v % 256)]

/-- Go `binary.BigEndian.PutUint16(b, v)`: overwrites the first two bytes of
`b` with `v` (a `uint16`), panics on a shorter slice. -/
def PutUint16 (b : List Byte) (v : Nat) : Option (List Byte) :=
  if b.length < 2 then none else some (beBytes 2 v ++ b.drop 2)

/-- Go `binary.BigEndian.PutUint32(b, v)`. -/
def PutUint32 (b : List Byte) (v : Nat) : Option (List Byte) :=
  if b.length < 4 then none else some (beBytes 4 v ++ b.drop 4)

/-! ## `math/big` -/

/-- Go conversion `int64(u)` of a `uint64`: reinterpretation in two's
complement. -/
def toInt64 (u : Nat) : Int :=
  if u % 2 ^ 64 < 2 ^ 63 then ((u % 2 ^ 64 : Nat) : Int) else ((u % 2 ^ 64 : Nat) : Int) - 2 ^ 64

/-- Go `(*big.Int).Bit(i)`: the `i`-th bit of `x` in two's complement; panics
on a negative index. -/
def bigBit (x : Int) (i : Int) : Option Nat :=
  if i < 0 then none else some (if x.testBit i.toNat then 1 else 0)

/-- Go `(*big.Int).SetBit(x, i, 0)`: `x` with bit `i` cleared. -/
def bigClearBit (x : Int) (i : Nat) : Int :=
  if x.testBit i then x - 2 ^ i else x

/-- Go `(*big.Int).Int64()` of `x`, followed by the conversion `uint16(...)`:
the low 16 bits of `x`. -/
def toUint16 (x : Int) : Nat :=
  (x % 65536).toNat

/-! ## Data model -/

/-- Modelled from the spec: the `Field` type is declared outside the listed
sources. A field is a tagged payload with a 2-byte ID, a 2-byte size and the
data; the sources read `ID` and `Data`. -/
structure Field where
  ID : List Byte
  FieldSize : List Byte
  Data : List Byte
deriving DecidableEq, Repr

/-- Modelled from the spec: the `Transaction` type is declared outside the
listed sources; these are the members that the sources and the tests set.
`clientID` is the destination session's ID pointer. -/
structure Transaction where
  clientID : Option Addr
  Flags : Byte
  IsReply : Byte
  Type_ : List Byte
  ID : List Byte
  ErrorCode : List Byte
  Fields : List Field
deriving DecidableEq, Repr

/-- The members of `Account` that the sources read: `Login` and the pointer
`Access` to the 8-byte access bitmap. -/
structure Account where
  Login : List Byte
  Password : List Byte
  Access : Option Addr
deriving DecidableEq, Repr

/-- The struct `ClientConn` of `client_conn.go`. `Connection`, `Server` and `Transfers`
are left out: there is one server, the one of the `World`. -/
structure ClientConn where
  RemoteAddr : List Byte
  ID : Option Addr
  Icon : Option Addr
  Flags : Option Addr
  UserName : List Byte
  Account : Option Account
  IdleTime : Int
  Version : Option Addr
  Idle : Bool
  AutoReply : List Byte
  Agreed : Bool
deriving DecidableEq, Repr

/-- Modelled from the spec: `PrivateChat` is declared outside the listed
sources (transaction_handlers_test.go shows its members). Section 3: a room
with a subject and its members, a Go map from connection ID to session. -/
structure PrivateChat where
  Subject : List Byte
  ClientConn : List (Nat × Addr)
deriving DecidableEq, Repr

/-- The server state that `client_conn.go` reads and writes, with the memory
its pointers refer to. `Clients` is the Go map `Server.Clients` as a list of
key and session pointer; `outbox` is the channel `Server.outbox` as the list
of transactions sent on it, oldest first; `rand` and `randPos` are the
generator behind the request IDs of `NewTransaction`; `PrivateChats` and
`Accounts` are the Go maps `Server.PrivateChats` (by chat ID) and
`Server.Accounts` (by login). -/
structure World where
  mem : Addr → Option (List Byte)
  conns : Addr → Option ClientConn
  Clients : List (Nat × Addr)
  outbox : List Transaction
  rand : Nat → Nat
  randPos : Nat
  PrivateChats : List (Nat × PrivateChat) := []
  Accounts : List (List Byte × Account) := []

/-! ## Permissions -/

/-- Method `ClientConn.Authorize` (client_conn.go, lines 161-170). -/
def ClientConn.Authorize (w : World) (cc : ClientConn) (access : Int) : Option Bool :=
  if access = 0 then some true
  else
    match cc.Account with
    | none => none
    | some account =>
      match account.Access with
      | none => none
      | some p =>
        match w.mem p with
        | none => none
        | some bits =>
          match Uint64 bits with
          | none => none
          | some u =>
            match bigBit (toInt64 u) (63 - access) with
            | none => none
            | some b => some (b == 1)

/-! ## Fields and replies -/

/-- Modelled from the spec: the field ID `fieldError` (registry of section 6:
`fieldError=100`), declared outside the listed sources. -/
def fieldError : Nat := 100

/-- Modelled from the spec: `NewField` is defined outside the listed sources.
It builds a field from its numeric ID and its data: a 2-byte big-endian ID, a
2-byte big-endian size equal to the length of the data, and the data. -/
def NewField (id : Nat) (data : List Byte) : Field :=
  { ID := beBytes 2 id, FieldSize := beBytes 2 data.length, Data := data }

/-- Method `ClientConn.NewReply` (client_conn.go, lines 196-209). -/
def ClientConn.NewReply (cc : ClientConn) (t : Transaction) (fields : List Field) :
    Transaction :=
  { Flags := 0,
    IsReply := 1,
    Type_ := t.Type_,
    ID := t.ID,
    clientID := cc.ID,
    ErrorCode := [0, 0, 0, 0],
    Fields := fields }

/-- Method `ClientConn.NewErrReply` (client_conn.go, lines 211-224). -/
def ClientConn.NewErrReply (cc : ClientConn) (t : Transaction) (errMsg : List Byte) :
    Transaction :=
  { clientID := cc.ID,
    Flags := 0,
    IsReply := 1,
    Type_ := [0, 0],
    ID := t.ID,
    ErrorCode := [0, 0, 0, 1],
    Fields := [NewField fieldError errMsg] }

/-! ## Handlers -/

/-- A Go `error` value, by its message. -/
abbrev GoError := String

/-- What a transaction handler gives back: the transactions and the error it
returns, and the state it leaves. -/
structure HandlerResult where
  world : World
  res : List Transaction
  err : Option GoError

/-- The Go type `func(*ClientConn, *Transaction) ([]Transaction, error)` of a
handler, run in a state; `none` is a panic. -/
abbrev HandlerFunc := World → Addr → Transaction → Option HandlerResult

/-- The ASCII bytes of a string literal. -/
def ascii (s : String) : List Byte :=
  s.toList.map (fun c => Fin.ofNat c.toNat)

/-- Modelled from the spec: `FilePathItem` is declared outside the listed
sources (file_path_test.go shows its members): one component of a wire path,
with its length byte and its name. -/
structure FilePathItem where
  Len : Byte
  Name : List Byte
deriving DecidableEq, Repr

/-- Modelled from the spec: `FilePath` is declared outside the listed sources
(file_path_test.go shows its members): the 2-byte item count and the items. -/
structure FilePath where
  ItemCount : List Byte
  Items : List FilePathItem
deriving DecidableEq, Repr

/-- Modelled from the spec: the items of a wire path (section 4.1): for each
item a 2-byte reserved zero, a 1-byte length, and that many bytes; `none` when
the buffer ends before the declared items do. -/
def readItems : Nat → List Byte → Option (List FilePathItem)
  | 0, _ => some []
  | n + 1, b =>
    match b with
    | _ :: _ :: len :: rest =>
      if rest.length < len.val then none
      else
        match readItems n (rest.drop len.val) with
        | none => none
        | some items => some ({ Len := len, Name := rest.take len.val } :: items)
    | _ => none

/-- Modelled from the spec: `FilePath.UnmarshalBinary` is defined outside the
listed sources. Section 4.1: a 2-byte item count, then the items; a truncated
buffer is a parsing failure of the "malformed" kind. -/
def FilePath.UnmarshalBinary (b : List Byte) : Except GoError FilePath :=
  if b.length < 2 then Except.error "malformed"
  else
    match readItems (beValue (b.take 2)) (b.drop 2) with
    | none => Except.error "malformed"
    | some items => Except.ok { ItemCount := b.take 2, Items := items }

/-- Go `strings.ReplaceAll(s, "..", "")`, read from left to right: `pending`
says that the byte before was a dot not yet written. -/
def dropDotDot : Bool → List Byte → List Byte
  | pending, [] => if pending then [46] else []
  | pending, c :: cs =>
    if c = 46 then
      if pending then dropDotDot false cs else dropDotDot true cs
    else
      if pending then 46 :: c :: dropDotDot false cs else c :: dropDotDot false cs

/-- Modelled from the spec: the stripping of a path component (sections 4.1
and 4.6): the component is stripped of "/" (47), of "\" (92) and of ".."
sequences, in the order of section 4.1. -/
def stripComponent (s : List Byte) : List Byte :=
  dropDotDot false ((s.filter (fun b => b ≠ 47)).filter (fun b => b ≠ 92))

/-- Go `strings.Split(s, "/")`. -/
def splitSlash : List Byte → List (List Byte)
  | [] => [[]]
  | c :: cs =>
    if c = 47 then [] :: splitSlash cs
    else
      match splitSlash cs with
      | [] => [[c]]
      | seg :: segs => (c :: seg) :: segs

/-- One step of Go `path.Clean` over the "/"-separated elements of a path:
empty and "." elements vanish, ".." removes the element before it, or vanishes
at the root, or stays in front of a relative path. -/
def cleanStep (rooted : Bool) (stack : List (List Byte)) (seg : List Byte) :
    List (List Byte) :=
  if seg = [] ∨ seg = [46] then stack
  else if seg = [46, 46] then
    match stack.getLast? with
    | none => if rooted then stack else stack ++ [seg]
    | some top => if top = [46, 46] then stack ++ [seg] else stack.dropLast
  else stack ++ [seg]

/-- Says whether a path starts with "/". -/
def isAbs (s : List Byte) : Bool :=
  s.head? = some 47

/-- The elements of the cleaned form of a path. -/
def cleanSegs (s : List Byte) : List (List Byte) :=
  (splitSlash s).foldl (cleanStep (isAbs s)) []

/-- An absolute path with the given elements. -/
def renderAbs (segs : List (List Byte)) : List Byte :=
  47 :: List.intercalate [47] segs

/-- Go `path.Clean` (the same as `filepath.Clean` with the separator "/"). -/
def Clean (s : List Byte) : List Byte :=
  if isAbs s then renderAbs (cleanSegs s)
  else if cleanSegs s = [] then [46]
  else List.intercalate [47] (cleanSegs s)

/-- Go `filepath.Join` with the separator "/": the elements from the first
non-empty one on are joined with "/" and the result is cleaned. -/
def Join (elem : List (List Byte)) : List Byte :=
  match elem.dropWhile (fun e => e = []) with
  | [] => []
  | rest => Clean (List.intercalate [47] rest)

/-- Modelled from the spec: the re-check of section 4.6, step (4): the
resulting path is the cleaned `FileRoot` or has it, followed by a separator,
as a prefix. -/
def underRoot (fileRoot path : List Byte) : Bool :=
  path == Clean fileRoot ||
    (if Clean fileRoot == [47] then [47] else Clean fileRoot ++ [47]).isPrefixOf path

/-- Modelled from the spec: `readPath` is defined outside the listed sources.
Section 4.6: (1) decode the `FilePath` components (a `nil` path has none);
(2) strip each component and the file name; (3) join them with the separator
under `FileRoot`; (4) re-check that the result is under `FileRoot`, and fail
with "path traversal" otherwise. The result is the Go pair of path and error;
a failure comes with the empty path. -/
def readPath (fileRoot : List Byte) (filePath fileName : Option (List Byte)) :
    List Byte × Option GoError :=
  let decoded : Except GoError (List FilePathItem) :=
    match filePath with
    | none => Except.ok []
    | some b =>
      match FilePath.UnmarshalBinary b with
      | Except.error e => Except.error e
      | Except.ok fp => Except.ok fp.Items
  match decoded with
  | Except.error e => ([], some e)
  | Except.ok items =>
    let comps := items.map (fun i => stripComponent i.Name)
    let name := stripComponent (fileName.getD [])
    let full := Join ([fileRoot] ++ comps ++ [name])
    if underRoot fileRoot full then (full, none) else ([], some "path traversal")

/-- A file or folder name: not empty, without separator, neither "." nor
"..". -/
def IsName (s : List Byte) : Prop :=
  s ≠ [] ∧ (47 : Byte) ∉ s ∧ s ≠ [46] ∧ s ≠ [46, 46]

/-- The path `p` is `fileRoot` itself or a descendant of it: it is the cleaned
`fileRoot` followed by zero or more names. -/
def IsRootOrDescendant (fileRoot p : List Byte) : Prop :=
  ∃ names : List (List Byte), (∀ n ∈ names, IsName n) ∧
    p = renderAbs (cleanSegs fileRoot ++ names)

/-- The file root of the tests, "/usr/local/var/mobius/Files". -/
def mobiusRoot : List Byte := ascii "/usr/local/var/mobius/Files"

/-! ## Transactions of the server -/

/-- Modelled from the spec: transaction code of section 6, `tranKeepAlive=500`. -/
def tranKeepAlive : Nat := 500

/-- Modelled from the spec: transaction code of section 6,
`tranNotifyChangeUser=301`. -/
def tranNotifyChangeUser : Nat := 301

/-- Modelled from the spec: transaction code of section 6,
`tranNotifyDeleteUser=302`. -/
def tranNotifyDeleteUser : Nat := 302

/-- Modelled from the spec: field ID of section 6, `fieldUserName=102`. -/
def fieldUserName : Nat := 102

/-- Modelled from the spec: field ID of section 6, `fieldUserID=103`. -/
def fieldUserID : Nat := 103

/-- Modelled from the spec: field ID of section 6, `fieldUserIconID=104`. -/
def fieldUserIconID : Nat := 104

/-- Modelled from the spec: the field ID of the user flags, declared outside
the listed sources; section 6 lists it as `fieldFlags=112`. -/
def fieldUserFlags : Nat := 112

/-- Modelled from the spec: the index of the away bit in the 2-byte flag
bitmap of a user, declared outside the listed sources; section 3 lists the
flags as away, admin, refuse-PM, refuse-chat, and away is the first, bit 0. -/
def userFlagAway : Nat := 0

/-- The zero value `Field{}` of Go. -/
def Field.zero : Field := { ID := [], FieldSize := [], Data := [] }

/-- Modelled from the spec: `Transaction.GetField` is defined outside the
listed sources. Section 3: fields are ordered and may repeat; lookup by ID
returns the first match. Without a match the result is the zero field, whose
ID is `nil`. -/
def Transaction.GetField (t : Transaction) (id : Nat) : Field :=
  (t.Fields.find? (fun f => Uint16 f.ID == some id)).getD Field.zero

/-- Modelled from the spec: `NewTransaction` is defined outside the listed
sources. Sections 3 and 6: a request (IsReply=0, Flags=0, ErrorCode=0) of the
given type for the given destination, with the given fields and a 4-byte ID
drawn from the random generator. -/
def NewTransaction (w : World) (t : Nat) (clientID : Option Addr) (fields : List Field) :
    Transaction × World :=
  ({ clientID := clientID, Flags := 0, IsReply := 0, Type_ := beBytes 2 t,
     ID := beBytes 4 (w.rand w.randPos), ErrorCode := [0, 0, 0, 0], Fields := fields },
   { w with randPos := w.randPos + 1 })

/-- The slice behind a `*[]byte`; `none` for `nil` (a dereference panics). -/
def deref (w : World) (p : Option Addr) : Option (List Byte) :=
  match p with
  | none => none
  | some a => w.mem a

/-- Writes the slice behind the pointer `p`. -/
def World.setMem (w : World) (p : Addr) (v : List Byte) : World :=
  { w with mem := fun x => if x = p then some v else w.mem x }

/-- Writes the `ClientConn` behind the pointer `a`. -/
def World.setConn (w : World) (a : Addr) (cc : ClientConn) : World :=
  { w with conns := fun x => if x = a then some cc else w.conns x }

/-- Sends on the channel `Server.outbox`. -/
def World.send (w : World) (t : Transaction) : World :=
  { w with outbox := w.outbox ++ [t] }

/-- Modelled from the spec: `byteToInt` is defined outside the listed sources.
A connection ID is a 2-byte big-endian number (section 3): a slice of 2 or of
4 bytes has its big-endian value, any other slice the value 0 (with an error
that `uint16ID` drops). -/
def byteToInt (bs : List Byte) : Nat :=
  if bs.length = 2 ∨ bs.length = 4 then beValue bs else 0

/-- Method `ClientConn.uint16ID` (client_conn.go, lines 156-159). -/
def ClientConn.uint16ID (w : World) (cc : ClientConn) : Option Nat :=
  match deref w cc.ID with
  | none => none
  | some bs => some (byteToInt bs % 65536)

/-- The session behind `a` with its `uint16ID`, the sorting key of
`byClientID.Less` (client_conn.go, lines 20-22). -/
def keyed (w : World) (a : Addr) : Option (Nat × Addr) :=
  match w.conns a with
  | none => none
  | some c =>
    match c.uint16ID w with
    | none => none
    | some id => some (id, a)

/-- The sessions behind the pointers of a list, each with its sorting key. -/
def keyedAll (w : World) : List Addr → Option (List (Nat × Addr))
  | [] => some []
  | a :: rest =>
    match keyed w a, keyedAll w rest with
    | some k, some ks => some (k :: ks)
    | _, _ => none

/-- Modelled from the spec: `sortedClients` is defined outside the listed
sources. Section 4.5: the sessions of `Server.Clients` in ascending
connection-ID order, the order of `byClientID`. A session without ID is a
panic, as in `uint16ID`. -/
def sortedClients (w : World) : Option (List Addr) :=
  match keyedAll w (w.Clients.map Prod.snd) with
  | none => none
  | some ks => some ((ks.insertionSort (fun x y => x.1 ≤ y.1)).map Prod.snd)

/-- The loop of `ClientConn.sendAll` (client_conn.go, lines 70-72). -/
def sendEach (t : Nat) (fields : List Field) : List Addr → World → Option World
  | [], w => some w
  | a :: rest, w =>
    match w.conns a with
    | none => none
    | some c => sendEach t fields rest ((NewTransaction w t c.ID fields).2.send
        (NewTransaction w t c.ID fields).1)

/-- Method `ClientConn.sendAll` (client_conn.go, lines 69-73). -/
def ClientConn.sendAll (w : World) (t : Nat) (fields : List Field) : Option World :=
  match sortedClients w with
  | none => none
  | some cs => sendEach t fields cs w

/-- The loop of `ClientConn.notifyOthers` (client_conn.go, lines 188-193). -/
def notifyEach (cc : ClientConn) (t : Transaction) : List Addr → World → Option World
  | [], w => some w
  | a :: rest, w =>
    match w.conns a with
    | none => none
    | some c =>
      if c.ID ≠ cc.ID ∧ c.Agreed = true then
        notifyEach cc { t with clientID := c.ID } rest (w.send { t with clientID := c.ID })
      else notifyEach cc t rest w

/-- Method `ClientConn.notifyOthers` (client_conn.go, lines 186-194). -/
def ClientConn.notifyOthers (w : World) (a : Addr) (t : Transaction) : Option World :=
  match w.conns a with
  | none => none
  | some cc =>
    match sortedClients w with
    | none => none
    | some cs => notifyEach cc t cs w

/-- Method `ClientConn.Disconnect` (client_conn.go, lines 172-184); closing the
connection is left out. -/
def ClientConn.Disconnect (w : World) (a : Addr) : Option World :=
  match w.conns a with
  | none => none
  | some cc =>
    match deref w cc.ID with
    | none => none
    | some idBytes =>
      match Uint16 idBytes with
      | none => none
      | some key =>
        let w1 := { w with Clients := w.Clients.filter (fun kc => kc.1 ≠ key) }
        ClientConn.notifyOthers
          (NewTransaction w1 tranNotifyDeleteUser none [NewField fieldUserID idBytes]).2 a
          (NewTransaction w1 tranNotifyDeleteUser none [NewField fieldUserID idBytes]).1

/-- A required field of a handler: `requiredField` with its members `ID` and
`minLen`, as `handleTransaction` reads them. -/
structure requiredField where
  ID : Nat
  minLen : Int

/-- An entry of the table `TransactionHandlers`, with the members that
`handleTransaction` reads. -/
structure TransactionType where
  Handler : HandlerFunc
  Name : String
  RequiredFields : List requiredField

/-- The validation loop of `handleTransaction` (client_conn.go, lines 78-97):
`false` when the loop returns early, on a required field that is absent or
shorter than its minimum length. -/
def checkRequired (transaction : Transaction) : List requiredField → Bool
  | [] => true
  | reqField :: rest =>
    if (transaction.GetField reqField.ID).ID = [] then false
    else if ((transaction.GetField reqField.ID).Data.length : Int) < reqField.minLen then false
    else checkRequired transaction rest

/-- The idle bookkeeping of `handleTransaction` (client_conn.go, lines
120-145), for the request number `requestNum`. -/
def idleBookkeeping (w : World) (a : Addr) (requestNum : Nat) : Option World :=
  if requestNum ≠ tranKeepAlive then
    match w.conns a with
    | none => none
    | some cc =>
      if cc.Idle then
        match cc.Flags with
        | none => none
        | some fp =>
          match w.mem fp with
          | none => none
          | some flags =>
            match Uint16 flags with
            | none => none
            | some v =>
              match PutUint16 flags (toUint16 (bigClearBit (v : Int) userFlagAway)) with
              | none => none
              | some flags1 =>
                let w1 := (w.setMem fp flags1).setConn a { cc with IdleTime := 0, Idle := false }
                match deref w1 cc.ID, deref w1 cc.Flags, deref w1 cc.Icon with
                | some id, some fl, some icon =>
                  ClientConn.sendAll w1 tranNotifyChangeUser
                    [NewField fieldUserID id, NewField fieldUserFlags fl,
                     NewField fieldUserName cc.UserName, NewField fieldUserIconID icon]
                | _, _, _ => none
      else some (w.setConn a { cc with IdleTime := 0 })
  else some w

/-- What `handleTransaction` gives back: the state it leaves, the error it
returns, and whether it called the handler. -/
structure Outcome where
  world : World
  err : Option GoError
  invoked : Bool

/-- Method `ClientConn.handleTransaction` (client_conn.go, lines 75-146), over the
table `handlers` that stands for `TransactionHandlers`. The log calls read
`cc.Account.Login` when a handler is registered. -/
def ClientConn.handleTransaction (handlers : Nat → Option TransactionType) (w : World)
    (a : Addr) (transaction : Transaction) : Option Outcome :=
  match Uint16 transaction.Type_ with
  | none => none
  | some requestNum =>
    match w.conns a with
    | none => none
    | some cc =>
      match handlers requestNum with
      | some handler =>
        match cc.Account with
        | none => none
        | some _ =>
          if checkRequired transaction handler.RequiredFields then
            match handler.Handler w a transaction with
            | none => none
            | some r =>
              match r.err with
              | some e => some { world := r.world, err := some e, invoked := true }
              | none =>
                match idleBookkeeping { r.world with outbox := r.world.outbox ++ r.res } a
                    requestNum with
                | none => none
                | some w2 => some { world := w2, err := none, invoked := true }
          else some { world := w, err := none, invoked := false }
      | none =>
        match idleBookkeeping w a requestNum with
        | none => none
        | some w2 => some { world := w2, err := none, invoked := false }

/-- Every session of `Server.Clients` is allocated and has an ID that can be
read: `sortedClients` does not panic. -/
def World.clientsReady (w : World) : Bool :=
  w.Clients.all (fun kc => (keyed w kc.2).isSome)

/-- The session behind `a` is allocated, its `ID` and `Icon` can be read and
its `Flags` hold at least two bytes: the idle bookkeeping does not panic. -/
def World.sessionReady (w : World) (a : Addr) : Bool :=
  match w.conns a with
  | none => false
  | some cc =>
    (deref w cc.ID).isSome && (deref w cc.Icon).isSome &&
      (match deref w cc.Flags with
       | none => false
       | some flags => decide (2 ≤ flags.length))

/-- The ID pointer of the session behind `x`, the destination of a
transaction for it. -/
def World.idOf (w : World) (x : Addr) : Option Addr :=
  (w.conns x).bind (fun c => c.ID)

/-- The test of `notifyOthers` (client_conn.go, line 189) on the session behind
`x`: its ID pointer differs from the one of `cc` and it has agreed. -/
def World.isOther (w : World) (cc : ClientConn) (x : Addr) : Bool :=
  match w.conns x with
  | none => false
  | some c => decide (c.ID ≠ cc.ID ∧ c.Agreed = true)

/-- The connection ID of the session behind `x`, as `uint16ID` reads it (0 when
it cannot be read). -/
def World.connID (w : World) (x : Addr) : Nat :=
  match keyed w x with
  | none => 0
  | some k => k.1

/-- The connection ID behind an ID pointer, read as `uint16ID` reads it. -/
def World.idValue (w : World) (p : Option Addr) : Nat :=
  match deref w p with
  | none => 0
  | some bs => byteToInt bs % 65536

/-- The connection ID that a transaction is addressed to: the number behind
its `clientID`. -/
def World.destID (w : World) (tr : Transaction) : Nat :=
  w.idValue tr.clientID

/-! ## Chat -/

/-- Method `ClientConn.Authenticate` (client_conn.go, lines 148-154), over the
function `compareHashAndPassword` that stands for
`bcrypt.CompareHashAndPassword` (its result `none` is the Go `nil`: the
password matches the hash). -/
def ClientConn.Authenticate (compareHashAndPassword : List Byte → List Byte → Option GoError)
    (w : World) (login : List Byte) (password : List Byte) : Bool :=
  match w.Accounts.lookup login with
  | some account => (compareHashAndPassword account.Password password).isNone
  | none => false

/-! ## Client -/

/-- Modelled from the spec: transaction code of section 6, `tranLogin=107`. -/
def tranLogin : Nat := 107

/-- Modelled from the spec: field ID of section 6, `fieldUserLogin=105`. -/
def fieldUserLogin : Nat := 105

/-- Modelled from the spec: field ID of section 6, `fieldUserPassword=106`. -/
def fieldUserPassword : Nat := 106

/-- The struct `Bookmark` (client.go, lines 30-35). -/
structure Bookmark where
  Name : List Byte
  Addr : List Byte
  Login : List Byte
  Password : List Byte
deriving DecidableEq, Repr

/-- The struct `ClientPrefs` (client.go, lines 37-42). -/
structure ClientPrefs where
  Username : List Byte
  IconID : Int
  Bookmarks : List Bookmark
  Tracker : List Byte
deriving DecidableEq, Repr

/-- Method `ClientPrefs.IconBytes` (client.go, lines 44-48): the icon ID,
converted to `uint16`, as two big-endian bytes. -/
def ClientPrefs.IconBytes (cp : ClientPrefs) : List Byte :=
  beBytes 2 (cp.IconID % 65536).toNat

/-- Modelled from the spec: `User` is declared outside the listed sources;
these are the members that client.go reads and writes. Section 3: the 2-byte
ID, the name, the 2-byte icon ID and the 2-byte flag bitmap of a connected
session. -/
structure User where
  ID : List Byte
  Name : List Byte
  Icon : List Byte
  Flags : List Byte
deriving DecidableEq, Repr

/-- The state of a `Client` (client.go, lines 70-92) that its methods and
handlers read and write. `activeTasks` is the Go map from request ID to the
transaction sent; `written` lists the transactions whose encoding was written
to `Connection`, oldest first; `connErr` is the error that `Connection.Write`
returns (`none` on a working connection); `rand` and `randPos` are the
generator behind the request IDs of `NewTransaction`. The table `Handlers` is
an argument of `HandleTransaction`. `rawWritten` lists the byte strings
written to `Connection` as they are (the handshake), oldest first; `inbound`
holds the bytes that the server has sent and `Connection.Read` has not yet
delivered, `readErr` the error that `Connection.Read` returns; `UserList` is
the member of that name, and `userListView` the text of the view
`UI.userList`. -/
structure Client where
  activeTasks : Nat → Option Transaction
  pref : Option ClientPrefs
  written : List Transaction
  connErr : Option GoError
  rand : Nat → Nat
  randPos : Nat
  rawWritten : List (List Byte) := []
  inbound : List Byte := []
  readErr : Option GoError := none
  UserList : List User := []
  userListView : List Byte := []

/-- Modelled from the spec: `negateString` is defined outside the listed
sources. Section 4.1: the bitwise complement of each byte (`b ^ 0xFF`). -/
def negateString (clearText : List Byte) : List Byte :=
  clearText.map (fun b => Fin.ofNat (b.val ^^^ 255))

/-- Modelled from the spec: `NewTransaction` as the client runs it, drawing
the request ID from the generator of the client. -/
def Client.NewTransaction (c : Client) (t : Nat) (clientID : Option Addr)
    (fields : List Field) : Transaction × Client :=
  ({ clientID := clientID, Flags := 0, IsReply := 0, Type_ := beBytes 2 t,
     ID := beBytes 4 (c.rand c.randPos), ErrorCode := [0, 0, 0, 0], Fields := fields },
   { c with randPos := c.randPos + 1 })

/-- Method `Client.Send` (client.go, lines 640-666). `MarshalBinary`, defined
outside the listed sources, is taken not to fail (section 4.1 names no failure
of the encoding). The result is the new state and the error returned. -/
def Client.Send (c : Client) (t : Transaction) : Option (Client × Option GoError) :=
  match Uint16 t.Type_ with
  | none => none
  | some _ =>
    match Uint32 t.ID with
    | none => none
    | some tID =>
      let c1 : Client :=
        if t.IsReply = 0 then
          { c with activeTasks := fun k => if k = tID then some t else c.activeTasks k }
        else c
      match c1.connErr with
      | some e => some (c1, some e)
      | none => some ({ c1 with written := c1.written ++ [t] }, none)

/-- Method `Client.LogIn` (client.go, lines 628-638). -/
def Client.LogIn (c : Client) (login password : List Byte) :
    Option (Client × Option GoError) :=
  match c.pref with
  | none => none
  | some pref =>
    (c.NewTransaction tranLogin none
      [NewField fieldUserName pref.Username,
       NewField fieldUserIconID pref.IconBytes,
       NewField fieldUserLogin (negateString login),
       NewField fieldUserPassword (negateString password)]).2.Send
      (c.NewTransaction tranLogin none
        [NewField fieldUserName pref.Username,
         NewField fieldUserIconID pref.IconBytes,
         NewField fieldUserLogin (negateString login),
         NewField fieldUserPassword (negateString password)]).1

/-- The Go type of `clientTHandler.Handle`, run in a client state: the new
state, the transactions and the error returned; `none` is a panic. -/
abbrev ClientHandler := Client → Transaction → Option (Client × List Transaction × Option GoError)

/-- The loop that sends the transactions returned by a client handler
(client.go, lines 682-684); the errors of `Send` are dropped. -/
def Client.sendEach : List Transaction → Client → Option Client
  | [], c => some c
  | t :: rest, c =>
    match c.Send t with
    | none => none
    | some r => Client.sendEach rest r.1

/-- The dispatch of `Client.HandleTransaction` (client.go, lines 675-695),
once the transaction has its type. -/
def Client.dispatch (handlers : Nat → Option ClientHandler) (c : Client) (t : Transaction) :
    Option (Client × Option GoError) :=
  match Uint16 t.Type_ with
  | none => none
  | some requestNum =>
    match handlers requestNum with
    | some handler =>
      match handler c t with
      | none => none
      | some r =>
        match Client.sendEach r.2.1 r.1 with
        | none => none
        | some c2 => some (c2, none)
    | none => some (c, none)

/-- Method `Client.HandleTransaction` (client.go, lines 668-696), over the
table `handlers` that stands for `c.Handlers`. -/
def Client.HandleTransaction (handlers : Nat → Option ClientHandler) (c : Client)
    (t : Transaction) : Option (Client × Option GoError) :=
  if t.IsReply = 1 then
    match Uint32 t.ID with
    | none => none
    | some requestID =>
      match c.activeTasks requestID with
      | none => none
      | some origT => Client.dispatch handlers c { t with Type_ := origT.Type_ }
  else Client.dispatch handlers c t

/-! ## Encoding of file paths -/

/-- Function `EncodeFilePath` (files.go, lines 164-180). -/
def EncodeFilePath (filePath : List Byte) : List Byte :=
  (splitSlash filePath).foldl
    (fun bytes pathStr => bytes ++ [0, 0] ++ [Fin.ofNat pathStr.length] ++ pathStr)
    (beBytes 2 (splitSlash filePath).length)

/-- The wire form of one path item: two reserved bytes, the length byte and
the name. -/
def itemBytes (item : Byte × Byte × List Byte) : List Byte :=
  [item.1, item.2.1, Fin.ofNat item.2.2.length] ++ item.2.2

/-- A complete wire `FilePath` (section 4.1): the 2-byte count of the items,
then each item. -/
def completePath (items : List (Byte × Byte × List Byte)) : List Byte :=
  beBytes 2 items.length ++ (items.map itemBytes).flatten

/-- The item that `FilePath.UnmarshalBinary` reads from the wire form of an
item. -/
def decodedItem (item : Byte × Byte × List Byte) : FilePathItem :=
  { Len := Fin.ofNat item.2.2.length, Name := item.2.2 }

/-! ## Client: handshake, user list, bookmarks -/

/-- The byte string `ClientHandshake` (client.go, lines 593-598). -/
def ClientHandshake : List Byte :=
  [0x54, 0x52, 0x54, 0x50, 0x48, 0x4f, 0x54, 0x4c, 0x00, 0x01, 0x00, 0x02]

/-- The byte string `ServerHandshake` (client.go, lines 600-603). -/
def ServerHandshake : List Byte :=
  [0x54, 0x52, 0x54, 0x50, 0x00, 0x00, 0x00, 0x00]

/-- Go `Connection.Read(buf)` into a fresh buffer of `n` zero bytes: the
buffer after the call, which holds the next bytes received (at most `n`, the
rest stays zero), and the state in which they are consumed. -/
def Client.read (c : Client) (n : Nat) : List Byte × Client :=
  (c.inbound.take n ++ List.replicate (n - (c.inbound.take n).length) 0,
   { c with inbound := c.inbound.drop n })

/-- Method `Client.Handshake` (client.go, lines 605-626). The last error is
built by `fmt.Errorf` from the `nil` error of the read. -/
def Client.Handshake (c : Client) : Client × Option GoError :=
  match c.connErr with
  | some e => (c, some ("handshake write err: " ++ e))
  | none =>
    match c.readErr with
    | some e => (({ c with rawWritten := c.rawWritten ++ [ClientHandshake] }.read 8).2, some e)
    | none =>
      if ({ c with rawWritten := c.rawWritten ++ [ClientHandshake] }.read 8).1 = ServerHandshake
      then (({ c with rawWritten := c.rawWritten ++ [ClientHandshake] }.read 8).2, none)
      else (({ c with rawWritten := c.rawWritten ++ [ClientHandshake] }.read 8).2,
        some "handshake response err: %!s(<nil>)")

/-- Modelled from the spec: the index of the admin bit in the 2-byte flag
bitmap of a user, declared outside the listed sources; section 3 lists the
flags as away, admin, refuse-PM, refuse-chat, and admin is the second, bit 1. -/
def userFlagAdmin : Nat := 1

/-- The loop of `Client.renderUserList` (client.go, lines 471-479): the text
written to the view, one line per user, an admin in red; `Uint16` panics on a
flag bitmap of less than two bytes. -/
def renderLines : List User → Option (List Byte)
  | [] => some []
  | u :: rest =>
    match Uint16 u.Flags with
    | none => none
    | some v =>
      match bigBit (v : Int) userFlagAdmin, renderLines rest with
      | some b, some text =>
        some ((if b = 1 then ascii "[red::b]" ++ u.Name ++ ascii "[-:-:-]" ++ [10]
               else u.Name ++ [10]) ++ text)
      | _, _ => none

/-- Method `Client.renderUserList` (client.go, lines 469-480). -/
def Client.renderUserList (c : Client) : Option Client :=
  match renderLines c.UserList with
  | none => none
  | some text => some { c with userListView := text }

/-- The loop of `handleNotifyChangeUser` (client.go, lines 359-370), with its
variables `newUserList` and `updatedUser`. The name of a listed user with the
notified ID is overwritten before the comparison of line 364, which is
therefore never true: nothing is written to the chat box. -/
def updateUsers (newUser : User) : List User → List User × Bool → List User × Bool
  | [], acc => acc
  | u :: rest, acc =>
    if newUser.ID = u.ID then
      updateUsers newUser rest (acc.1 ++ [{ u with Name := newUser.Name }], true)
    else updateUsers newUser rest (acc.1 ++ [u], acc.2)

/-- The user that `handleNotifyChangeUser` reads from a transaction
(client.go, lines 345-350). -/
def notifiedUser (t : Transaction) : User :=
  { ID := (t.GetField fieldUserID).Data,
    Name := (t.GetField fieldUserName).Data,
    Icon := (t.GetField fieldUserIconID).Data,
    Flags := (t.GetField fieldUserFlags).Data }

/-- Function `handleNotifyChangeUser` (client.go, lines 344-381); the log
calls are left out. -/
def handleNotifyChangeUser : ClientHandler :=
  fun c t =>
    match ({ c with
        UserList :=
          if (updateUsers (notifiedUser t) c.UserList ([], false)).2
          then (updateUsers (notifiedUser t) c.UserList ([], false)).1
          else (updateUsers (notifiedUser t) c.UserList ([], false)).1 ++ [notifiedUser t] }
        : Client).renderUserList with
    | none => none
    | some c1 => some (c1, [], none)

set_option linter.unusedVariables false in
/-- Method `ClientPrefs.AddBookmark` (client.go, lines 50-54): the new state
of the preferences and the error returned. The composite literal names `Addr`,
`Login` and `Password`; `Name` keeps its zero value. -/
def ClientPrefs.AddBookmark (cp : ClientPrefs) (name addr login pass : List Byte) :
    ClientPrefs × Option GoError :=
  ({ cp with
     Bookmarks := cp.Bookmarks ++ [{ Name := [], Addr := addr, Login := login, Password := pass }] },
   none)

/-! ## Listing a folder -/

/-- Modelled from the spec: `fileType` is declared outside the listed sources;
these are the members that files.go reads, the type code and the creator code
of a file (section 4.1, `FileNameWithInfo`). -/
structure fileType where
  TypeCode : List Byte
  CreatorCode : List Byte
deriving DecidableEq, Repr

/-- Go `os.FileInfo`, by what files.go asks of it: `Name()`, `Size()` (an
`int64`), `IsDir()`, and `Symlink` for `Mode()&os.ModeSymlink != 0`. -/
structure FileInfo where
  Name : List Byte
  Size : Int
  IsDir : Bool
  Symlink : Bool
deriving DecidableEq, Repr

/-- The result of Go `os.Stat`, by the cases that `getFileNameList` tells
apart: the file information, an error for which
`errors.Is(err, os.ErrNotExist)` holds, or another error. -/
inductive StatResult where
  | ok (info : FileInfo)
  | notExist (err : GoError)
  | failed (err : GoError)

/-- What `getFileNameList` takes from outside the listed sources: the calls
`ioutil.ReadDir`, `os.Readlink`, `os.Stat` and `strings.ToLower`, and the
table `fileTypes`, the value `defaultFileType` and the field ID
`fieldFileNameWithInfo`, which other files of the package declare. -/
structure Host where
  ReadDir : List Byte → Except GoError (List FileInfo)
  Readlink : List Byte → Except GoError (List Byte)
  Stat : List Byte → StatResult
  ToLower : List Byte → List Byte
  fileTypes : List Byte → Option fileType
  defaultFileType : fileType
  fieldFileNameWithInfo : Nat

/-- Go `strings.Split(s, ".")`. -/
def splitDot : List Byte → List (List Byte)
  | [] => [[]]
  | c :: cs =>
    if c = 46 then [] :: splitDot cs
    else
      match splitDot cs with
      | [] => [[c]]
      | seg :: segs => (c :: seg) :: segs

/-- Function `downcaseFileExtension` (files.go, lines 15-22). -/
def downcaseFileExtension (h : Host) (filename : List Byte) : List Byte :=
  h.ToLower ((splitDot filename).getLast?.getD [])

/-- Function `fileTypeFromFilename` (files.go, lines 24-30). -/
def fileTypeFromFilename (h : Host) (fn : List Byte) : fileType :=
  match h.fileTypes (downcaseFileExtension h fn) with
  | some ft => ft
  | none => h.defaultFileType

/-- Modelled from the spec: `FileNameWithInfo` is declared outside the listed
sources; these are the members that files.go writes: the arrays `Type`,
`Creator` and `FileSize` of 4 bytes, `NameSize` of 2 bytes, and the name. -/
structure FileNameWithInfo where
  Type_ : List Byte
  Creator : List Byte
  FileSize : List Byte
  NameSize : List Byte
  name : List Byte
deriving DecidableEq, Repr

/-- Modelled from the spec: `FileNameWithInfo.MarshalBinary` is defined outside
the listed sources. Section 4.1: fixed-order bytes, the 4-byte type code, the
4-byte creator code, the 4-byte size, 4 reserved bytes, the 2-byte name length
and the name. It is taken not to fail. -/
def FileNameWithInfo.MarshalBinary (f : FileNameWithInfo) : List Byte :=
  f.Type_ ++ f.Creator ++ f.FileSize ++ [0, 0, 0, 0] ++ f.NameSize ++ f.name

/-- Go `copy(dst[:], src)` into an array `dst` of `n` zero bytes: the array
after the call. -/
def copyInto (n : Nat) (src : List Byte) : List Byte :=
  src.take n ++ List.replicate (n - src.length) 0

/-- The constant `incompleteFileSuffix` (files.go, line 13). -/
def incompleteFileSuffix : List Byte := ascii ".incomplete"

/-- Go `strings.Replace(s, ".incomplete", "", -1)`, read from left to right:
`skip` counts the bytes of an occurrence that are still to be dropped. -/
def dropIncomplete : Nat → List Byte → List Byte
  | _, [] => []
  | skip + 1, _ :: cs => dropIncomplete skip cs
  | 0, c :: cs =>
    if incompleteFileSuffix.isPrefixOf (c :: cs) then
      dropIncomplete (incompleteFileSuffix.length - 1) cs
    else c :: dropIncomplete 0 cs

/-- What one pass of the loop of `getFileNameList` does with an entry before
it comes to the name: it goes on to the next entry (`continue`), returns with
an error, or has set `Type`, `Creator` and `FileSize` of the record. -/
inductive Listed where
  | skip
  | fail (err : GoError)
  | record (fnwi : FileNameWithInfo)

/-- The zero value of `FileNameWithInfo` (`var fnwi FileNameWithInfo`). -/
def FileNameWithInfo.zero : FileNameWithInfo :=
  { Type_ := [0, 0, 0, 0], Creator := [0, 0, 0, 0], FileSize := [0, 0, 0, 0],
    NameSize := [0, 0], name := [] }

/-- The record of a folder with `n` entries (files.go, lines 73-75 and
87-89): the size is `uint32(len(dir))`, the type "fldr", the creator four zero
bytes. -/
def folderRecord (n : Nat) : FileNameWithInfo :=
  { FileNameWithInfo.zero with
    FileSize := beBytes 4 (n % 4294967296),
    Type_ := copyInto 4 (ascii "fldr"),
    Creator := copyInto 4 [0, 0, 0, 0] }

/-- The record of a file of the given name and size (files.go, lines 77-79
and 95-97): the size is `uint32(size)`, type and creator come from the name. -/
def fileRecord (h : Host) (name : List Byte) (size : Int) : FileNameWithInfo :=
  { FileNameWithInfo.zero with
    FileSize := beBytes 4 (size % 4294967296).toNat,
    Type_ := copyInto 4 (fileTypeFromFilename h name).TypeCode,
    Creator := copyInto 4 (fileTypeFromFilename h name).CreatorCode }

/-- The first part of the loop body of `getFileNameList` (files.go, lines
50-98). -/
def entryInfo (h : Host) (filePath : List Byte) (file : FileInfo) : Listed :=
  if file.Symlink then
    match h.Readlink (filePath ++ ascii "/" ++ file.Name) with
    | Except.error err => Listed.fail err
    | Except.ok resolvedPath =>
      match h.Stat (filePath ++ ascii "/" ++ resolvedPath) with
      | StatResult.notExist _ => Listed.skip
      | StatResult.failed err => Listed.fail err
      | StatResult.ok rFile =>
        if rFile.IsDir then
          match h.ReadDir (filePath ++ ascii "/" ++ file.Name) with
          | Except.error err => Listed.fail err
          | Except.ok dir => Listed.record (folderRecord dir.length)
        else Listed.record (fileRecord h rFile.Name rFile.Size)
  else if file.IsDir then
    match h.ReadDir (filePath ++ ascii "/" ++ file.Name) with
    | Except.error err => Listed.fail err
    | Except.ok dir => Listed.record (folderRecord dir.length)
  else
    if file.Size > 4294967296 then Listed.skip
    else Listed.record (fileRecord h file.Name file.Size)

/-- The second part of the loop body of `getFileNameList` (files.go, lines
100-106): the name without ".incomplete" and its length as a `uint16`. -/
def withName (fnwi : FileNameWithInfo) (file : FileInfo) : FileNameWithInfo :=
  { fnwi with
    NameSize := copyInto 2 (beBytes 2 ((dropIncomplete 0 file.Name).length % 65536)),
    name := dropIncomplete 0 file.Name }

/-- The loop of `getFileNameList` (files.go, lines 49-113) over the entries
that are left, with the fields appended so far. -/
def listEntries (h : Host) (filePath : List Byte) :
    List FileInfo → List Field → List Field × Option GoError
  | [], fields => (fields, none)
  | file :: rest, fields =>
    match entryInfo h filePath file with
    | Listed.skip => listEntries h filePath rest fields
    | Listed.fail err => (fields, some err)
    | Listed.record fnwi =>
      listEntries h filePath rest
        (fields ++ [NewField h.fieldFileNameWithInfo (withName fnwi file).MarshalBinary])

/-- Function `getFileNameList` (files.go, lines 43-116): the fields and the
error returned. A folder that cannot be read gives no field and no error. -/
def getFileNameList (h : Host) (filePath : List Byte) : List Field × Option GoError :=
  match h.ReadDir filePath with
  | Except.error _ => ([], none)
  | Except.ok files => listEntries h filePath files []

/-! ## Concrete states used by the examples -/

/-- A session whose account has the access bitmap stored at address 10. -/
def guestConn : ClientConn :=
  { RemoteAddr := [], ID := some 1, Icon := some 2, Flags := some 3, UserName := [103],
    Account := some { Login := [103], Password := [], Access := some 10 },
    IdleTime := 0, Version := none, Idle := false, AutoReply := [], Agreed := true }

/-- A world in which the access bitmap at address 10 is all zero. -/
def guestWorld : World :=
  { mem := fun a =>
      if a = 10 then some [0, 0, 0, 0, 0, 0, 0, 0]
      else if a = 1 then some [0, 1]
      else if a = 2 then some [0, 0]
      else if a = 3 then some [0, 0]
      else none,
    conns := fun a => if a = 100 then some guestConn else none,
    Clients := [(1, 100)],
    outbox := [],
    rand := fun n => n,
    randPos := 0 }

/-- A world in which the access bitmap at address 10 has the bits 1 and 63
(in wire numbering) set, and so its most significant byte is 0x40. -/
def memberWorld : World :=
  { guestWorld with
    mem := fun a => if a = 10 then some [64, 0, 0, 0, 0, 0, 0, 1] else guestWorld.mem a }

/-- A `tranChatSend` request carrying "hai" (type 105, request ID 9acb0442). -/
def chatRequest : Transaction :=
  { clientID := some 1, Flags := 0, IsReply := 0, Type_ := [0, 105],
    ID := [154, 203, 4, 66], ErrorCode := [0, 0, 0, 0],
    Fields := [NewField 101 [104, 97, 105]] }

/-- A handler body that answers with one empty success reply. -/
def ackBody : HandlerFunc :=
  fun w a t =>
    match w.conns a with
    | none => none
    | some cc => some { world := w, res := [cc.NewReply t []], err := none }

/-- A session marked away, with ID 00 01 (at address 1) and flags 00 01 (at
address 3): the away bit is set. -/
def awayConn : ClientConn :=
  { guestConn with IdleTime := 7, Idle := true }

/-- A second session, with ID 00 02 (at address 21). -/
def secondConn : ClientConn :=
  { RemoteAddr := [], ID := some 21, Icon := some 22, Flags := some 23, UserName := [98],
    Account := some { Login := [98], Password := [], Access := some 10 },
    IdleTime := 0, Version := none, Idle := false, AutoReply := [], Agreed := true }

/-- A third session, with ID 00 03 (at address 31), that has not yet agreed. -/
def thirdConn : ClientConn :=
  { RemoteAddr := [], ID := some 31, Icon := some 32, Flags := some 33, UserName := [99],
    Account := some { Login := [99], Password := [], Access := some 10 },
    IdleTime := 0, Version := none, Idle := false, AutoReply := [], Agreed := false }

/-- A server with the three sessions above; the first one is away. -/
def lobby : World :=
  { mem := fun a =>
      if a = 10 then some [0, 0, 0, 0, 0, 0, 0, 0]
      else if a = 1 then some [0, 1]
      else if a = 2 then some [0, 0]
      else if a = 3 then some [0, 1]
      else if a = 21 then some [0, 2]
      else if a = 22 then some [0, 0]
      else if a = 23 then some [0, 0]
      else if a = 31 then some [0, 3]
      else if a = 32 then some [0, 0]
      else if a = 33 then some [0, 0]
      else none,
    conns := fun a =>
      if a = 100 then some awayConn
      else if a = 200 then some secondConn
      else if a = 300 then some thirdConn
      else none,
    Clients := [(2, 200), (1, 100), (3, 300)],
    outbox := [],
    rand := fun n => n + 1000,
    randPos := 0 }

/-- A handler table with one entry, for `tranChatSend` (105), which requires
`fieldData` (101) with minimum length 0 and answers with an empty reply. -/
def chatOnly : Nat → Option TransactionType :=
  fun n =>
    if n = 105 then
      some { Handler := ackBody, Name := "tranChatSend",
             RequiredFields := [{ ID := 101, minLen := 0 }] }
    else none

/-- A `tranChatSend` request without `fieldData`. -/
def emptyChatRequest : Transaction :=
  { chatRequest with Fields := [] }

/-- A request of type 300 (`tranGetUserNameList`), for which `chatOnly` has no
handler. -/
def listRequest : Transaction :=
  { chatRequest with Type_ := [1, 44], Fields := [] }

/-- The server `lobby` with the random generator of the scenarios of section 8
of the spec: seeded to 1, it yields 0x9acb0442, 0xf0c5341e, 0x52fdfc07. -/
def seededLobby : World :=
  { lobby with
    rand := fun n => if n = 0 then 0x9acb0442 else if n = 1 then 0xf0c5341e else 0x52fdfc07 }

/-- A session without account, as the members of the private chat of
`TestHandleChatSend`. -/
def memberConn (idPtr : Addr) : ClientConn :=
  { RemoteAddr := [], ID := some idPtr, Icon := none, Flags := none, UserName := [],
    Account := none, IdleTime := 0, Version := none, Idle := false, AutoReply := [],
    Agreed := true }

/-- A session with an account whose access bitmap is at `accessPtr`. -/
def chatConn (idPtr accessPtr : Addr) : ClientConn :=
  { memberConn idPtr with
    Account := some { Login := [], Password := [], Access := some accessPtr } }

/-- The server of `TestHandleChatSend`: the sender (behind 100) may send chat
(bit 10 of its bitmap is set); of the sessions 1, 2 and 3 of `Clients` only the
first has any permission; the private chat 1 has two members, 1 and 2. -/
def chatWorld : World :=
  { mem := fun a =>
      if a = 10 then some [0, 32, 0, 0, 0, 0, 0, 0]
      else if a = 11 then some [255, 255, 255, 255, 255, 255, 255, 255]
      else if a = 12 then some [0, 0, 0, 0, 0, 0, 0, 0]
      else if a = 21 then some [0, 1]
      else if a = 22 then some [0, 2]
      else if a = 23 then some [0, 3]
      else if a = 41 then some [0, 1]
      else if a = 42 then some [0, 2]
      else none,
    conns := fun a =>
      if a = 100 then some { chatConn 20 10 with UserName := [0, 1] }
      else if a = 201 then some (chatConn 21 11)
      else if a = 202 then some (chatConn 22 12)
      else if a = 203 then some (chatConn 23 12)
      else if a = 301 then some (memberConn 41)
      else if a = 302 then some (memberConn 42)
      else none,
    Clients := [(1, 201), (2, 202), (3, 203)],
    outbox := [],
    rand := fun n => if n = 0 then 0x9acb0442 else if n = 1 then 0xf0c5341e else 0x52fdfc07,
    randPos := 0,
    PrivateChats := [(1, { Subject := [], ClientConn := [(1, 301), (2, 302)] })] }

/-- A server with the single account "guest", whose stored hash is "h". -/
def guestServer : World :=
  { guestWorld with
    Accounts := [(ascii "guest", { Login := ascii "guest", Password := ascii "h", Access := some 10 })] }

/-- A stand-in for the bcrypt check in the examples: only the password "pw"
matches the hash "h". -/
def toyCompare (hash password : List Byte) : Option GoError :=
  if hash = ascii "h" ∧ password = ascii "pw" then none else some "mismatch"

/-- A client that has sent nothing yet, on a working connection, with the
random generator of the scenarios of the spec. -/
def freshClient : Client :=
  { activeTasks := fun _ => none,
    pref := some { Username := ascii "guest", IconID := 128, Bookmarks := [], Tracker := [] },
    written := [],
    connErr := none,
    rand := fun n => if n = 0 then 0x9acb0442 else if n = 1 then 0xf0c5341e else 0x52fdfc07,
    randPos := 0 }

/-- The handler of `tranKeepAlive` in `clientHandlers` (client.go, lines
200-205): it returns no transaction and no error. -/
def keepAliveHandler : ClientHandler :=
  fun c _ => some (c, [], none)

/-- A handler table with the entry of `clientHandlers` for `tranKeepAlive`
only. -/
def keepAliveOnly : Nat → Option ClientHandler :=
  fun n => if n = tranKeepAlive then some keepAliveHandler else none

/-- A keep-alive request (type 500) with the request ID 9acb0442. -/
def keepAliveRequest : Transaction :=
  { clientID := none, Flags := 0, IsReply := 0, Type_ := [1, 244],
    ID := [154, 203, 4, 66], ErrorCode := [0, 0, 0, 0], Fields := [] }

/-- An error reply to `keepAliveRequest`: same ID, type 0. -/
def keepAliveReply : Transaction :=
  { clientID := none, Flags := 0, IsReply := 1, Type_ := [0, 0],
    ID := [154, 203, 4, 66], ErrorCode := [0, 0, 0, 1], Fields := [] }

/-- The state of `freshClient` after it has sent `keepAliveRequest`. -/
def waitingClient : Client :=
  { freshClient with
    activeTasks := fun k => if k = 2596996162 then some keepAliveRequest else none,
    written := [keepAliveRequest] }

/-- A client on whose connection the server has answered the handshake with
`ServerHandshake`. -/
def greetedClient : Client :=
  { freshClient with inbound := [0x54, 0x52, 0x54, 0x50, 0, 0, 0, 0] }

/-- A client that lists two users: "al" (ID 00 01) and "bob" (ID 00 02), who
is away (flags 00 01). -/
def listingClient : Client :=
  { freshClient with
    UserList :=
      [{ ID := [0, 1], Name := ascii "al", Icon := [0, 0], Flags := [0, 0] },
       { ID := [0, 2], Name := ascii "bob", Icon := [0, 0], Flags := [0, 1] }] }

/-- The `tranNotifyChangeUser` that `handleTransaction` of the server sends
when the user 00 02 is no longer away: the ID, the flags 00 00, the name "bob"
and the icon 00 80. -/
def backNotice : Transaction :=
  { clientID := none, Flags := 0, IsReply := 0, Type_ := [1, 45],
    ID := [0, 0, 0, 7], ErrorCode := [0, 0, 0, 0],
    Fields := [NewField fieldUserID [0, 2], NewField fieldUserFlags [0, 0],
      NewField fieldUserName (ascii "bob"), NewField fieldUserIconID [0, 128]] }

/-- A `tranNotifyChangeUser` for a user that is not listed yet: ID 00 03, name
"cy". -/
def newcomerNotice : Transaction :=
  { backNotice with
    Fields := [NewField fieldUserID [0, 3], NewField fieldUserFlags [0, 0],
      NewField fieldUserName (ascii "cy"), NewField fieldUserIconID [0, 0]] }

/-- Client preferences with one bookmark. -/
def guestPrefs : ClientPrefs :=
  { Username := ascii "guest", IconID := 128,
    Bookmarks := [{ Name := ascii "old", Addr := ascii "a:1", Login := [], Password := [] }],
    Tracker := [] }

/-- A client on whose connection the server has answered the handshake with
the error code 1. -/
def refusedClient : Client :=
  { freshClient with inbound := [0x54, 0x52, 0x54, 0x50, 0, 0, 0, 1] }

/-- The entries of the folder "/Files/docs" of the examples: two files. -/
def docsEntries : List FileInfo :=
  [{ Name := ascii "a.txt", Size := 3, IsDir := false, Symlink := false },
   { Name := ascii "b.txt", Size := 5, IsDir := false, Symlink := false }]

/-- A host whose folder "/Files" holds the folder "docs", with two files, and
the symlink "lnk" to "docs"; every file has the type of `defaultFileType`. -/
def docsHost : Host :=
  { ReadDir := fun p =>
      if p = ascii "/Files" then
        Except.ok [{ Name := ascii "docs", Size := 4096, IsDir := true, Symlink := false },
                   { Name := ascii "lnk", Size := 4, IsDir := false, Symlink := true }]
      else if p = ascii "/Files/docs" ∨ p = ascii "/Files/lnk" then Except.ok docsEntries
      else Except.error "not a directory",
    Readlink := fun p =>
      if p = ascii "/Files/lnk" then Except.ok (ascii "docs") else Except.error "invalid argument",
    Stat := fun p =>
      if p = ascii "/Files/docs" then
        StatResult.ok { Name := ascii "docs", Size := 4096, IsDir := true, Symlink := false }
      else StatResult.notExist "no such file or directory",
    ToLower := fun s => s,
    fileTypes := fun _ => none,
    defaultFileType := { TypeCode := ascii "TEXT", CreatorCode := ascii "TTXT" },
    fieldFileNameWithInfo := 200 }

/-- A host whose folder "/Files" holds one regular file, "big.bin", of
4294967296 bytes (2^32). -/
def bigFileHost : Host :=
  { docsHost with
    ReadDir := fun p =>
      if p = ascii "/Files" then
        Except.ok [{ Name := ascii "big.bin", Size := 4294967296, IsDir := false, Symlink := false }]
      else Except.error "not a directory" }

/-- A host whose folder "/Files" holds one symlink, "big.lnk", to the regular
file "big.bin" of 4294967301 bytes (2^32 + 5). -/
def bigLinkHost : Host :=
  { docsHost with
    ReadDir := fun p =>
      if p = ascii "/Files" then
        Except.ok [{ Name := ascii "big.lnk", Size := 7, IsDir := false, Symlink := true }]
      else Except.error "not a directory",
    Readlink := fun p =>
      if p = ascii "/Files/big.lnk" then Except.ok (ascii "big.bin")
      else Except.error "invalid argument",
    Stat := fun p =>
      if p = ascii "/Files/big.bin" then
        StatResult.ok { Name := ascii "big.bin", Size := 4294967301, IsDir := false,
                        Symlink := false }
      else StatResult.notExist "no such file or directory" }

/-- A host whose folder "/Files" holds one symlink, "lnk", with the absolute
target "/srv/data", a directory with the two files of `docsEntries`. Its
`Stat` follows links, as `os.Stat` does: "/Files/lnk" and "/srv/data" are the
same directory; no other path exists. -/
def absoluteLinkHost : Host :=
  { docsHost with
    ReadDir := fun p =>
      if p = ascii "/Files" then
        Except.ok [{ Name := ascii "lnk", Size := 9, IsDir := false, Symlink := true }]
      else if p = ascii "/Files/lnk" ∨ p = ascii "/srv/data" then Except.ok docsEntries
      else Except.error "no such file or directory",
    Readlink := fun p =>
      if p = ascii "/Files/lnk" then Except.ok (ascii "/srv/data")
      else Except.error "invalid argument",
    Stat := fun p =>
      if p = ascii "/Files/lnk" then
        StatResult.ok { Name := ascii "lnk", Size := 4096, IsDir := true, Symlink := false }
      else if p = ascii "/srv/data" then
        StatResult.ok { Name := ascii "data", Size := 4096, IsDir := true, Symlink := false }
      else StatResult.notExist "no such file or directory" }

/-- The notice `newcomerNotice` without its `fieldUserFlags`: the ID 00 03 and
the name "cy" only. -/
def flaglessNotice : Transaction :=
  { backNotice with
    Fields := [NewField fieldUserID [0, 3], NewField fieldUserName (ascii "cy")] }

/-! ## Theorems -/

/-! ### Big-endian values and bits -/

theorem beValue_append (xs ys : List Byte) :
    beValue (xs ++ ys) = beValue xs * 256 ^ ys.length + beValue ys := by
  induction ys using List.reverseRecOn generalizing xs with
  | nil => simp [beValue]
  | append_singleton ys y ih =>
    have h1 : beValue (xs ++ (ys ++ [y])) = beValue (xs ++ ys) * 256 + y.val := by
      simp [beValue, List.foldl_append]
    have h2 : beValue (ys ++ [y]) = beValue ys * 256 + y.val := by
      simp [beValue, List.foldl_append]
    rw [h1, h2, ih]
    simp [pow_succ]
    ring

theorem beValue_lt (bs : List Byte) : beValue bs < 256 ^ bs.length := by
  induction bs using List.reverseRecOn with
  | nil => simp [beValue]
  | append_singleton ys y ih =>
    rw [beValue_append]
    have hy : y.val < 256 := y.isLt
    simp [beValue, pow_succ] at *
    omega

theorem Uint64_eq (bs : List Byte) (h : bs.length = 8) : Uint64 bs = some (beValue bs) := by
  have : bs.take 8 = bs := by rw [← h]; exact List.take_length bs
  simp [Uint64, h, this]

theorem beValue_lt_of_length_eight (bs : List Byte) (h : bs.length = 8) :
    beValue bs < 2 ^ 64 := by
  have := beValue_lt bs
  rw [h] at this
  exact this

/-- Bits 0 to 63 of `int64(u)` in two's complement are the bits of `u`. -/
theorem testBit_toInt64 (u i : Nat) (hu : u < 2 ^ 64) (hi : i < 64) :
    (toInt64 u).testBit i = u.testBit i := by
  unfold toInt64
  rw [Nat.mod_eq_of_lt hu]
  split
  · rfl
  · rename_i hge
    have hneg : ((u : Nat) : Int) - 2 ^ 64 = Int.negSucc (2 ^ 64 - (u + 1)) := by
      rw [Int.negSucc_eq]
      have : ((2 ^ 64 - (u + 1) : Nat) : Int) = (2 : Int) ^ 64 - (u + 1) := by
        rw [Nat.cast_sub (by omega)]
        push_cast
        ring
      rw [this]
      ring
    rw [hneg]
    show (!(Nat.testBit (2 ^ 64 - (u + 1)) i)) = u.testBit i
    rw [Nat.testBit_two_pow_sub_succ hu]
    simp [hi]

theorem shiftRight_and_one_eq_one_iff (v i : Nat) :
    ((v >>> i) &&& 1 = 1) ↔ v.testBit i = true := by
  rw [Nat.testBit, Nat.and_comm]
  have h : 1 &&& (v >>> i) = (v >>> i) % 2 := by
    rw [Nat.and_comm]; exact Nat.and_one_is_mod _
  rw [h]
  rcases Nat.mod_two_eq_zero_or_one (v >>> i) with h0 | h1
  · simp [h0]
  · simp [h1]

/-! ### C1: `Authorize` and the access bitmap -/

/-- C1, as stated, fails at permission 0: on the all-zero bitmap `Authorize(0)`
returns true although `(value >> 63) & 1` is 0. -/
theorem authorize_zero_ignores_bitmap :
    guestConn.Account = some { Login := [103], Password := [], Access := some 10 } ∧
    guestWorld.mem 10 = some [0, 0, 0, 0, 0, 0, 0, 0] ∧
    ClientConn.Authorize guestWorld guestConn 0 = some true ∧
    ¬ ((beValue [0, 0, 0, 0, 0, 0, 0, 0] >>> (63 - 0)) &&& 1 = 1) := by
  refine ⟨rfl, rfl, rfl, ?_⟩
  decide

/-- C1 (amended): for an 8-byte access bitmap read as a big-endian unsigned
64-bit `value`, `Authorize(N)` returns true exactly when
`(value >> (63 - N)) & 1 = 1` for every `N` from 1 to 63, and returns true
whatever the bitmap for `N = 0`. -/
theorem authorize_iff_bit (w : World) (cc : ClientConn) (account : Account) (p : Addr)
    (bits : List Byte) (N : Int)
    (hacc : cc.Account = some account) (hptr : account.Access = some p)
    (hmem : w.mem p = some bits) (hlen : bits.length = 8)
    (h0 : 0 ≤ N) (h63 : N ≤ 63) :
    (N ≠ 0 → ClientConn.Authorize w cc N
        = some (decide ((beValue bits >>> (63 - N).toNat) &&& 1 = 1))) ∧
    (N = 0 → ClientConn.Authorize w cc N = some true) := by
  constructor
  · intro hN
    have hlt : beValue bits < 2 ^ 64 := beValue_lt_of_length_eight bits hlen
    have hi : (63 - N).toNat < 64 := by omega
    have hnn : ¬ (63 - N < 0) := by omega
    simp only [ClientConn.Authorize, hN, if_false, hacc, hptr, hmem, Uint64_eq bits hlen,
      bigBit, hnn, testBit_toInt64 _ _ hlt hi]
    by_cases hb : (beValue bits).testBit (63 - N).toNat = true
    · have := (shiftRight_and_one_eq_one_iff (beValue bits) (63 - N).toNat).2 hb
      simp [hb, this]
    · have hne : ¬ ((beValue bits >>> (63 - N).toNat) &&& 1 = 1) :=
        fun h => hb ((shiftRight_and_one_eq_one_iff _ _).1 h)
      simp [hb, hne]
  · intro hN
    simp [ClientConn.Authorize, hN]

/-- C1 witness: the amended statement at permission 1 on the bitmap
`40 00 00 00 00 00 00 01`. -/
theorem authorize_iff_bit_witness :
    (((1 : Int) ≠ 0 → ClientConn.Authorize memberWorld guestConn 1
        = some (decide ((beValue [64, 0, 0, 0, 0, 0, 0, 1] >>> (63 - (1 : Int)).toNat) &&& 1 = 1))) ∧
     ((1 : Int) = 0 → ClientConn.Authorize memberWorld guestConn 1 = some true)) :=
  authorize_iff_bit memberWorld guestConn { Login := [103], Password := [], Access := some 10 }
    10 [64, 0, 0, 0, 0, 0, 0, 1] 1 rfl rfl rfl rfl (by decide) (by decide)

/-! ### C4, C5: replies -/

theorem Uint16_beBytes (v : Nat) (h : v < 65536) : Uint16 (beBytes 2 v) = some v := by
  simp [Uint16, beBytes, beValue, Fin.ofNat]
  omega

/-- C4: `NewErrReply(t, errMsg)` is a reply (IsReply=1) of Type 0 with
ErrorCode 1 and Flags 0, echoes the ID of `t`, is addressed to the session's
own ID, and carries exactly one field, `fieldError`, whose data is `errMsg`. -/
theorem NewErrReply_shape (cc : ClientConn) (t : Transaction) (errMsg : List Byte) :
    (cc.NewErrReply t errMsg).IsReply = 1 ∧
    (cc.NewErrReply t errMsg).Type_ = [0, 0] ∧
    Uint16 (cc.NewErrReply t errMsg).Type_ = some 0 ∧
    (cc.NewErrReply t errMsg).ErrorCode = [0, 0, 0, 1] ∧
    Uint32 (cc.NewErrReply t errMsg).ErrorCode = some 1 ∧
    (cc.NewErrReply t errMsg).Flags = 0 ∧
    (cc.NewErrReply t errMsg).ID = t.ID ∧
    (cc.NewErrReply t errMsg).clientID = cc.ID ∧
    ∃ f : Field, (cc.NewErrReply t errMsg).Fields = [f] ∧
      Uint16 f.ID = some fieldError ∧ f.Data = errMsg := by
  refine ⟨rfl, rfl, rfl, rfl, rfl, rfl, rfl, rfl, NewField fieldError errMsg, rfl, ?_, rfl⟩
  exact Uint16_beBytes fieldError (by decide)

/-- C5: `NewReply(t, fields...)` is a reply (IsReply=1) that echoes the ID and
the Type of `t`, has ErrorCode 0 and Flags 0, is addressed to the session's
own ID, and carries exactly the given fields in the given order. -/
theorem NewReply_shape (cc : ClientConn) (t : Transaction) (fields : List Field) :
    (cc.NewReply t fields).IsReply = 1 ∧
    (cc.NewReply t fields).ID = t.ID ∧
    (cc.NewReply t fields).Type_ = t.Type_ ∧
    (cc.NewReply t fields).ErrorCode = [0, 0, 0, 0] ∧
    Uint32 (cc.NewReply t fields).ErrorCode = some 0 ∧
    (cc.NewReply t fields).Flags = 0 ∧
    (cc.NewReply t fields).clientID = cc.ID ∧
    (cc.NewReply t fields).Fields = fields := by
  refine ⟨rfl, rfl, rfl, rfl, rfl, rfl, rfl, rfl⟩

/-! ### C2: the permission gate -/

theorem dropDotDot_chain (cs : List Byte) :
    List.Chain' (fun a b : Byte => ¬ (a = 46 ∧ b = 46)) (dropDotDot false cs) ∧
    List.Chain' (fun a b : Byte => ¬ (a = 46 ∧ b = 46)) (dropDotDot true cs) := by
  induction cs with
  | nil => simp [dropDotDot]
  | cons c cs ih =>
    by_cases hc : c = 46
    · simp only [dropDotDot, hc, if_true, if_false, Bool.false_eq_true]
      exact ⟨ih.2, ih.1⟩
    · simp only [dropDotDot, hc, if_false]
      refine ⟨?_, ?_⟩
      · simp only [if_false, Bool.false_eq_true]
        exact List.Chain'.cons' ih.1 (fun y _ h => hc h.1)
      · simp only [if_true]
        refine List.Chain'.cons' (List.Chain'.cons' ih.1 (fun y _ h => hc h.1)) ?_
        intro y hy h
        simp at hy
        exact hc (hy ▸ h.2)

theorem dropDotDot_ne_dotdot (cs : List Byte) : dropDotDot false cs ≠ [46, 46] := by
  intro h
  have := (dropDotDot_chain cs).1
  rw [h] at this
  simp at this

theorem mem_dropDotDot (b : Byte) (pending : Bool) (cs : List Byte)
    (h : b ∈ dropDotDot pending cs) : b = 46 ∨ b ∈ cs := by
  induction cs generalizing pending with
  | nil =>
    cases pending <;> simp [dropDotDot] at h
    exact Or.inl h
  | cons c cs ih =>
    by_cases hc : c = 46
    · cases pending
      · simp only [dropDotDot, hc, if_true] at h
        rcases ih _ h with h | h
        · exact Or.inl h
        · exact Or.inr (List.mem_cons_of_mem _ h)
      · simp only [dropDotDot, hc, if_true] at h
        rcases ih _ h with h | h
        · exact Or.inl h
        · exact Or.inr (List.mem_cons_of_mem _ h)
    · cases pending
      · simp only [dropDotDot, hc, if_false, Bool.false_eq_true] at h
        rcases List.mem_cons.1 h with h | h
        · exact Or.inr (h ▸ List.mem_cons_self _ _)
        · rcases ih _ h with h | h
          · exact Or.inl h
          · exact Or.inr (List.mem_cons_of_mem _ h)
      · simp only [dropDotDot, hc, if_false, if_true] at h
        rcases List.mem_cons.1 h with h | h
        · exact Or.inl h
        · rcases List.mem_cons.1 h with h | h
          · exact Or.inr (h ▸ List.mem_cons_self _ _)
          · rcases ih _ h with h | h
            · exact Or.inl h
            · exact Or.inr (List.mem_cons_of_mem _ h)

theorem slash_not_mem_stripComponent (s : List Byte) : (47 : Byte) ∉ stripComponent s := by
  intro h
  rcases mem_dropDotDot _ _ _ h with h | h
  · exact absurd h (by decide)
  · simp at h

theorem stripComponent_ne_dotdot (s : List Byte) : stripComponent s ≠ [46, 46] :=
  dropDotDot_ne_dotdot _

theorem splitSlash_ne_nil (s : List Byte) : splitSlash s ≠ [] := by
  cases s with
  | nil => simp [splitSlash]
  | cons c cs =>
    by_cases hc : c = 47
    · simp [splitSlash, hc]
    · simp only [splitSlash, hc, if_false]
      split <;> simp

theorem splitSlash_of_not_mem (s : List Byte) (h : (47 : Byte) ∉ s) : splitSlash s = [s] := by
  induction s with
  | nil => rfl
  | cons c cs ih =>
    have hc : c ≠ 47 := fun e => h (e ▸ List.mem_cons_self _ _)
    have hcs : (47 : Byte) ∉ cs := fun e => h (List.mem_cons_of_mem _ e)
    simp [splitSlash, hc, ih hcs]

theorem splitSlash_append_slash (a b : List Byte) :
    splitSlash (a ++ 47 :: b) = splitSlash a ++ splitSlash b := by
  induction a with
  | nil => simp [splitSlash]
  | cons c cs ih =>
    by_cases hc : c = 47
    · simp [splitSlash, hc, ih]
    · simp only [List.cons_append, splitSlash, hc, if_false]
      have ih2 : splitSlash (cs.append (47 :: b)) = splitSlash cs ++ splitSlash b := ih
      rw [ih2]
      cases hs : splitSlash cs with
      | nil => exact absurd hs (splitSlash_ne_nil cs)
      | cons seg segs => simp

theorem intercalate_cons_cons (sep x y : List Byte) (rest : List (List Byte)) :
    List.intercalate sep (x :: y :: rest) = x ++ sep ++ List.intercalate sep (y :: rest) := by
  simp [List.intercalate, List.intersperse]

theorem splitSlash_intercalate (r : List Byte) (elems : List (List Byte))
    (h : ∀ e ∈ elems, (47 : Byte) ∉ e) :
    splitSlash (List.intercalate [47] (r :: elems)) = splitSlash r ++ elems := by
  induction elems generalizing r with
  | nil => simp [List.intercalate, List.intersperse]
  | cons e es ih =>
    rw [intercalate_cons_cons]
    have he : (47 : Byte) ∉ e := h e (List.mem_cons_self _ _)
    have hes : ∀ x ∈ es, (47 : Byte) ∉ x := fun x hx => h x (List.mem_cons_of_mem _ hx)
    have : r ++ [47] ++ List.intercalate [47] (e :: es)
        = r ++ 47 :: List.intercalate [47] (e :: es) := by simp
    rw [this, splitSlash_append_slash, ih e hes, splitSlash_of_not_mem e he]
    simp

theorem foldl_cleanStep_names (rooted : Bool) (stack : List (List Byte))
    (elems : List (List Byte)) (h : ∀ e ∈ elems, e ≠ [46, 46]) :
    elems.foldl (cleanStep rooted) stack
      = stack ++ elems.filter (fun e => e ≠ [] ∧ e ≠ [46]) := by
  induction elems generalizing stack with
  | nil => simp
  | cons e es ih =>
    have he : e ≠ [46, 46] := h e (List.mem_cons_self _ _)
    have hes : ∀ x ∈ es, x ≠ [46, 46] := fun x hx => h x (List.mem_cons_of_mem _ hx)
    rw [List.foldl_cons, ih _ hes]
    by_cases h1 : e = [] ∨ e = [46]
    · have hf : ¬ (e ≠ [] ∧ e ≠ [46]) := by tauto
      simp [cleanStep, h1, List.filter_cons, hf]
    · have hf : e ≠ [] ∧ e ≠ [46] := by tauto
      simp [cleanStep, h1, he, List.filter_cons, hf]

theorem intercalate_append (sep : List Byte) (A E : List (List Byte)) (hA : A ≠ [])
    (hE : E ≠ []) :
    List.intercalate sep (A ++ E) = List.intercalate sep A ++ sep ++ List.intercalate sep E := by
  induction A with
  | nil => exact absurd rfl hA
  | cons a as ih =>
    cases as with
    | nil =>
      cases E with
      | nil => exact absurd rfl hE
      | cons e es =>
        rw [List.singleton_append, intercalate_cons_cons]
        simp [List.intercalate, List.intersperse]
    | cons b bs =>
      rw [List.cons_append, List.cons_append, intercalate_cons_cons, ← List.cons_append,
        ih (by simp), intercalate_cons_cons]
      simp

theorem intercalate_cons_eq (sep x : List Byte) (rest : List (List Byte)) :
    ∃ tail, List.intercalate sep (x :: rest) = x ++ tail := by
  cases rest with
  | nil => exact ⟨[], by simp [List.intercalate, List.intersperse]⟩
  | cons y ys => exact ⟨sep ++ List.intercalate sep (y :: ys), by
      rw [intercalate_cons_cons]; simp⟩

theorem isAbs_intercalate (r : List Byte) (elems : List (List Byte)) (h : isAbs r = true) :
    isAbs (List.intercalate [47] (r :: elems)) = true := by
  obtain ⟨tail, ht⟩ := intercalate_cons_eq [47] r elems
  rw [ht]
  cases r with
  | nil => simp [isAbs] at h
  | cons c cs => simpa [isAbs] using h

theorem Join_under_root (fileRoot : List Byte) (elems : List (List Byte))
    (habs : isAbs fileRoot = true)
    (h1 : ∀ e ∈ elems, (47 : Byte) ∉ e) (h2 : ∀ e ∈ elems, e ≠ [46, 46]) :
    Join (fileRoot :: elems)
      = renderAbs (cleanSegs fileRoot ++ elems.filter (fun e => e ≠ [] ∧ e ≠ [46])) := by
  have hne : fileRoot ≠ [] := by
    intro e; rw [e] at habs; simp [isAbs] at habs
  have hdw : (fileRoot :: elems).dropWhile (fun e => decide (e = [])) = fileRoot :: elems := by
    simp [List.dropWhile, hne]
  unfold Join
  rw [hdw]
  simp only [Clean, isAbs_intercalate fileRoot elems habs, if_true]
  congr 1
  unfold cleanSegs
  rw [isAbs_intercalate fileRoot elems habs, splitSlash_intercalate fileRoot elems h1,
    List.foldl_append, habs, foldl_cleanStep_names _ _ _ h2]

theorem underRoot_renderAbs (fileRoot : List Byte) (names : List (List Byte))
    (habs : isAbs fileRoot = true) :
    underRoot fileRoot (renderAbs (cleanSegs fileRoot ++ names)) = true := by
  have hC : Clean fileRoot = renderAbs (cleanSegs fileRoot) := by simp [Clean, habs]
  unfold underRoot
  rw [hC]
  cases names with
  | nil => simp
  | cons n ns =>
    by_cases hr : renderAbs (cleanSegs fileRoot) = [47]
    · rw [hr]
      simp [renderAbs]
    · have hA : cleanSegs fileRoot ≠ [] := by
        intro e; apply hr; rw [e]; rfl
      have : renderAbs (cleanSegs fileRoot ++ n :: ns)
          = (renderAbs (cleanSegs fileRoot) ++ [47]) ++ List.intercalate [47] (n :: ns) := by
        simp only [renderAbs]
        rw [intercalate_append [47] _ _ hA (by simp)]
        simp
      rw [this]
      simp [hr]

/-- C3: for every absolute `FileRoot`, every decodable wire `FilePath` (or none)
and every file name (or none), whatever "..", "/", "\" or absolute anchors
they contain, `readPath` returns, without error, a path that is `FileRoot`
itself or a descendant of it; for the root /usr/local/var/mobius/Files and the
name "../../../foo" it returns /usr/local/var/mobius/Files/foo. -/
theorem readPath_sandboxed (fileRoot : List Byte) (filePath fileName : Option (List Byte))
    (habs : isAbs fileRoot = true)
    (hdec : ∀ b, filePath = some b → ∃ fp, FilePath.UnmarshalBinary b = Except.ok fp) :
    (∃ p, readPath fileRoot filePath fileName = (p, none) ∧
      IsRootOrDescendant fileRoot p) ∧
    readPath mobiusRoot none (some (ascii "../../../foo"))
      = (ascii "/usr/local/var/mobius/Files/foo", none) := by
  refine ⟨?_, by decide⟩
  have key : ∀ items : List FilePathItem,
      ∃ names : List (List Byte), (∀ n ∈ names, IsName n) ∧
        Join ([fileRoot] ++ items.map (fun i => stripComponent i.Name)
            ++ [stripComponent (fileName.getD [])])
          = renderAbs (cleanSegs fileRoot ++ names) := by
    intro items
    have h1 : ∀ e ∈ items.map (fun i => stripComponent i.Name)
        ++ [stripComponent (fileName.getD [])], (47 : Byte) ∉ e := by
      intro e he
      simp only [List.mem_append, List.mem_map, List.mem_singleton] at he
      rcases he with ⟨i, _, rfl⟩ | rfl <;> exact slash_not_mem_stripComponent _
    have h2 : ∀ e ∈ items.map (fun i => stripComponent i.Name)
        ++ [stripComponent (fileName.getD [])], e ≠ [46, 46] := by
      intro e he
      simp only [List.mem_append, List.mem_map, List.mem_singleton] at he
      rcases he with ⟨i, _, rfl⟩ | rfl <;> exact stripComponent_ne_dotdot _
    refine ⟨(items.map (fun i => stripComponent i.Name)
        ++ [stripComponent (fileName.getD [])]).filter (fun e => e ≠ [] ∧ e ≠ [46]), ?_, ?_⟩
    · intro n hn
      rw [List.mem_filter] at hn
      have hd := hn.2
      simp only [decide_eq_true_eq] at hd
      exact ⟨hd.1, h1 n hn.1, hd.2, h2 n hn.1⟩
    · rw [List.append_assoc, List.singleton_append]
      exact Join_under_root fileRoot _ habs h1 h2
  have fin : ∀ items : List FilePathItem,
      ∃ p, (if underRoot fileRoot (Join ([fileRoot] ++ items.map (fun i => stripComponent i.Name)
            ++ [stripComponent (fileName.getD [])])) = true
          then (Join ([fileRoot] ++ items.map (fun i => stripComponent i.Name)
            ++ [stripComponent (fileName.getD [])]), (none : Option GoError))
          else ([], some "path traversal")) = (p, none) ∧ IsRootOrDescendant fileRoot p := by
    intro items
    obtain ⟨names, hnames, hj⟩ := key items
    refine ⟨renderAbs (cleanSegs fileRoot ++ names), ?_, names, hnames, rfl⟩
    rw [hj, underRoot_renderAbs fileRoot names habs]
    simp
  cases filePath with
  | none => exact fin []
  | some b =>
    obtain ⟨fp, hfp⟩ := hdec b rfl
    simp only [readPath, hfp]
    exact fin fp.Items

/-- C3 witness: root "/Files/", the wire path ("../", "foo") and the file name
"../../testFolder". -/
theorem readPath_sandboxed_witness :
    (∃ p, readPath (ascii "/Files/") (some [0, 2, 0, 0, 3, 46, 46, 47, 0, 0, 3, 102, 111, 111])
        (some (ascii "../../testFolder")) = (p, none) ∧
      IsRootOrDescendant (ascii "/Files/") p) ∧
    readPath mobiusRoot none (some (ascii "../../../foo"))
      = (ascii "/usr/local/var/mobius/Files/foo", none) :=
  readPath_sandboxed (ascii "/Files/")
    (some [0, 2, 0, 0, 3, 46, 46, 47, 0, 0, 3, 102, 111, 111])
    (some (ascii "../../testFolder")) (by decide)
    (fun b hb => by
      cases hb
      exact ⟨{ ItemCount := [0, 2],
               Items := [{ Len := 3, Name := [46, 46, 47] }, { Len := 3, Name := [102, 111, 111] }] },
        rfl⟩)

/-! ### C6: required fields -/

theorem Uint16_some_imp_ne_nil (b : List Byte) (v : Nat) (h : Uint16 b = some v) : b ≠ [] := by
  intro e
  rw [e] at h
  simp [Uint16] at h

theorem GetField_of_find_none (t : Transaction) (id : Nat)
    (h : t.Fields.find? (fun f => Uint16 f.ID == some id) = none) :
    t.GetField id = Field.zero := by
  simp [Transaction.GetField, h]

theorem GetField_of_find_some (t : Transaction) (id : Nat) (f : Field)
    (h : t.Fields.find? (fun f => Uint16 f.ID == some id) = some f) :
    t.GetField id = f ∧ f.ID ≠ [] := by
  refine ⟨by simp [Transaction.GetField, h], ?_⟩
  have := List.find?_some h
  simp at this
  exact Uint16_some_imp_ne_nil _ _ this

theorem checkRequired_eq_true_iff (t : Transaction) (rs : List requiredField) :
    checkRequired t rs = true ↔
      ∀ r ∈ rs, ∃ f, t.Fields.find? (fun f => Uint16 f.ID == some r.ID) = some f ∧
        r.minLen ≤ (f.Data.length : Int) := by
  induction rs with
  | nil => simp [checkRequired]
  | cons r rest ih =>
    cases hfind : t.Fields.find? (fun f => Uint16 f.ID == some r.ID) with
    | none =>
      have hz := GetField_of_find_none t r.ID hfind
      simp [checkRequired, hz, Field.zero, hfind]
    | some f =>
      obtain ⟨hg, hne⟩ := GetField_of_find_some t r.ID f hfind
      by_cases hlen : (f.Data.length : Int) < r.minLen
      · simp [checkRequired, hg, hne, hlen, hfind]
      · simp only [checkRequired, hg, hne, hlen, if_false, ih, List.mem_cons, forall_eq_or_imp,
          hfind, Option.some.injEq, exists_eq_left', not_lt.1 hlen, true_and]

/-- C6: for an inbound transaction whose type has a registered handler, if a
required field of the handler is absent, or its first occurrence carries fewer
bytes than its minimum length, `handleTransaction` returns no error, does not
invoke the handler, enqueues nothing on the outbox and leaves the sessions,
the memory and `Clients` as they are; and whenever the handler is invoked, every required field is present and its first occurrence
has at least the minimum length. -/
theorem handleTransaction_requires_fields (handlers : Nat → Option TransactionType)
    (w : World) (a : Addr) (cc : ClientConn) (account : Account) (t : Transaction)
    (requestNum : Nat) (handler : TransactionType)
    (hType : Uint16 t.Type_ = some requestNum) (hcc : w.conns a = some cc)
    (hacc : cc.Account = some account) (hh : handlers requestNum = some handler) :
    ((∃ r ∈ handler.RequiredFields,
        t.Fields.find? (fun f => Uint16 f.ID == some r.ID) = none ∨
        ∃ f, t.Fields.find? (fun f => Uint16 f.ID == some r.ID) = some f ∧
          (f.Data.length : Int) < r.minLen) →
      ∃ o, ClientConn.handleTransaction handlers w a t = some o ∧
        o.err = none ∧ o.invoked = false ∧ o.world.outbox = w.outbox ∧
        o.world.conns = w.conns ∧ o.world.mem = w.mem ∧ o.world.Clients = w.Clients) ∧
    (∀ o, ClientConn.handleTransaction handlers w a t = some o → o.invoked = true →
      ∀ r ∈ handler.RequiredFields,
        ∃ f, t.Fields.find? (fun f => Uint16 f.ID == some r.ID) = some f ∧
          r.minLen ≤ (f.Data.length : Int)) := by
  constructor
  · rintro ⟨r, hr, hbad⟩
    have hfalse : checkRequired t handler.RequiredFields = false := by
      cases hc : checkRequired t handler.RequiredFields with
      | false => rfl
      | true =>
        obtain ⟨f, hf, hlen⟩ := (checkRequired_eq_true_iff t _).1 hc r hr
        rcases hbad with hnone | ⟨g, hg, hshort⟩
        · rw [hnone] at hf; cases hf
        · rw [hg] at hf; cases hf; omega
    refine ⟨{ world := w, err := none, invoked := false }, ?_, rfl, rfl, rfl, rfl, rfl, rfl⟩
    simp [ClientConn.handleTransaction, hType, hcc, hh, hacc, hfalse]
  · intro o ho hinv
    cases hc : checkRequired t handler.RequiredFields with
    | true => exact (checkRequired_eq_true_iff t _).1 hc
    | false =>
      simp [ClientConn.handleTransaction, hType, hcc, hh, hacc, hc] at ho
      rw [← ho] at hinv
      cases hinv

/-- C6 witness: a `tranChatSend` without its required `fieldData`, from the
first session of `lobby`. -/
theorem handleTransaction_requires_fields_witness :
    ((∃ r ∈ [({ ID := 101, minLen := 0 } : requiredField)],
        emptyChatRequest.Fields.find? (fun f => Uint16 f.ID == some r.ID) = none ∨
        ∃ f, emptyChatRequest.Fields.find? (fun f => Uint16 f.ID == some r.ID) = some f ∧
          (f.Data.length : Int) < r.minLen) →
      ∃ o, ClientConn.handleTransaction chatOnly lobby 100 emptyChatRequest = some o ∧
        o.err = none ∧ o.invoked = false ∧ o.world.outbox = lobby.outbox ∧
        o.world.conns = lobby.conns ∧ o.world.mem = lobby.mem ∧
        o.world.Clients = lobby.Clients) ∧
    (∀ o, ClientConn.handleTransaction chatOnly lobby 100 emptyChatRequest = some o →
      o.invoked = true →
      ∀ r ∈ [({ ID := 101, minLen := 0 } : requiredField)],
        ∃ f, emptyChatRequest.Fields.find? (fun f => Uint16 f.ID == some r.ID) = some f ∧
          r.minLen ≤ (f.Data.length : Int)) :=
  handleTransaction_requires_fields chatOnly lobby 100 awayConn
    { Login := [103], Password := [], Access := some 10 } emptyChatRequest 105
    { Handler := ackBody, Name := "tranChatSend", RequiredFields := [{ ID := 101, minLen := 0 }] }
    rfl rfl rfl rfl

/-! ### Fan-out -/

theorem keyedAll_eq_some (w : World) (l : List Addr)
    (h : ∀ x ∈ l, (keyed w x).isSome = true) :
    ∃ ks, keyedAll w l = some ks ∧ ks.map Prod.snd = l := by
  induction l with
  | nil => exact ⟨[], rfl, rfl⟩
  | cons x xs ih =>
    obtain ⟨ks, hks, hmap⟩ := ih (fun y hy => h y (List.mem_cons_of_mem _ hy))
    have hx := h x (List.mem_cons_self _ _)
    cases hk : keyed w x with
    | none => simp [hk] at hx
    | some k =>
      have hsnd : k.2 = x := by
        unfold keyed at hk
        split at hk
        · cases hk
        · split at hk
          · cases hk
          · cases hk; rfl
      exact ⟨k :: ks, by simp [keyedAll, hk, hks], by simp [hmap, hsnd]⟩

theorem sortedClients_perm (w : World)
    (h : w.Clients.all (fun kc => (keyed w kc.2).isSome) = true) :
    ∃ cs, sortedClients w = some cs ∧ cs.Perm (w.Clients.map Prod.snd) ∧
      ∀ x ∈ cs, (w.conns x).isSome = true := by
  have h1 : ∀ x ∈ w.Clients.map Prod.snd, (keyed w x).isSome = true := by
    intro x hx
    rw [List.mem_map] at hx
    obtain ⟨kc, hkc, rfl⟩ := hx
    exact List.all_eq_true.1 h kc hkc
  obtain ⟨ks, hks, hmap⟩ := keyedAll_eq_some w _ h1
  have hperm : ((ks.insertionSort (fun x y => x.1 ≤ y.1)).map Prod.snd).Perm
      (w.Clients.map Prod.snd) := by
    rw [← hmap]
    exact (List.perm_insertionSort _ ks).map _
  refine ⟨_, by simp [sortedClients, hks], hperm, ?_⟩
  intro x hx
  have hx2 := h1 x (hperm.subset hx)
  unfold keyed at hx2
  cases hc : w.conns x with
  | none => simp [hc] at hx2
  | some c => rfl

theorem sendEach_spec (t : Nat) (fields : List Field) (cs : List Addr) (w : World)
    (h : ∀ x ∈ cs, (w.conns x).isSome = true) :
    ∃ w1 sent, sendEach t fields cs w = some w1 ∧ w1.outbox = w.outbox ++ sent ∧
      w1.mem = w.mem ∧ w1.conns = w.conns ∧ w1.Clients = w.Clients ∧
      sent.map (fun tr => tr.clientID) = cs.map (fun x => (w.conns x).bind (fun c => c.ID)) ∧
      ∀ tr ∈ sent, tr.Type_ = beBytes 2 t ∧ tr.Fields = fields ∧ tr.IsReply = 0 := by
  induction cs generalizing w with
  | nil => exact ⟨w, [], rfl, by simp, rfl, rfl, rfl, rfl, by simp⟩
  | cons x xs ih =>
    have hx := h x (List.mem_cons_self _ _)
    cases hc : w.conns x with
    | none => simp [hc] at hx
    | some c =>
      have hrest : ∀ y ∈ xs, (((NewTransaction w t c.ID fields).2.send
          (NewTransaction w t c.ID fields).1).conns y).isSome = true :=
        fun y hy => h y (List.mem_cons_of_mem _ hy)
      obtain ⟨w1, sent, hs, hout, hmem, hconns, hcl, hids, hall⟩ := ih _ hrest
      refine ⟨w1, (NewTransaction w t c.ID fields).1 :: sent, ?_, ?_, ?_, ?_, ?_, ?_, ?_⟩
      · simp [sendEach, hc, hs]
      · rw [hout]; simp [World.send, NewTransaction]
      · rw [hmem]; rfl
      · rw [hconns]; rfl
      · rw [hcl]; rfl
      · simp only [List.map_cons, hids, hc, Option.some_bind]
        rfl
      · intro tr htr
        rcases List.mem_cons.1 htr with rfl | htr
        · exact ⟨rfl, rfl, rfl⟩
        · exact hall tr htr

theorem sendAll_spec (w : World) (t : Nat) (fields : List Field)
    (h : w.Clients.all (fun kc => (keyed w kc.2).isSome) = true) :
    ∃ w1 sent, ClientConn.sendAll w t fields = some w1 ∧ w1.outbox = w.outbox ++ sent ∧
      w1.mem = w.mem ∧ w1.conns = w.conns ∧ w1.Clients = w.Clients ∧
      (sent.map (fun tr => tr.clientID)).Perm
        (w.Clients.map (fun kc => (w.conns kc.2).bind (fun c => c.ID))) ∧
      ∀ tr ∈ sent, tr.Type_ = beBytes 2 t ∧ tr.Fields = fields ∧ tr.IsReply = 0 := by
  obtain ⟨cs, hcs, hperm, hsome⟩ := sortedClients_perm w h
  obtain ⟨w1, sent, hs, hout, hmem, hconns, hcl, hids, hall⟩ := sendEach_spec t fields cs w hsome
  refine ⟨w1, sent, by simp [ClientConn.sendAll, hcs, hs], hout, hmem, hconns, hcl, ?_, hall⟩
  rw [hids]
  have := hperm.map (fun x => (w.conns x).bind (fun c => c.ID))
  simpa [List.map_map, Function.comp] using this

/-! ### Idle bookkeeping -/

theorem beValue_beBytes_two (x : Nat) : beValue (beBytes 2 x) = x % 65536 := by
  simp [beBytes, beValue, Fin.ofNat]
  omega

theorem Uint16_lt (b : List Byte) (v : Nat) (h : Uint16 b = some v) : v < 65536 := by
  unfold Uint16 at h
  split at h
  · cases h
  · rename_i hlen
    have h1 := beValue_lt (b.take 2)
    have h2 : (b.take 2).length = 2 := by simp; omega
    rw [h2] at h1
    cases h
    simpa using h1

theorem PutUint16_eq (b : List Byte) (x : Nat) (h : 2 ≤ b.length) :
    PutUint16 b x = some (beBytes 2 x ++ b.drop 2) := by
  simp [PutUint16]
  omega

theorem Uint16_beBytes_append (x : Nat) (rest : List Byte) :
    Uint16 (beBytes 2 x ++ rest) = some (x % 65536) := by
  have hlen : (beBytes 2 x).length = 2 := by simp [beBytes]
  have htake : (beBytes 2 x ++ rest).take 2 = beBytes 2 x := by
    rw [List.take_append_of_le_length (by omega)]
    rw [← hlen]; exact List.take_length _
  simp only [Uint16, List.length_append, hlen, htake, beValue_beBytes_two]
  simp

theorem testBit_clear (v i : Nat) (hv : v < 65536) :
    (toUint16 (bigClearBit (v : Int) i) % 65536).testBit i = false := by
  have hcast : ((v : Int)).testBit i = v.testBit i := rfl
  unfold bigClearBit
  rw [hcast]
  cases hb : v.testBit i with
  | false =>
    simp only [Bool.false_eq_true, if_false]
    have : toUint16 (v : Int) = v := by
      unfold toUint16
      have : ((v : Int) % 65536) = ((v % 65536 : Nat) : Int) := by norm_cast
      rw [this, Nat.mod_eq_of_lt hv]
      simp
    rw [this, Nat.mod_eq_of_lt hv, hb]
  | true =>
    simp only [if_true]
    have hge : 2 ^ i ≤ v := Nat.testBit_implies_ge hb
    have hsub : ((v : Int) - 2 ^ i) = ((v - 2 ^ i : Nat) : Int) := by
      rw [Nat.cast_sub hge]; norm_cast
    have hlt : v - 2 ^ i < 65536 := Nat.lt_of_le_of_lt (Nat.sub_le _ _) hv
    have : toUint16 ((v : Int) - 2 ^ i) = v - 2 ^ i := by
      unfold toUint16
      rw [hsub]
      have : (((v - 2 ^ i : Nat) : Int) % 65536) = (((v - 2 ^ i) % 65536 : Nat) : Int) := by
        norm_cast
      rw [this, Nat.mod_eq_of_lt hlt]
      simp
    rw [this, Nat.mod_eq_of_lt hlt]
    have h2 := Nat.testBit_two_pow_add_eq (v - 2 ^ i) i
    have h3 : 2 ^ i + (v - 2 ^ i) = v := Nat.add_sub_cancel' hge
    rw [h3, hb] at h2
    cases h4 : (v - 2 ^ i).testBit i with
    | false => rfl
    | true => rw [h4] at h2; cases h2

theorem deref_update_isSome (w : World) (fp a : Addr) (flags1 : List Byte)
    (cc1 : ClientConn) (p : Option Addr)
    (h : (deref w p).isSome = true) :
    (deref ((w.setMem fp flags1).setConn a cc1) p).isSome = true := by
  cases p with
  | none => simp [deref] at h
  | some q =>
    simp only [deref, World.setConn, World.setMem] at h ⊢
    by_cases hq : q = fp
    · simp [hq]
    · simpa [hq] using h

theorem keyed_update_isSome (w : World) (fp a x : Addr) (flags1 : List Byte)
    (cc cc1 : ClientConn) (hcc : w.conns a = some cc)
    (hid : cc1.ID = cc.ID) (h : (keyed w x).isSome = true) :
    (keyed ((w.setMem fp flags1).setConn a cc1) x).isSome = true := by
  unfold keyed at h ⊢
  by_cases hx : x = a
  · subst hx
    rw [hcc] at h
    have hc1 : ((w.setMem fp flags1).setConn x cc1).conns x = some cc1 := by
      simp [World.setConn]
    rw [hc1]
    simp only [ClientConn.uint16ID] at h ⊢
    have hd : (deref w cc.ID).isSome = true := by
      cases hd : deref w cc.ID with
      | none => simp [hd] at h
      | some b => rfl
    have hd1 := deref_update_isSome w fp x flags1 cc1 cc.ID hd
    rw [hid]
    cases hd2 : deref ((w.setMem fp flags1).setConn x cc1) cc.ID with
    | none => rw [hd2] at hd1; cases hd1
    | some b => rfl
  · have hc1 : ((w.setMem fp flags1).setConn a cc1).conns x = w.conns x := by
      simp [World.setConn, World.setMem, hx]
    rw [hc1]
    cases hc : w.conns x with
    | none => simp [hc] at h
    | some c =>
      rw [hc] at h
      simp only [ClientConn.uint16ID] at h ⊢
      have hd : (deref w c.ID).isSome = true := by
        cases hd : deref w c.ID with
        | none => simp [hd] at h
        | some b => rfl
      have hd1 := deref_update_isSome w fp a flags1 cc1 c.ID hd
      cases hd2 : deref ((w.setMem fp flags1).setConn a cc1) c.ID with
      | none => rw [hd2] at hd1; cases hd1
      | some b => rfl

theorem idOf_update (w : World) (fp a x : Addr) (flags1 : List Byte) (cc cc1 : ClientConn)
    (hcc : w.conns a = some cc) (hid : cc1.ID = cc.ID) :
    ((w.setMem fp flags1).setConn a cc1).idOf x = w.idOf x := by
  unfold World.idOf
  by_cases hx : x = a
  · subst hx
    simp [World.setConn, hcc, hid]
  · simp [World.setConn, World.setMem, hx]

/-- The idle bookkeeping for a session that is not away: only `IdleTime` is
reset. -/
theorem idleBookkeeping_active (w : World) (a : Addr) (cc : ClientConn) (n : Nat)
    (hn : n ≠ tranKeepAlive) (hcc : w.conns a = some cc) (hidle : cc.Idle = false) :
    idleBookkeeping w a n = some (w.setConn a { cc with IdleTime := 0 }) := by
  simp [idleBookkeeping, hn, hcc, hidle]

/-- The idle bookkeeping for a session that is away: the away bit is cleared,
the session is marked as not idle, and one `tranNotifyChangeUser` is sent for
every session of `Server.Clients`. -/
theorem idleBookkeeping_away (w : World) (a : Addr) (cc : ClientConn) (n : Nat)
    (hn : n ≠ tranKeepAlive) (hcc : w.conns a = some cc) (hidle : cc.Idle = true)
    (hs : w.sessionReady a = true) (hc : w.clientsReady = true) :
    ∃ w2 sent fp flags1 v1, idleBookkeeping w a n = some w2 ∧
      w2.conns a = some { cc with IdleTime := 0, Idle := false } ∧
      cc.Flags = some fp ∧ w2.mem fp = some flags1 ∧ Uint16 flags1 = some v1 ∧
      v1.testBit userFlagAway = false ∧
      w2.outbox = w.outbox ++ sent ∧
      (sent.map (fun tr => tr.clientID)).Perm (w.Clients.map (fun kc => w.idOf kc.2)) ∧
      ∀ tr ∈ sent, tr.Type_ = beBytes 2 tranNotifyChangeUser ∧ tr.IsReply = 0 := by
  -- unpack readiness
  simp only [World.sessionReady, hcc, Bool.and_eq_true] at hs
  obtain ⟨⟨hID, hIcon⟩, hFlags⟩ := hs
  cases hfl : cc.Flags with
  | none => simp [hfl, deref] at hFlags
  | some fp =>
    cases hm : w.mem fp with
    | none => simp [hfl, deref, hm] at hFlags
    | some flags =>
      have hlen : 2 ≤ flags.length := by simpa [hfl, deref, hm] using hFlags
      cases hu : Uint16 flags with
      | none => simp [Uint16] at hu; omega
      | some v =>
        have hv : v < 65536 := Uint16_lt flags v hu
        have hput := PutUint16_eq flags (toUint16 (bigClearBit (v : Int) userFlagAway)) hlen
        generalize hf1 : beBytes 2 (toUint16 (bigClearBit (v : Int) userFlagAway)) ++ flags.drop 2
          = flags1 at hput
        generalize hw1 : (w.setMem fp flags1).setConn a { cc with IdleTime := 0, Idle := false }
          = w1
        have hd1 : (deref w1 cc.ID).isSome = true := by
          rw [← hw1]; exact deref_update_isSome w fp a flags1 _ cc.ID hID
        have hd2 : deref w1 cc.Flags = some flags1 := by
          rw [← hw1, hfl]; simp [deref, World.setConn, World.setMem]
        have hd3 : (deref w1 cc.Icon).isSome = true := by
          rw [← hw1]; exact deref_update_isSome w fp a flags1 _ cc.Icon hIcon
        have hready : w1.Clients.all (fun kc => (keyed w1 kc.2).isSome) = true := by
          rw [List.all_eq_true]
          intro kc hkc
          have hkc2 : kc ∈ w.Clients := by rw [← hw1] at hkc; exact hkc
          have := List.all_eq_true.1 hc kc hkc2
          rw [← hw1]
          exact keyed_update_isSome w fp a kc.2 flags1 cc _ hcc rfl this
        cases hid : deref w1 cc.ID with
        | none => rw [hid] at hd1; cases hd1
        | some idb =>
          cases hic : deref w1 cc.Icon with
          | none => rw [hic] at hd3; cases hd3
          | some icb =>
            obtain ⟨w2, sent, hsend, hout, hmem, hconns, _, hperm, hall⟩ :=
              sendAll_spec w1 tranNotifyChangeUser
                [NewField fieldUserID idb, NewField fieldUserFlags flags1,
                 NewField fieldUserName cc.UserName, NewField fieldUserIconID icb] hready
            refine ⟨w2, sent, fp, flags1, toUint16 (bigClearBit (v : Int) userFlagAway) % 65536,
              ?_, ?_, rfl, ?_, ?_, ?_, ?_, ?_, ?_⟩
            · rw [hfl] at hw1 hd2
              simp only [idleBookkeeping, hn, ne_eq, not_false_eq_true, if_true, hcc, hidle, hfl,
                hm, hu, hput, hw1, hid, hd2, hic, hsend]
            · rw [hconns, ← hw1]; simp [World.setConn, hfl]
            · rw [hmem, ← hw1]; simp [World.setConn, World.setMem]
            · rw [← hf1]; exact Uint16_beBytes_append _ _
            · exact testBit_clear v userFlagAway hv
            · rw [hout, ← hw1]; rfl
            · have : w1.Clients.map (fun kc => (w1.conns kc.2).bind (fun c => c.ID))
                  = w.Clients.map (fun kc => w.idOf kc.2) := by
                rw [← hw1]
                apply List.map_congr_left
                intro kc _
                exact idOf_update w fp a kc.2 flags1 cc _ hcc rfl
              rw [← this]; exact hperm
            · intro tr htr
              exact ⟨(hall tr htr).1, (hall tr htr).2.2⟩

/-- The idle bookkeeping for a session that is away, with the sessions that
the notifications are addressed to, in the order in which they are enqueued:
the `i`-th notification has the ID pointer of the `i`-th session as its
destination, and these sessions are the sessions of `Server.Clients`. -/
theorem idleBookkeeping_away_recipients (w : World) (a : Addr) (cc : ClientConn) (n : Nat)
    (hn : n ≠ tranKeepAlive) (hcc : w.conns a = some cc) (hidle : cc.Idle = true)
    (hs : w.sessionReady a = true) (hc : w.clientsReady = true) :
    ∃ (w2 : World) (sent : List Transaction) (cs : List Addr),
      idleBookkeeping w a n = some w2 ∧
      w2.outbox = w.outbox ++ sent ∧
      sent.map (fun tr => tr.clientID) = cs.map (fun x => (w.conns x).bind (fun c => c.ID)) ∧
      cs.Perm (w.Clients.map Prod.snd) ∧
      ∀ tr ∈ sent, tr.Type_ = beBytes 2 tranNotifyChangeUser ∧ tr.IsReply = 0 := by
  simp only [World.sessionReady, hcc, Bool.and_eq_true] at hs
  obtain ⟨⟨hID, hIcon⟩, hFlags⟩ := hs
  cases hfl : cc.Flags with
  | none => simp [hfl, deref] at hFlags
  | some fp =>
    cases hm : w.mem fp with
    | none => simp [hfl, deref, hm] at hFlags
    | some flags =>
      have hlen : 2 ≤ flags.length := by simpa [hfl, deref, hm] using hFlags
      cases hu : Uint16 flags with
      | none => simp [Uint16] at hu; omega
      | some v =>
        have hput := PutUint16_eq flags (toUint16 (bigClearBit (v : Int) userFlagAway)) hlen
        generalize hf1 : beBytes 2 (toUint16 (bigClearBit (v : Int) userFlagAway)) ++ flags.drop 2
          = flags1 at hput
        generalize hw1 : (w.setMem fp flags1).setConn a { cc with IdleTime := 0, Idle := false }
          = w1
        have hd1 : (deref w1 cc.ID).isSome = true := by
          rw [← hw1]; exact deref_update_isSome w fp a flags1 _ cc.ID hID
        have hd2 : deref w1 cc.Flags = some flags1 := by
          rw [← hw1, hfl]; simp [deref, World.setConn, World.setMem]
        have hd3 : (deref w1 cc.Icon).isSome = true := by
          rw [← hw1]; exact deref_update_isSome w fp a flags1 _ cc.Icon hIcon
        have hready : w1.Clients.all (fun kc => (keyed w1 kc.2).isSome) = true := by
          rw [List.all_eq_true]
          intro kc hkc
          have hkc2 : kc ∈ w.Clients := by rw [← hw1] at hkc; exact hkc
          have := List.all_eq_true.1 hc kc hkc2
          rw [← hw1]
          exact keyed_update_isSome w fp a kc.2 flags1 cc _ hcc rfl this
        cases hid : deref w1 cc.ID with
        | none => rw [hid] at hd1; cases hd1
        | some idb =>
          cases hic : deref w1 cc.Icon with
          | none => rw [hic] at hd3; cases hd3
          | some icb =>
            obtain ⟨cs, hcs, hperm, hsome⟩ := sortedClients_perm w1 hready
            obtain ⟨w2, sent, hsend, hout, _, _, _, hids, hall⟩ :=
              sendEach_spec tranNotifyChangeUser
                [NewField fieldUserID idb, NewField fieldUserFlags flags1,
                 NewField fieldUserName cc.UserName, NewField fieldUserIconID icb] cs w1 hsome
            refine ⟨w2, sent, cs, ?_, ?_, ?_, ?_, ?_⟩
            · rw [hfl] at hw1 hd2
              simp only [idleBookkeeping, hn, ne_eq, not_false_eq_true, if_true, hcc, hidle, hfl,
                hm, hu, hput, hw1, hid, hd2, hic, ClientConn.sendAll, hcs, hsend]
            · rw [hout, ← hw1]; rfl
            · rw [hids]
              apply List.map_congr_left
              intro x _
              have := idOf_update w fp a x flags1 cc { cc with IdleTime := 0, Idle := false }
                hcc rfl
              rw [← hw1]
              exact this
            · rw [← hw1] at hperm; exact hperm
            · intro tr htr
              exact ⟨(hall tr htr).1, (hall tr htr).2.2⟩

/-! ### C7, C8, C9: idle transitions -/

/-- C7, as stated, fails twice: a request of type 300 from the away session of
`lobby` enqueues a `tranNotifyChangeUser` for the away session itself (ID
pointer 1) as for the other two; and a `tranChatSend` (not a keep-alive) that
lacks its required field leaves the away bit set and enqueues nothing. -/
theorem away_notice_reaches_sender :
    lobby.conns 100 = some awayConn ∧ awayConn.Idle = true ∧ awayConn.ID = some 1 ∧
    Uint16 listRequest.Type_ = some 300 ∧ Uint16 emptyChatRequest.Type_ = some 105 ∧
    tranKeepAlive = 500 ∧
    (ClientConn.handleTransaction chatOnly lobby 100 listRequest).map
      (fun o => o.world.outbox.map (fun tr => (tr.clientID, Uint16 tr.Type_)))
      = some [(some 1, some tranNotifyChangeUser), (some 21, some tranNotifyChangeUser),
          (some 31, some tranNotifyChangeUser)] ∧
    (ClientConn.handleTransaction chatOnly lobby 100 emptyChatRequest).map
      (fun o => (o.world.mem 3, o.world.outbox)) = some (some [0, 1], []) := by
  refine ⟨rfl, rfl, rfl, rfl, rfl, rfl, ?_, ?_⟩
  · decide
  · decide

/-- When the call reaches the idle bookkeeping in the state `w1` (no handler
is registered, or the required fields pass and the handler returns no error),
`handleTransaction` ends with the bookkeeping of `w1`. -/
theorem handleTransaction_reaches (handlers : Nat → Option TransactionType) (w w1 : World)
    (a : Addr) (cc : ClientConn) (t : Transaction) (n : Nat)
    (hType : Uint16 t.Type_ = some n) (hcc : w.conns a = some cc)
    (hreach : (handlers n = none ∧ w1 = w) ∨
      ∃ handler account r, handlers n = some handler ∧ cc.Account = some account ∧
        checkRequired t handler.RequiredFields = true ∧
        handler.Handler w a t = some r ∧ r.err = none ∧
        w1 = { r.world with outbox := r.world.outbox ++ r.res }) :
    ∃ inv, ClientConn.handleTransaction handlers w a t
      = (idleBookkeeping w1 a n).map (fun w2 => { world := w2, err := none, invoked := inv }) := by
  rcases hreach with ⟨hnone, rfl⟩ | ⟨handler, account, r, hh, hacc, hchk, hrun, herr, rfl⟩
  · refine ⟨false, ?_⟩
    simp only [ClientConn.handleTransaction, hType, hcc, hnone]
    cases idleBookkeeping w1 a n <;> rfl
  · refine ⟨true, ?_⟩
    simp only [ClientConn.handleTransaction, hType, hcc, hh, hacc, hchk, if_true, hrun, herr]
    cases idleBookkeeping { r.world with outbox := r.world.outbox ++ r.res } a n <;> rfl

/-- C7 (amended): for a transaction other than `tranKeepAlive` that has no
registered handler, or passes the required-field validation and whose handler
returns no error, from a session that is marked away when the idle bookkeeping
starts: after `handleTransaction` the session is not idle, the away bit of its
flag bitmap is 0, the transactions enqueued are `tranNotifyChangeUser`, each
addressed to one session (the list `cs`, in the order of the outbox), and
exactly one of them is addressed to each other session of `Clients` that has
agreed: the sessions of `cs` with another ID pointer than the sender that have
agreed are, up to order, those of `Clients`. Nothing is said of a notification
for the sender itself or for a session that has not agreed. -/
theorem handleTransaction_clears_away (handlers : Nat → Option TransactionType)
    (w w1 : World) (a : Addr) (cc cc1 : ClientConn) (t : Transaction) (n : Nat)
    (hType : Uint16 t.Type_ = some n) (hn : n ≠ tranKeepAlive)
    (hcc : w.conns a = some cc)
    (hreach : (handlers n = none ∧ w1 = w) ∨
      ∃ handler account r, handlers n = some handler ∧ cc.Account = some account ∧
        checkRequired t handler.RequiredFields = true ∧
        handler.Handler w a t = some r ∧ r.err = none ∧
        w1 = { r.world with outbox := r.world.outbox ++ r.res })
    (hcc1 : w1.conns a = some cc1) (hidle : cc1.Idle = true)
    (hs : w1.sessionReady a = true) (hc : w1.clientsReady = true) :
    ∃ (o : Outcome) (sent : List Transaction) (cs : List Addr) (fp : Addr)
        (flags1 : List Byte) (v1 : Nat),
      ClientConn.handleTransaction handlers w a t = some o ∧
      o.err = none ∧
      o.world.conns a = some { cc1 with IdleTime := 0, Idle := false } ∧
      cc1.Flags = some fp ∧ o.world.mem fp = some flags1 ∧ Uint16 flags1 = some v1 ∧
      v1.testBit userFlagAway = false ∧
      o.world.outbox = w1.outbox ++ sent ∧
      sent.map (fun tr => tr.clientID)
        = cs.map (fun x => (w1.conns x).bind (fun c => c.ID)) ∧
      (cs.filter (fun x =>
          match w1.conns x with
          | none => false
          | some c => decide (c.ID ≠ cc1.ID ∧ c.Agreed = true))).Perm
        ((w1.Clients.map Prod.snd).filter (fun x =>
          match w1.conns x with
          | none => false
          | some c => decide (c.ID ≠ cc1.ID ∧ c.Agreed = true))) ∧
      ∀ tr ∈ sent, Uint16 tr.Type_ = some tranNotifyChangeUser ∧ tr.IsReply = 0 := by
  obtain ⟨inv, hrun⟩ := handleTransaction_reaches handlers w w1 a cc t n hType hcc hreach
  obtain ⟨w2, _, fp, flags1, v1, hbk, hconn, hfl, hmem, hu, hbit, _, _, _⟩ :=
    idleBookkeeping_away w1 a cc1 n hn hcc1 hidle hs hc
  obtain ⟨w3, sent, cs, hbk3, hout, hids, hperm, hall⟩ :=
    idleBookkeeping_away_recipients w1 a cc1 n hn hcc1 hidle hs hc
  have hw : w3 = w2 := by
    rw [hbk] at hbk3
    exact (Option.some.inj hbk3).symm
  subst hw
  refine ⟨{ world := w3, err := none, invoked := inv }, sent, cs, fp, flags1, v1, ?_, rfl, hconn,
    hfl, hmem, hu, hbit, hout, hids, hperm.filter _, ?_⟩
  · rw [hrun, hbk]; rfl
  · intro tr htr
    refine ⟨?_, (hall tr htr).2⟩
    rw [(hall tr htr).1]
    exact Uint16_beBytes tranNotifyChangeUser (by decide)

/-- C7 witness: a request of type 300, without registered handler, from the
away session of `lobby` (behind 100, ID pointer 1); the only other session
that has agreed is the one behind 200, with the ID pointer 21. -/
theorem handleTransaction_clears_away_witness :
    (∃ (o : Outcome) (sent : List Transaction) (cs : List Addr) (fp : Addr)
        (flags1 : List Byte) (v1 : Nat),
      ClientConn.handleTransaction chatOnly lobby 100 listRequest = some o ∧
      o.err = none ∧
      o.world.conns 100 = some { awayConn with IdleTime := 0, Idle := false } ∧
      awayConn.Flags = some fp ∧ o.world.mem fp = some flags1 ∧ Uint16 flags1 = some v1 ∧
      v1.testBit userFlagAway = false ∧
      o.world.outbox = lobby.outbox ++ sent ∧
      sent.map (fun tr => tr.clientID)
        = cs.map (fun x => (lobby.conns x).bind (fun c => c.ID)) ∧
      (cs.filter (fun x =>
          match lobby.conns x with
          | none => false
          | some c => decide (c.ID ≠ awayConn.ID ∧ c.Agreed = true))).Perm
        ((lobby.Clients.map Prod.snd).filter (fun x =>
          match lobby.conns x with
          | none => false
          | some c => decide (c.ID ≠ awayConn.ID ∧ c.Agreed = true))) ∧
      ∀ tr ∈ sent, Uint16 tr.Type_ = some tranNotifyChangeUser ∧ tr.IsReply = 0) ∧
    (lobby.Clients.map Prod.snd).filter (fun x =>
        match lobby.conns x with
        | none => false
        | some c => decide (c.ID ≠ awayConn.ID ∧ c.Agreed = true)) = [200] ∧
    (lobby.conns 200).bind (fun c => c.ID) = some 21 ∧
    (ClientConn.handleTransaction chatOnly lobby 100 listRequest).map
        (fun o => (o.world.outbox.filter (fun tr => tr.clientID = some 21)).map
          (fun tr => Uint16 tr.Type_))
      = some [some tranNotifyChangeUser] :=
  ⟨handleTransaction_clears_away chatOnly lobby lobby 100 awayConn awayConn listRequest 300
      rfl (by decide) rfl (Or.inl ⟨rfl, rfl⟩) rfl rfl rfl rfl,
   by decide, by decide, by decide⟩

/-- C8, as stated, fails: a `tranChatSend` (not a keep-alive) without its
required field leaves the `IdleTime` of the session at 7. -/
theorem dropped_request_keeps_idle_time :
    lobby.conns 100 = some awayConn ∧ awayConn.IdleTime = 7 ∧
    Uint16 emptyChatRequest.Type_ = some 105 ∧ tranKeepAlive = 500 ∧
    (ClientConn.handleTransaction chatOnly lobby 100 emptyChatRequest).map
      (fun o => (o.err, (o.world.conns 100).map (fun c => c.IdleTime)))
      = some (none, some 7) := by
  refine ⟨rfl, rfl, rfl, rfl, ?_⟩
  decide

/-- C8 (amended): for a transaction other than `tranKeepAlive` that has no
registered handler, or passes the required-field validation and whose handler
returns no error, the `IdleTime` of the session is 0 when `handleTransaction`
returns. -/
theorem handleTransaction_resets_idle_time (handlers : Nat → Option TransactionType)
    (w w1 : World) (a : Addr) (cc cc1 : ClientConn) (t : Transaction) (n : Nat)
    (hType : Uint16 t.Type_ = some n) (hn : n ≠ tranKeepAlive)
    (hcc : w.conns a = some cc)
    (hreach : (handlers n = none ∧ w1 = w) ∨
      ∃ handler account r, handlers n = some handler ∧ cc.Account = some account ∧
        checkRequired t handler.RequiredFields = true ∧
        handler.Handler w a t = some r ∧ r.err = none ∧
        w1 = { r.world with outbox := r.world.outbox ++ r.res })
    (hcc1 : w1.conns a = some cc1)
    (hs : cc1.Idle = true → w1.sessionReady a = true)
    (hc : cc1.Idle = true → w1.clientsReady = true) :
    ∃ o cc2, ClientConn.handleTransaction handlers w a t = some o ∧ o.err = none ∧
      o.world.conns a = some cc2 ∧ cc2.IdleTime = 0 := by
  obtain ⟨inv, hrun⟩ := handleTransaction_reaches handlers w w1 a cc t n hType hcc hreach
  cases hidle : cc1.Idle with
  | false =>
    refine ⟨{ world := w1.setConn a { cc1 with IdleTime := 0 }, err := none, invoked := inv },
      { cc1 with IdleTime := 0 }, ?_, rfl, ?_, rfl⟩
    · rw [hrun, idleBookkeeping_active w1 a cc1 n hn hcc1 hidle]; rfl
    · simp [World.setConn]
  | true =>
    obtain ⟨w2, sent, fp, flags1, v1, hbk, hconn, _⟩ :=
      idleBookkeeping_away w1 a cc1 n hn hcc1 hidle (hs hidle) (hc hidle)
    refine ⟨{ world := w2, err := none, invoked := inv }, _, ?_, rfl, hconn, rfl⟩
    rw [hrun, hbk]; rfl

/-- C8 witness: a complete `tranChatSend` from the away session of `lobby`,
answered by its handler. -/
theorem handleTransaction_resets_idle_time_witness :
    ∃ o cc2, ClientConn.handleTransaction chatOnly lobby 100 chatRequest = some o ∧
      o.err = none ∧ o.world.conns 100 = some cc2 ∧ cc2.IdleTime = 0 :=
  handleTransaction_resets_idle_time chatOnly lobby
    { lobby with outbox := lobby.outbox ++ [awayConn.NewReply chatRequest []] }
    100 awayConn awayConn chatRequest 105 rfl (by decide) rfl
    (Or.inr ⟨{ Handler := ackBody, Name := "tranChatSend",
               RequiredFields := [{ ID := 101, minLen := 0 }] },
      { Login := [103], Password := [], Access := some 10 },
      { world := lobby, res := [awayConn.NewReply chatRequest []], err := none },
      rfl, rfl, by decide, rfl, rfl, rfl⟩)
    rfl (fun _ => rfl) (fun _ => rfl)

/-- C9: on a `tranKeepAlive` transaction the idle bookkeeping of
`handleTransaction` leaves the whole state as it is: when the call reaches the
bookkeeping in the state `w1`, it returns with the sessions (`IdleTime`,
`Idle`), the memory (the flag bitmaps) and the outbox of `w1`, and so without
a new `tranNotifyChangeUser`. -/
theorem keepAlive_bookkeeping_is_noop (handlers : Nat → Option TransactionType)
    (w w1 : World) (a : Addr) (cc : ClientConn) (t : Transaction)
    (hType : Uint16 t.Type_ = some tranKeepAlive) (hcc : w.conns a = some cc)
    (hreach : (handlers tranKeepAlive = none ∧ w1 = w) ∨
      ∃ handler account r, handlers tranKeepAlive = some handler ∧ cc.Account = some account ∧
        checkRequired t handler.RequiredFields = true ∧
        handler.Handler w a t = some r ∧ r.err = none ∧
        w1 = { r.world with outbox := r.world.outbox ++ r.res }) :
    idleBookkeeping w1 a tranKeepAlive = some w1 ∧
    ∃ o, ClientConn.handleTransaction handlers w a t = some o ∧ o.err = none ∧
      o.world.conns = w1.conns ∧ o.world.mem = w1.mem ∧ o.world.outbox = w1.outbox := by
  have h : idleBookkeeping w1 a tranKeepAlive = some w1 := by simp [idleBookkeeping]
  obtain ⟨inv, hrun⟩ :=
    handleTransaction_reaches handlers w w1 a cc t tranKeepAlive hType hcc hreach
  refine ⟨h, { world := w1, err := none, invoked := inv }, ?_, rfl, rfl, rfl, rfl⟩
  rw [hrun, h]; rfl

/-- C9 witness: a keep-alive (type 500) from the away session of `lobby`. -/
theorem keepAlive_bookkeeping_is_noop_witness :
    idleBookkeeping lobby 100 tranKeepAlive = some lobby ∧
    ∃ o, ClientConn.handleTransaction chatOnly lobby 100 { chatRequest with Type_ := [1, 244] }
        = some o ∧ o.err = none ∧
      o.world.conns = lobby.conns ∧ o.world.mem = lobby.mem ∧ o.world.outbox = lobby.outbox :=
  keepAlive_bookkeeping_is_noop chatOnly lobby lobby 100 awayConn
    { chatRequest with Type_ := [1, 244] } rfl rfl (Or.inl ⟨rfl, rfl⟩)

/-! ### C10: `Disconnect` -/

theorem notifyEach_spec (cc : ClientConn) (t0 : Transaction) (cs : List Addr) (w : World)
    (t : Transaction) (ht : ∀ p, { t with clientID := p } = { t0 with clientID := p })
    (h : ∀ x ∈ cs, (w.conns x).isSome = true) :
    ∃ w1, notifyEach cc t cs w = some w1 ∧
      w1.outbox = w.outbox ++
        (cs.filter (w.isOther cc)).map (fun x => { t0 with clientID := w.idOf x }) ∧
      w1.Clients = w.Clients ∧ w1.conns = w.conns ∧ w1.mem = w.mem := by
  induction cs generalizing w t with
  | nil => exact ⟨w, rfl, by simp, rfl, rfl, rfl⟩
  | cons x xs ih =>
    have hx := h x (List.mem_cons_self _ _)
    have hxs : ∀ y ∈ xs, (w.conns y).isSome = true := fun y hy => h y (List.mem_cons_of_mem _ hy)
    cases hc : w.conns x with
    | none => simp [hc] at hx
    | some c =>
      by_cases hcond : c.ID ≠ cc.ID ∧ c.Agreed = true
      · have hother : w.isOther cc x = true := by simp [World.isOther, hc, hcond]
        have ht2 : ∀ p, { ({ t with clientID := c.ID } : Transaction) with clientID := p }
            = { t0 with clientID := p } := fun p => ht p
        obtain ⟨w1, hrun, hout, hcl, hconns, hmem⟩ :=
          ih (w.send { t with clientID := c.ID }) { t with clientID := c.ID } ht2 hxs
        refine ⟨w1, ?_, ?_, hcl, hconns, hmem⟩
        · simp only [notifyEach, hc]
          rw [if_pos hcond]
          exact hrun
        · rw [hout]
          have hidx : w.idOf x = c.ID := by simp [World.idOf, hc]
          have hsame : (xs.filter ((w.send { t with clientID := c.ID }).isOther cc)).map
              (fun y => { t0 with clientID := (w.send { t with clientID := c.ID }).idOf y })
              = (xs.filter (w.isOther cc)).map (fun y => { t0 with clientID := w.idOf y }) := rfl
          rw [hsame, List.filter_cons_of_pos hother, List.map_cons, hidx, ← ht c.ID]
          simp [World.send]
      · have hother : ¬ (w.isOther cc x = true) := by simp [World.isOther, hc, hcond]
        obtain ⟨w1, hrun, hout, hcl, hconns, hmem⟩ := ih w t ht hxs
        refine ⟨w1, ?_, ?_, hcl, hconns, hmem⟩
        · simp only [notifyEach, hc]
          rw [if_neg hcond]
          exact hrun
        · rw [hout, List.filter_cons_of_neg hother]

/-- C10, as stated, fails: when the first session of `lobby` disconnects, the
third session (ID pointer 31), which is in `Clients` but has not agreed, gets
no `tranNotifyDeleteUser`; only the second one (ID pointer 21) does. -/
theorem disconnect_skips_not_agreed :
    lobby.Clients = [(2, 200), (1, 100), (3, 300)] ∧
    lobby.conns 300 = some thirdConn ∧ thirdConn.ID = some 31 ∧ thirdConn.Agreed = false ∧
    (ClientConn.Disconnect lobby 100).map
      (fun w => w.outbox.map (fun tr => (tr.clientID, Uint16 tr.Type_)))
      = some [(some 21, some tranNotifyDeleteUser)] := by
  refine ⟨rfl, rfl, rfl, rfl, ?_⟩
  decide

/-- C10 (amended): `Disconnect` removes the entry of `Clients` under the
disconnecting session's ID and enqueues exactly one `tranNotifyDeleteUser`,
carrying the single field `fieldUserID` = the disconnecting session's ID, for
every remaining session of `Clients` that has agreed and whose ID pointer is
not the disconnecting session's; it enqueues none for a session that has not
agreed and none for the disconnecting session. -/
theorem Disconnect_notifies_agreed_others (w : World) (a : Addr) (cc : ClientConn)
    (idBytes : List Byte) (key : Nat)
    (hcc : w.conns a = some cc) (hid : deref w cc.ID = some idBytes)
    (hkey : Uint16 idBytes = some key) (hc : w.clientsReady = true) :
    ∃ w2 sent, ClientConn.Disconnect w a = some w2 ∧
      w2.Clients = w.Clients.filter (fun kc => kc.1 ≠ key) ∧
      w2.outbox = w.outbox ++ sent ∧
      (sent.map (fun tr => tr.clientID)).Perm
        ((((w.Clients.filter (fun kc => kc.1 ≠ key)).map Prod.snd).filter (w.isOther cc)).map
          w.idOf) ∧
      ∀ tr ∈ sent, Uint16 tr.Type_ = some tranNotifyDeleteUser ∧
        tr.Fields = [NewField fieldUserID idBytes] ∧ tr.clientID ≠ cc.ID := by
  generalize hw1 : (NewTransaction { w with Clients := w.Clients.filter (fun kc => kc.1 ≠ key) }
      tranNotifyDeleteUser none [NewField fieldUserID idBytes]).2 = w1
  generalize ht0 : (NewTransaction { w with Clients := w.Clients.filter (fun kc => kc.1 ≠ key) }
      tranNotifyDeleteUser none [NewField fieldUserID idBytes]).1 = t0
  have hw1c : w1.Clients = w.Clients.filter (fun kc => kc.1 ≠ key) := by rw [← hw1]; rfl
  have hw1conns : w1.conns = w.conns := by rw [← hw1]; rfl
  have hw1mem : w1.mem = w.mem := by rw [← hw1]; rfl
  have hw1out : w1.outbox = w.outbox := by rw [← hw1]; rfl
  have hkeyed : ∀ x, keyed w1 x = keyed w x := by
    intro x
    simp only [keyed, ClientConn.uint16ID, deref, hw1conns, hw1mem]
  have hready : w1.Clients.all (fun kc => (keyed w1 kc.2).isSome) = true := by
    rw [List.all_eq_true]
    intro kc hkc
    rw [hw1c] at hkc
    rw [hkeyed]
    exact List.all_eq_true.1 hc kc (List.mem_of_mem_filter hkc)
  obtain ⟨cs, hcs, hperm, hsome⟩ := sortedClients_perm w1 hready
  obtain ⟨w2, hrun, hout, hcl, _, _⟩ :=
    notifyEach_spec cc t0 cs w1 t0 (fun _ => rfl) hsome
  have hisOther : w1.isOther cc = w.isOther cc := by
    funext x; simp only [World.isOther, hw1conns]
  have hidOf : w1.idOf = w.idOf := by
    funext x; simp only [World.idOf, hw1conns]
  refine ⟨w2, (cs.filter (w1.isOther cc)).map (fun x => { t0 with clientID := w1.idOf x }),
    ?_, ?_, ?_, ?_, ?_⟩
  · simp only [ClientConn.Disconnect, hcc, hid, hkey, hw1, ht0, ClientConn.notifyOthers,
      hw1conns, hcs, hrun]
  · rw [hcl, hw1c]
  · rw [hout, hw1out]
  · rw [List.map_map]
    have h1 : ((fun tr : Transaction => tr.clientID) ∘
        fun x => ({ t0 with clientID := w1.idOf x } : Transaction)) = w.idOf := by
      funext x; simp [hidOf]
    rw [h1, hisOther, ← hw1c]
    exact (hperm.filter _).map _
  · intro tr htr
    rw [List.mem_map] at htr
    obtain ⟨x, hx, rfl⟩ := htr
    refine ⟨?_, ?_, ?_⟩
    · rw [← ht0]
      exact Uint16_beBytes tranNotifyDeleteUser (by decide)
    · rw [← ht0]; rfl
    · have hox := (List.mem_filter.1 hx).2
      simp only [World.isOther] at hox
      simp only [World.idOf]
      cases hcx : w1.conns x with
      | none => simp [hcx] at hox
      | some c =>
        simp only [hcx, decide_eq_true_eq] at hox
        simpa using hox.1

/-- C10 witness: the first session of `lobby` disconnects. -/
theorem Disconnect_notifies_agreed_others_witness :
    ∃ w2 sent, ClientConn.Disconnect lobby 100 = some w2 ∧
      w2.Clients = lobby.Clients.filter (fun kc => kc.1 ≠ 1) ∧
      w2.outbox = lobby.outbox ++ sent ∧
      (sent.map (fun tr => tr.clientID)).Perm
        ((((lobby.Clients.filter (fun kc => kc.1 ≠ 1)).map Prod.snd).filter
          (lobby.isOther awayConn)).map lobby.idOf) ∧
      ∀ tr ∈ sent, Uint16 tr.Type_ = some tranNotifyDeleteUser ∧
        tr.Fields = [NewField fieldUserID [0, 1]] ∧ tr.clientID ≠ awayConn.ID :=
  Disconnect_notifies_agreed_others lobby 100 awayConn [0, 1] 1 rfl rfl rfl rfl

/-! ### C11: order of a fan-out -/

theorem keyed_snd (w : World) (x : Addr) (k : Nat × Addr) (h : keyed w x = some k) : k.2 = x := by
  unfold keyed at h
  split at h
  · cases h
  · split at h
    · cases h
    · cases h; rfl

theorem keyedAll_keys (w : World) (l : List Addr) (ks : List (Nat × Addr))
    (h : keyedAll w l = some ks) : ∀ k ∈ ks, keyed w k.2 = some k := by
  induction l generalizing ks with
  | nil =>
    simp [keyedAll] at h
    subst h
    simp
  | cons x xs ih =>
    cases hk : keyed w x with
    | none => simp [keyedAll, hk] at h
    | some k0 =>
      cases hr : keyedAll w xs with
      | none => simp [keyedAll, hk, hr] at h
      | some ks0 =>
        simp [keyedAll, hk, hr] at h
        subst h
        intro k hmem
        rcases List.mem_cons.1 hmem with rfl | hmem
        · rw [keyed_snd w x k hk]; exact hk
        · exact ih ks0 hr k hmem

theorem idValue_idOf (w : World) (x : Addr) (k : Nat × Addr) (h : keyed w x = some k) :
    w.idValue (w.idOf x) = w.connID x := by
  unfold World.connID
  rw [h]
  unfold keyed at h
  cases hc : w.conns x with
  | none => simp [hc] at h
  | some c =>
    simp only [hc, ClientConn.uint16ID] at h
    cases hd : deref w c.ID with
    | none => simp [hd] at h
    | some bs =>
      simp only [hd, Option.some.injEq] at h
      subst h
      simp [World.idValue, World.idOf, hc, hd]

/-- The order of `sortedClients`: the sessions of `Clients`, each once, by
ascending connection ID. -/
theorem sortedClients_sorted (w : World) (h : w.clientsReady = true) :
    ∃ cs, sortedClients w = some cs ∧ cs.Perm (w.Clients.map Prod.snd) ∧
      (∀ x ∈ cs, (w.conns x).isSome = true) ∧
      (∀ x ∈ cs, ∃ k, keyed w x = some k) ∧
      List.Pairwise (fun i j => i ≤ j) (cs.map w.connID) := by
  have h1 : ∀ x ∈ w.Clients.map Prod.snd, (keyed w x).isSome = true := by
    intro x hx
    rw [List.mem_map] at hx
    obtain ⟨kc, hkc, rfl⟩ := hx
    exact List.all_eq_true.1 h kc hkc
  obtain ⟨ks, hks, hmap⟩ := keyedAll_eq_some w _ h1
  have hkeys := keyedAll_keys w _ ks hks
  haveI : IsTotal (Nat × Addr) (fun x y => x.1 ≤ y.1) := ⟨fun a b => Nat.le_total a.1 b.1⟩
  haveI : IsTrans (Nat × Addr) (fun x y => x.1 ≤ y.1) := ⟨fun _ _ _ h1 h2 => Nat.le_trans h1 h2⟩
  have hsorted : List.Pairwise (fun x y : Nat × Addr => x.1 ≤ y.1)
      (ks.insertionSort (fun x y => x.1 ≤ y.1)) := List.sorted_insertionSort _ ks
  have hpermks := List.perm_insertionSort (fun x y : Nat × Addr => x.1 ≤ y.1) ks
  have hperm : ((ks.insertionSort (fun x y => x.1 ≤ y.1)).map Prod.snd).Perm
      (w.Clients.map Prod.snd) := by
    rw [← hmap]
    exact hpermks.map _
  have hkeys2 : ∀ k ∈ ks.insertionSort (fun x y => x.1 ≤ y.1), keyed w k.2 = some k :=
    fun k hk => hkeys k (hpermks.subset hk)
  refine ⟨_, by simp [sortedClients, hks], hperm, ?_, ?_, ?_⟩
  · intro x hx
    have hx2 := h1 x (hperm.subset hx)
    unfold keyed at hx2
    cases hc : w.conns x with
    | none => simp [hc] at hx2
    | some c => rfl
  · intro x hx
    have hx2 := h1 x (hperm.subset hx)
    cases hk : keyed w x with
    | none => simp [hk] at hx2
    | some k => exact ⟨k, rfl⟩
  · rw [List.map_map, List.pairwise_map]
    refine List.Pairwise.imp_of_mem ?_ hsorted
    intro a b ha hb hab
    simp only [Function.comp, World.connID, hkeys2 a ha, hkeys2 b hb]
    exact hab

theorem map_idValue_idOf (w : World) (cs : List Addr)
    (h : ∀ x ∈ cs, ∃ k, keyed w x = some k) :
    (cs.map w.idOf).map w.idValue = cs.map w.connID := by
  rw [List.map_map]
  apply List.map_congr_left
  intro x hx
  obtain ⟨k, hk⟩ := h x hx
  exact idValue_idOf w x k hk

/-- C11: one call of `sendAll` enqueues one transaction for each session of
`Clients`, and one call of `notifyOthers` one for each session that passes its
test, in ascending order of the connection ID they are addressed to; the order
is strictly ascending when the sessions of `Clients` have pairwise distinct
connection IDs. -/
theorem fanOut_in_ascending_order (w : World) (a : Addr) (cc : ClientConn) (t : Nat)
    (fields : List Field) (t0 : Transaction)
    (hcc : w.conns a = some cc) (hc : w.clientsReady = true) :
    (∃ w1 sent, ClientConn.sendAll w t fields = some w1 ∧ w1.outbox = w.outbox ++ sent ∧
      (sent.map (fun tr => tr.clientID)).Perm (w.Clients.map (fun kc => w.idOf kc.2)) ∧
      List.Pairwise (fun i j => i ≤ j) (sent.map w.destID) ∧
      ((w.Clients.map (fun kc => w.connID kc.2)).Nodup →
        List.Pairwise (fun i j => i < j) (sent.map w.destID))) ∧
    (∃ w1 sent, ClientConn.notifyOthers w a t0 = some w1 ∧ w1.outbox = w.outbox ++ sent ∧
      (sent.map (fun tr => tr.clientID)).Perm
        (((w.Clients.map Prod.snd).filter (w.isOther cc)).map w.idOf) ∧
      List.Pairwise (fun i j => i ≤ j) (sent.map w.destID) ∧
      ((w.Clients.map (fun kc => w.connID kc.2)).Nodup →
        List.Pairwise (fun i j => i < j) (sent.map w.destID))) := by
  obtain ⟨cs, hcs, hperm, hsome, hkeyed, hsorted⟩ := sortedClients_sorted w hc
  have hnodup : (w.Clients.map (fun kc => w.connID kc.2)).Nodup → (cs.map w.connID).Nodup := by
    intro hd
    have hp : (cs.map w.connID).Perm ((w.Clients.map Prod.snd).map w.connID) := hperm.map _
    rw [List.map_map] at hp
    exact hp.nodup_iff.2 hd
  constructor
  · obtain ⟨w1, sent, hs, hout, _, _, _, hids, _⟩ := sendEach_spec t fields cs w hsome
    have hids2 : sent.map (fun tr => tr.clientID) = cs.map w.idOf := hids
    have hdest : sent.map w.destID = cs.map w.connID := by
      have : sent.map w.destID = (sent.map (fun tr => tr.clientID)).map w.idValue := by
        rw [List.map_map]; rfl
      rw [this, hids2, map_idValue_idOf w cs hkeyed]
    refine ⟨w1, sent, by simp [ClientConn.sendAll, hcs, hs], hout, ?_, ?_, ?_⟩
    · rw [hids2]
      have := hperm.map w.idOf
      simpa [List.map_map, Function.comp] using this
    · rw [hdest]; exact hsorted
    · intro hd
      rw [hdest]
      exact List.Sorted.lt_of_le hsorted (hnodup hd)
  · obtain ⟨w1, hrun, hout, _, _, _⟩ := notifyEach_spec cc t0 cs w t0 (fun _ => rfl) hsome
    have hsub : List.Sublist ((cs.filter (w.isOther cc)).map w.connID) (cs.map w.connID) :=
      (List.filter_sublist _).map _
    have hdest : ((cs.filter (w.isOther cc)).map
        (fun x => ({ t0 with clientID := w.idOf x } : Transaction))).map w.destID
        = (cs.filter (w.isOther cc)).map w.connID := by
      have : ((cs.filter (w.isOther cc)).map
          (fun x => ({ t0 with clientID := w.idOf x } : Transaction))).map w.destID
          = ((cs.filter (w.isOther cc)).map w.idOf).map w.idValue := by
        simp only [List.map_map]; rfl
      rw [this]
      exact map_idValue_idOf w _ (fun x hx => hkeyed x (List.mem_of_mem_filter hx))
    refine ⟨w1, _, by simp [ClientConn.notifyOthers, hcc, hcs, hrun], hout, ?_, ?_, ?_⟩
    · rw [List.map_map]
      exact (hperm.filter _).map _
    · rw [hdest]; exact hsorted.sublist hsub
    · intro hd
      rw [hdest]
      exact (List.Sorted.lt_of_le hsorted (hnodup hd)).sublist hsub

/-- C11 witness: a fan-out from the first session of `lobby`, whose `Clients`
lists the sessions in the order 2, 1, 3. -/
theorem fanOut_in_ascending_order_witness :
    (∃ w1 sent, ClientConn.sendAll lobby tranNotifyChangeUser [] = some w1 ∧
      w1.outbox = lobby.outbox ++ sent ∧
      (sent.map (fun tr => tr.clientID)).Perm (lobby.Clients.map (fun kc => lobby.idOf kc.2)) ∧
      List.Pairwise (fun i j => i ≤ j) (sent.map lobby.destID) ∧
      ((lobby.Clients.map (fun kc => lobby.connID kc.2)).Nodup →
        List.Pairwise (fun i j => i < j) (sent.map lobby.destID))) ∧
    (∃ w1 sent, ClientConn.notifyOthers lobby 100 chatRequest = some w1 ∧
      w1.outbox = lobby.outbox ++ sent ∧
      (sent.map (fun tr => tr.clientID)).Perm
        (((lobby.Clients.map Prod.snd).filter (lobby.isOther awayConn)).map lobby.idOf) ∧
      List.Pairwise (fun i j => i ≤ j) (sent.map lobby.destID) ∧
      ((lobby.Clients.map (fun kc => lobby.connID kc.2)).Nodup →
        List.Pairwise (fun i j => i < j) (sent.map lobby.destID))) :=
  fanOut_in_ascending_order lobby 100 awayConn tranNotifyChangeUser [] chatRequest rfl rfl

/-! ### C12: request IDs of a fan-out -/

theorem sendEach_ids (t : Nat) (fields : List Field) (cs : List Addr) (w : World)
    (h : ∀ x ∈ cs, (w.conns x).isSome = true) :
    ∃ w1 sent, sendEach t fields cs w = some w1 ∧ w1.outbox = w.outbox ++ sent ∧
      sent.length = cs.length ∧
      sent.map (fun tr => tr.ID)
        = (List.range cs.length).map (fun i => beBytes 4 (w.rand (w.randPos + i))) := by
  induction cs generalizing w with
  | nil => exact ⟨w, [], rfl, by simp, rfl, rfl⟩
  | cons x xs ih =>
    have hx := h x (List.mem_cons_self _ _)
    cases hc : w.conns x with
    | none => simp [hc] at hx
    | some c =>
      have hrest : ∀ y ∈ xs, (((NewTransaction w t c.ID fields).2.send
          (NewTransaction w t c.ID fields).1).conns y).isSome = true :=
        fun y hy => h y (List.mem_cons_of_mem _ hy)
      obtain ⟨w1, sent, hs, hout, hlen, hids⟩ := ih _ hrest
      refine ⟨w1, (NewTransaction w t c.ID fields).1 :: sent, ?_, ?_, ?_, ?_⟩
      · simp [sendEach, hc, hs]
      · rw [hout]; simp [World.send, NewTransaction]
      · simp [hlen]
      · rw [List.map_cons, hids, List.length_cons, List.range_succ_eq_map, List.map_cons,
          List.map_map]
        congr 1
        apply List.map_congr_left
        intro i _
        simp only [Function.comp, World.send, NewTransaction]
        congr 2
        omega

/-- C12, as stated, fails for `sendAll`: with the generator of the scenarios
of the spec, the three transactions of one fan-out carry the request IDs
9acb0442, f0c5341e and 52fdfc07. -/
theorem sendAll_draws_fresh_ids :
    (ClientConn.sendAll seededLobby tranNotifyChangeUser []).map
      (fun w => w.outbox.map (fun tr => (tr.clientID, tr.ID)))
      = some [(some 1, [154, 203, 4, 66]), (some 21, [240, 197, 52, 30]),
          (some 31, [82, 253, 252, 7])] := by
  decide

/-- C12 (amended): all transactions of one fan-out performed by `notifyOthers`
carry the same request ID, the one of the transaction passed to it; a fan-out
performed by `sendAll` draws a new request ID from the random generator for
each recipient, the i-th transaction carrying the i-th number drawn. -/
theorem fanOut_request_ids (w : World) (a : Addr) (cc : ClientConn) (t : Nat)
    (fields : List Field) (t0 : Transaction)
    (hcc : w.conns a = some cc) (hc : w.clientsReady = true) :
    (∃ w1 sent, ClientConn.notifyOthers w a t0 = some w1 ∧ w1.outbox = w.outbox ++ sent ∧
      sent.length = ((w.Clients.map Prod.snd).filter (w.isOther cc)).length ∧
      ∀ tr ∈ sent, tr.ID = t0.ID) ∧
    (∃ w1 sent, ClientConn.sendAll w t fields = some w1 ∧ w1.outbox = w.outbox ++ sent ∧
      sent.length = w.Clients.length ∧
      sent.map (fun tr => tr.ID)
        = (List.range w.Clients.length).map (fun i => beBytes 4 (w.rand (w.randPos + i)))) := by
  obtain ⟨cs, hcs, hperm, hsome, _, _⟩ := sortedClients_sorted w hc
  have hlen : cs.length = w.Clients.length := by
    rw [hperm.length_eq, List.length_map]
  constructor
  · obtain ⟨w1, hrun, hout, _, _, _⟩ := notifyEach_spec cc t0 cs w t0 (fun _ => rfl) hsome
    refine ⟨w1, _, by simp [ClientConn.notifyOthers, hcc, hcs, hrun], hout, ?_, ?_⟩
    · rw [List.length_map]
      exact (hperm.filter _).length_eq
    · intro tr htr
      rw [List.mem_map] at htr
      obtain ⟨x, _, rfl⟩ := htr
      rfl
  · obtain ⟨w1, sent, hs, hout, hl, hids⟩ := sendEach_ids t fields cs w hsome
    refine ⟨w1, sent, by simp [ClientConn.sendAll, hcs, hs], hout, by rw [hl, hlen], ?_⟩
    rw [hids, hlen]

/-- C12 witness: fan-outs from the first session of `seededLobby`. -/
theorem fanOut_request_ids_witness :
    (∃ w1 sent, ClientConn.notifyOthers seededLobby 100 chatRequest = some w1 ∧
      w1.outbox = seededLobby.outbox ++ sent ∧
      sent.length = ((seededLobby.Clients.map Prod.snd).filter
        (seededLobby.isOther awayConn)).length ∧
      ∀ tr ∈ sent, tr.ID = chatRequest.ID) ∧
    (∃ w1 sent, ClientConn.sendAll seededLobby tranNotifyChangeUser [] = some w1 ∧
      w1.outbox = seededLobby.outbox ++ sent ∧
      sent.length = seededLobby.Clients.length ∧
      sent.map (fun tr => tr.ID)
        = (List.range seededLobby.Clients.length).map
            (fun i => beBytes 4 (seededLobby.rand (seededLobby.randPos + i)))) :=
  fanOut_request_ids seededLobby 100 awayConn tranNotifyChangeUser [] chatRequest rfl rfl

/-! ### C13: recipients of a chat message -/

/-- C14: `Authenticate(login, password)` returns true exactly when the server
has an account under `login` and the bcrypt check of the stored hash of that
account against `password` succeeds; it returns false for a login without
account. -/
theorem Authenticate_iff (compareHashAndPassword : List Byte → List Byte → Option GoError)
    (w : World) (login password : List Byte) :
    (ClientConn.Authenticate compareHashAndPassword w login password = true ↔
      ∃ account, w.Accounts.lookup login = some account ∧
        compareHashAndPassword account.Password password = none) ∧
    (w.Accounts.lookup login = none →
      ClientConn.Authenticate compareHashAndPassword w login password = false) := by
  constructor
  · cases h : w.Accounts.lookup login with
    | none => simp [ClientConn.Authenticate, h]
    | some account => simp [ClientConn.Authenticate, h, Option.isNone_iff_eq_none]
  · intro h
    simp [ClientConn.Authenticate, h]

/-- C14 witness: the login "nobody" has no account on `guestServer`. -/
theorem Authenticate_iff_witness :
    (ClientConn.Authenticate toyCompare guestServer (ascii "nobody") (ascii "pw") = true ↔
      ∃ account, guestServer.Accounts.lookup (ascii "nobody") = some account ∧
        toyCompare account.Password (ascii "pw") = none) ∧
    (guestServer.Accounts.lookup (ascii "nobody") = none →
      ClientConn.Authenticate toyCompare guestServer (ascii "nobody") (ascii "pw") = false) :=
  Authenticate_iff toyCompare guestServer (ascii "nobody") (ascii "pw")

/-! ### C15: login obfuscation -/

theorem xor255_lt (b : Nat) (h : b < 256) : b ^^^ 255 < 256 :=
  Nat.xor_lt_two_pow (n := 8) h (by decide)

theorem negateString_negateString (s : List Byte) : negateString (negateString s) = s := by
  unfold negateString
  rw [List.map_map]
  conv => rhs; rw [← List.map_id s]
  apply List.map_congr_left
  intro b _
  apply Fin.ext
  have h1 : b.val ^^^ 255 < 256 := xor255_lt b.val b.isLt
  simp only [Function.comp, Fin.ofNat, id]
  show ((b.val ^^^ 255) % 256 ^^^ 255) % 256 = b.val
  rw [Nat.mod_eq_of_lt h1, Nat.xor_assoc, Nat.xor_self, Nat.xor_zero, Nat.mod_eq_of_lt b.isLt]

theorem negateString_get (s : List Byte) (i : Nat) (b : Byte) (h : s[i]? = some b) :
    ∃ b1, (negateString s)[i]? = some b1 ∧ b1.val = b.val ^^^ 255 := by
  refine ⟨Fin.ofNat (b.val ^^^ 255), ?_, ?_⟩
  · simp [negateString, List.getElem?_map, h]
  · show (b.val ^^^ 255) % 256 = b.val ^^^ 255
    exact Nat.mod_eq_of_lt (xor255_lt b.val b.isLt)

/-- What `Send` does with a request on a working connection: it records the
request under its ID and writes it. -/
theorem Send_request (c : Client) (t : Transaction) (n id : Nat)
    (hn : Uint16 t.Type_ = some n) (hid : Uint32 t.ID = some id) (hreq : t.IsReply = 0)
    (hconn : c.connErr = none) :
    c.Send t = some ({ c with
      activeTasks := fun k => if k = id then some t else c.activeTasks k,
      written := c.written ++ [t] }, none) := by
  simp [Client.Send, hn, hid, hreq, hconn]

theorem Uint32_beBytes (v : Nat) : Uint32 (beBytes 4 v) = some (v % 4294967296) := by
  simp [Uint32, beBytes, beValue, Fin.ofNat]
  omega

/-- C15: on a working connection `LogIn` sends one `tranLogin` request whose
`fieldUserLogin` and `fieldUserPassword` data have the length of the plaintext
and hold the bitwise complement (`b XOR 0xFF`) of each plaintext byte;
complementing the wire bytes again yields the plaintext. -/
theorem LogIn_sends_complement (c : Client) (pref : ClientPrefs) (login password : List Byte)
    (hpref : c.pref = some pref) (hconn : c.connErr = none) :
    ∃ c1 t, c.LogIn login password = some (c1, none) ∧ c1.written = c.written ++ [t] ∧
      Uint16 t.Type_ = some tranLogin ∧ t.IsReply = 0 ∧
      (t.GetField fieldUserLogin).Data = negateString login ∧
      (t.GetField fieldUserPassword).Data = negateString password ∧
      (negateString login).length = login.length ∧
      (negateString password).length = password.length ∧
      (∀ (i : Nat) (b : Byte), login[i]? = some b →
        ∃ b1 : Byte, (negateString login)[i]? = some b1 ∧ b1.val = b.val ^^^ 255) ∧
      (∀ (i : Nat) (b : Byte), password[i]? = some b →
        ∃ b1 : Byte, (negateString password)[i]? = some b1 ∧ b1.val = b.val ^^^ 255) ∧
      negateString (negateString login) = login ∧
      negateString (negateString password) = password := by
  generalize hfs : [NewField fieldUserName pref.Username, NewField fieldUserIconID pref.IconBytes,
       NewField fieldUserLogin (negateString login),
       NewField fieldUserPassword (negateString password)] = fs
  have hT : Uint16 (c.NewTransaction tranLogin none fs).1.Type_ = some tranLogin :=
    Uint16_beBytes tranLogin (by decide)
  have hI := Uint32_beBytes (c.rand c.randPos)
  have hsend := Send_request (c.NewTransaction tranLogin none fs).2
    (c.NewTransaction tranLogin none fs).1 tranLogin _ hT hI rfl hconn
  refine ⟨{ (c.NewTransaction tranLogin none fs).2 with
      activeTasks := fun k =>
        if k = c.rand c.randPos % 4294967296 then some (c.NewTransaction tranLogin none fs).1
        else (c.NewTransaction tranLogin none fs).2.activeTasks k,
      written := (c.NewTransaction tranLogin none fs).2.written
        ++ [(c.NewTransaction tranLogin none fs).1] },
    (c.NewTransaction tranLogin none fs).1, ?_, ?_, hT, rfl, ?_, ?_,
    by simp [negateString], by simp [negateString],
    negateString_get login, negateString_get password,
    negateString_negateString login, negateString_negateString password⟩
  · simp only [Client.LogIn, hpref, hfs]
    exact hsend
  · rfl
  · rw [← hfs]
    simp [Client.NewTransaction, Transaction.GetField, NewField, List.find?, Uint16_beBytes,
      fieldUserName, fieldUserIconID, fieldUserLogin, fieldUserPassword]
  · rw [← hfs]
    simp [Client.NewTransaction, Transaction.GetField, NewField, List.find?, Uint16_beBytes,
      fieldUserName, fieldUserIconID, fieldUserLogin, fieldUserPassword]

/-- C15 witness: `freshClient` logs in as "guest" with the password "pw". -/
theorem LogIn_sends_complement_witness :
    ∃ c1 t, freshClient.LogIn (ascii "guest") (ascii "pw") = some (c1, none) ∧
      c1.written = freshClient.written ++ [t] ∧
      Uint16 t.Type_ = some tranLogin ∧ t.IsReply = 0 ∧
      (t.GetField fieldUserLogin).Data = negateString (ascii "guest") ∧
      (t.GetField fieldUserPassword).Data = negateString (ascii "pw") ∧
      (negateString (ascii "guest")).length = (ascii "guest").length ∧
      (negateString (ascii "pw")).length = (ascii "pw").length ∧
      (∀ (i : Nat) (b : Byte), (ascii "guest")[i]? = some b →
        ∃ b1 : Byte, (negateString (ascii "guest"))[i]? = some b1 ∧ b1.val = b.val ^^^ 255) ∧
      (∀ (i : Nat) (b : Byte), (ascii "pw")[i]? = some b →
        ∃ b1 : Byte, (negateString (ascii "pw"))[i]? = some b1 ∧ b1.val = b.val ^^^ 255) ∧
      negateString (negateString (ascii "guest")) = ascii "guest" ∧
      negateString (negateString (ascii "pw")) = ascii "pw" :=
  LogIn_sends_complement freshClient
    { Username := ascii "guest", IconID := 128, Bookmarks := [], Tracker := [] }
    (ascii "guest") (ascii "pw") rfl rfl

/-! ### C16, C17: replies on the client -/

/-- C16: `Send` records a request `q` under its ID; and when a reply `r`
(IsReply=1) with that ID arrives while the entry is there,
`HandleTransaction` gives `r` the Type of `q` and dispatches it to the handler
registered for the Type of `q`, whatever Type `r` carried. -/
theorem HandleTransaction_recovers_type (handlers : Nat → Option ClientHandler)
    (c c2 : Client) (q r : Transaction) (n id : Nat)
    (hq : q.IsReply = 0) (hn : Uint16 q.Type_ = some n) (hid : Uint32 q.ID = some id)
    (hr : r.IsReply = 1) (hrid : Uint32 r.ID = some id)
    (hentry : c2.activeTasks id = some q) :
    (∃ c1 e, c.Send q = some (c1, e) ∧ c1.activeTasks id = some q) ∧
    Client.HandleTransaction handlers c2 r
      = Client.dispatch handlers c2 { r with Type_ := q.Type_ } ∧
    (∀ handler, handlers n = some handler →
      Client.HandleTransaction handlers c2 r =
        match handler c2 { r with Type_ := q.Type_ } with
        | none => none
        | some res =>
          match Client.sendEach res.2.1 res.1 with
          | none => none
          | some c3 => some (c3, none)) := by
  refine ⟨?_, ?_, ?_⟩
  · cases hc : c.connErr with
    | none =>
      exact ⟨_, none, by simp [Client.Send, hn, hid, hq, hc]; rfl, by simp⟩
    | some e =>
      exact ⟨_, some e, by simp [Client.Send, hn, hid, hq, hc]; rfl, by simp⟩
  · simp [Client.HandleTransaction, hr, hrid, hentry]
  · intro handler hh
    simp [Client.HandleTransaction, hr, hrid, hentry, Client.dispatch, hn, hh]

/-- C16 witness: `freshClient` sends `keepAliveRequest`; the error reply
`keepAliveReply` (type 0) is dispatched under the type 500 of the request. -/
theorem HandleTransaction_recovers_type_witness :
    (∃ c1 e, freshClient.Send keepAliveRequest = some (c1, e) ∧
      c1.activeTasks 2596996162 = some keepAliveRequest) ∧
    Client.HandleTransaction keepAliveOnly waitingClient keepAliveReply
      = Client.dispatch keepAliveOnly waitingClient
          { keepAliveReply with Type_ := keepAliveRequest.Type_ } ∧
    (∀ handler, keepAliveOnly 500 = some handler →
      Client.HandleTransaction keepAliveOnly waitingClient keepAliveReply =
        match handler waitingClient { keepAliveReply with Type_ := keepAliveRequest.Type_ } with
        | none => none
        | some res =>
          match Client.sendEach res.2.1 res.1 with
          | none => none
          | some c3 => some (c3, none)) :=
  HandleTransaction_recovers_type keepAliveOnly freshClient waitingClient keepAliveRequest
    keepAliveReply 500 2596996162 rfl rfl rfl rfl rfl rfl

theorem Send_keeps_entry (c c1 : Client) (t : Transaction) (e : Option GoError) (id : Nat)
    (h : c.Send t = some (c1, e)) (hid : (c.activeTasks id).isSome = true) :
    (c1.activeTasks id).isSome = true := by
  unfold Client.Send at h
  cases hn : Uint16 t.Type_ with
  | none => simp [hn] at h
  | some n =>
    cases hi : Uint32 t.ID with
    | none => simp [hn, hi] at h
    | some tID =>
      simp only [hn, hi] at h
      by_cases hq : t.IsReply = 0
      · cases hc : c.connErr with
        | none =>
          simp [hq, hc] at h
          rw [← h.1]
          by_cases hk : id = tID
          · simp [hk]
          · simpa [hk] using hid
        | some err =>
          simp [hq, hc] at h
          rw [← h.1]
          by_cases hk : id = tID
          · simp [hk]
          · simpa [hk] using hid
      · cases hc : c.connErr with
        | none =>
          simp [hq, hc] at h
          rw [← h.1]
          exact hid
        | some err =>
          simp [hq, hc] at h
          rw [← h.1]
          exact hid

theorem Send_returns (c : Client) (t : Transaction)
    (h : (Uint16 t.Type_).isSome = true ∧ (Uint32 t.ID).isSome = true) :
    ∃ r, c.Send t = some r := by
  obtain ⟨h1, h2⟩ := h
  cases hn : Uint16 t.Type_ with
  | none => simp [hn] at h1
  | some n =>
    cases hi : Uint32 t.ID with
    | none => simp [hi] at h2
    | some tID =>
      simp only [Client.Send, hn, hi]
      split <;> exact ⟨_, rfl⟩

theorem sendEach_keeps_entry (outT : List Transaction) (c : Client) (id : Nat)
    (hout : ∀ t ∈ outT, (Uint16 t.Type_).isSome = true ∧ (Uint32 t.ID).isSome = true)
    (hid : (c.activeTasks id).isSome = true) :
    ∃ c2, Client.sendEach outT c = some c2 ∧ (c2.activeTasks id).isSome = true := by
  induction outT generalizing c with
  | nil => exact ⟨c, rfl, hid⟩
  | cons t rest ih =>
    obtain ⟨r, hr⟩ := Send_returns c t (hout t (List.mem_cons_self _ _))
    have hkeep := Send_keeps_entry c r.1 t r.2 id (by rw [hr]) hid
    obtain ⟨c2, hc2, hfin⟩ := ih r.1 (fun u hu => hout u (List.mem_cons_of_mem _ hu)) hkeep
    exact ⟨c2, by simp [Client.sendEach, hr, hc2], hfin⟩

/-- C17, as stated, fails: after `waitingClient` has handled the reply to its
keep-alive request, `activeTasks` still holds the request under its ID. -/
theorem reply_leaves_active_task :
    waitingClient.activeTasks 2596996162 = some keepAliveRequest ∧
    keepAliveReply.IsReply = 1 ∧ Uint32 keepAliveReply.ID = some 2596996162 ∧
    (Client.HandleTransaction keepAliveOnly waitingClient keepAliveReply).map
      (fun res => (res.1.activeTasks 2596996162, res.2))
      = some (some keepAliveRequest, none) := by
  refine ⟨rfl, rfl, rfl, ?_⟩
  rfl

/-- C17 (amended): `HandleTransaction` removes no entry of `activeTasks`: for a
reply (IsReply=1) whose ID is a key of `activeTasks`, when no handler is
registered for the request's Type, or the registered handler leaves the entry
in place, `activeTasks` still contains that ID after `HandleTransaction`. -/
theorem HandleTransaction_keeps_entry (handlers : Nat → Option ClientHandler)
    (c c1 : Client) (r origT : Transaction) (n id : Nat) (outT : List Transaction)
    (hr : r.IsReply = 1) (hrid : Uint32 r.ID = some id)
    (hentry : c.activeTasks id = some origT) (hn : Uint16 origT.Type_ = some n)
    (hrun : (handlers n = none ∧ c1 = c ∧ outT = []) ∨
      ∃ handler e, handlers n = some handler ∧
        handler c { r with Type_ := origT.Type_ } = some (c1, outT, e))
    (hkeep : (c1.activeTasks id).isSome = true)
    (hout : ∀ t ∈ outT, (Uint16 t.Type_).isSome = true ∧ (Uint32 t.ID).isSome = true) :
    ∃ c2, Client.HandleTransaction handlers c r = some (c2, none) ∧
      (c2.activeTasks id).isSome = true := by
  rcases hrun with ⟨hnone, rfl, rfl⟩ | ⟨handler, e, hh, hres⟩
  · exact ⟨c1, by simp [Client.HandleTransaction, hr, hrid, hentry, Client.dispatch, hn, hnone],
      hkeep⟩
  · obtain ⟨c2, hc2, hfin⟩ := sendEach_keeps_entry outT c1 id hout hkeep
    refine ⟨c2, ?_, hfin⟩
    simp only [hr] at hres
    simp only [Client.HandleTransaction, hr, if_true, hrid, hentry, Client.dispatch, hn, hh,
      hres, hc2]

/-- C17 witness: `waitingClient` handles the reply to its keep-alive request. -/
theorem HandleTransaction_keeps_entry_witness :
    ∃ c2, Client.HandleTransaction keepAliveOnly waitingClient keepAliveReply = some (c2, none) ∧
      (c2.activeTasks 2596996162).isSome = true :=
  HandleTransaction_keeps_entry keepAliveOnly waitingClient waitingClient keepAliveReply
    keepAliveRequest 500 2596996162 [] rfl rfl rfl rfl
    (Or.inr ⟨keepAliveHandler, none, rfl, rfl⟩) rfl (by simp)

/-! ### C18, C19, C20: the wire form of a file path -/

theorem foldl_encode (sections : List (List Byte)) (acc : List Byte) :
    sections.foldl
      (fun bytes pathStr => bytes ++ [0, 0] ++ [Fin.ofNat pathStr.length] ++ pathStr) acc
      = acc ++ ((sections.map (fun s => ((0 : Byte), (0 : Byte), s))).map itemBytes).flatten := by
  induction sections generalizing acc with
  | nil => simp
  | cons s rest ih =>
    rw [List.foldl_cons, ih]
    simp [itemBytes]

theorem EncodeFilePath_eq (path : List Byte) :
    EncodeFilePath path
      = completePath ((splitSlash path).map (fun s => ((0 : Byte), (0 : Byte), s))) := by
  unfold EncodeFilePath completePath
  rw [foldl_encode, List.length_map]

theorem ofNat_length_val (s : List Byte) (h : s.length ≤ 255) :
    (Fin.ofNat s.length : Byte).val = s.length := by
  show s.length % 256 = s.length
  omega

theorem readItems_complete (items : List (Byte × Byte × List Byte)) (extra : List Byte)
    (h : ∀ i ∈ items, i.2.2.length ≤ 255) :
    readItems items.length ((items.map itemBytes).flatten ++ extra)
      = some (items.map decodedItem) := by
  induction items with
  | nil => rfl
  | cons i rest ih =>
    have hi := ofNat_length_val i.2.2 (h i (List.mem_cons_self _ _))
    have ih2 := ih (fun j hj => h j (List.mem_cons_of_mem _ hj))
    have hlt : ¬ ((i.2.2 ++ ((rest.map itemBytes).flatten ++ extra)).length
        < i.2.2.length) := by
      rw [List.length_append]; omega
    simp only [List.length_cons, List.map_cons, List.flatten_cons, itemBytes, List.cons_append,
      List.nil_append, List.append_assoc, readItems, hi, hlt, if_false,
      List.drop_left, List.take_left, ih2, decodedItem]

theorem beValue_take_two_beBytes (n : Nat) (rest : List Byte) (h : n ≤ 65535) :
    beValue ((beBytes 2 n ++ rest).take 2) = n := by
  have hlen : (beBytes 2 n).length = 2 := by simp [beBytes]
  have htake : (beBytes 2 n ++ rest).take 2 = beBytes 2 n := by
    rw [List.take_append_of_le_length (by omega)]
    rw [← hlen]; exact List.take_length _
  rw [htake, beValue_beBytes_two]
  omega

theorem UnmarshalBinary_completePath (items : List (Byte × Byte × List Byte))
    (hcount : items.length ≤ 65535) (h : ∀ i ∈ items, i.2.2.length ≤ 255) :
    FilePath.UnmarshalBinary (completePath items)
      = Except.ok { ItemCount := beBytes 2 items.length, Items := items.map decodedItem } := by
  have hlen : (beBytes 2 items.length).length = 2 := by simp [beBytes]
  have hge : ¬ ((completePath items).length < 2) := by
    simp [completePath, hlen]
  have hdrop : (completePath items).drop 2 = (items.map itemBytes).flatten := by
    unfold completePath
    rw [← hlen]; exact List.drop_left _ _
  have htake : (completePath items).take 2 = beBytes 2 items.length := by
    unfold completePath
    rw [← hlen]; exact List.take_left _ _
  have hval : beValue ((completePath items).take 2) = items.length :=
    beValue_take_two_beBytes items.length _ hcount
  have hread := readItems_complete items [] h
  rw [List.append_nil] at hread
  have hval2 : beValue (beBytes 2 items.length) = items.length := by
    rw [← htake]; exact hval
  simp only [FilePath.UnmarshalBinary, hge, if_false, hdrop, htake, hval2, hread]

/-- C18: for a path with at most 65535 "/"-separated sections of at most 255
bytes each, `FilePath.UnmarshalBinary` applied to `EncodeFilePath(path)`
succeeds; its `ItemCount` is the number of sections, the names of its `Items`
are the sections in order, and each `Len` is the length of its name. -/
theorem UnmarshalBinary_EncodeFilePath (path : List Byte)
    (hcount : (splitSlash path).length ≤ 65535)
    (hlen : ∀ s ∈ splitSlash path, s.length ≤ 255) :
    ∃ fp, FilePath.UnmarshalBinary (EncodeFilePath path) = Except.ok fp ∧
      Uint16 fp.ItemCount = some (splitSlash path).length ∧
      fp.Items.length = (splitSlash path).length ∧
      fp.Items.map (fun item => item.Name) = splitSlash path ∧
      ∀ item ∈ fp.Items, item.Len.val = item.Name.length := by
  have hc : ((splitSlash path).map (fun s => ((0 : Byte), (0 : Byte), s))).length ≤ 65535 := by
    rw [List.length_map]; exact hcount
  have hl : ∀ i ∈ (splitSlash path).map (fun s => ((0 : Byte), (0 : Byte), s)),
      i.2.2.length ≤ 255 := by
    intro i hi
    rw [List.mem_map] at hi
    obtain ⟨s, hs, rfl⟩ := hi
    exact hlen s hs
  refine ⟨_, by rw [EncodeFilePath_eq]; exact UnmarshalBinary_completePath _ hc hl, ?_, ?_, ?_, ?_⟩
  · rw [List.length_map]
    exact Uint16_beBytes _ (by omega)
  · simp
  · rw [List.map_map, List.map_map]
    exact (List.map_congr_left (fun s _ => rfl)).trans (List.map_id _)
  · intro item hitem
    simp only [List.map_map, List.mem_map, Function.comp, decodedItem] at hitem
    obtain ⟨s, hs, rfl⟩ := hitem
    exact ofNat_length_val s (hlen s hs)

/-- C18 witness: the path "First Level Dir/A SubDir" of
`TestFilePath_UnmarshalBinary`. -/
theorem UnmarshalBinary_EncodeFilePath_witness :
    ∃ fp, FilePath.UnmarshalBinary (EncodeFilePath (ascii "First Level Dir/A SubDir"))
        = Except.ok fp ∧
      Uint16 fp.ItemCount = some (splitSlash (ascii "First Level Dir/A SubDir")).length ∧
      fp.Items.length = (splitSlash (ascii "First Level Dir/A SubDir")).length ∧
      fp.Items.map (fun item => item.Name) = splitSlash (ascii "First Level Dir/A SubDir") ∧
      ∀ item ∈ fp.Items, item.Len.val = item.Name.length :=
  UnmarshalBinary_EncodeFilePath (ascii "First Level Dir/A SubDir") (by decide) (by decide)

set_option maxRecDepth 100000 in
/-- C19, as stated, fails for a section of 256 bytes: the path made of 256
times "a" has one section, of 256 bytes, and its length byte is 0. -/
theorem length_byte_wraps :
    splitSlash (List.replicate 256 97) = [List.replicate 256 97] ∧
    (List.replicate 256 (97 : Byte)).length = 256 ∧
    (EncodeFilePath (List.replicate 256 97)).take 5 = [0, 1, 0, 0, 0] :=
  ⟨rfl, rfl, rfl⟩

/-- C19 (amended): for every path, `EncodeFilePath(path)` is the number of
"/"-separated sections, modulo 65536, as two big-endian bytes, followed for
each section in order by two zero bytes, one byte equal to the section's
length modulo 256, and the section itself; its total length is 2 plus the sum
over the sections of 3 + section length. -/
theorem EncodeFilePath_layout (path : List Byte) :
    EncodeFilePath path
      = beBytes 2 (splitSlash path).length
        ++ ((splitSlash path).map
            (fun s => [(0 : Byte), 0, Fin.ofNat s.length] ++ s)).flatten ∧
    Uint16 (beBytes 2 (splitSlash path).length) = some ((splitSlash path).length % 65536) ∧
    (splitSlash path).Forall
      (fun s => (Fin.ofNat s.length : Byte).val = s.length % 256) ∧
    (EncodeFilePath path).length
      = 2 + ((splitSlash path).map (fun s => 3 + s.length)).sum := by
  have heq : EncodeFilePath path
      = beBytes 2 (splitSlash path).length
        ++ ((splitSlash path).map
            (fun s => [(0 : Byte), 0, Fin.ofNat s.length] ++ s)).flatten := by
    rw [EncodeFilePath_eq, completePath, List.length_map, List.map_map]
    rfl
  refine ⟨heq, ?_, ?_, ?_⟩
  · have := Uint16_beBytes_append (splitSlash path).length []
    rwa [List.append_nil] at this
  · rw [List.forall_iff_forall_mem]
    intro s _
    rfl
  · rw [heq, List.length_append, List.length_flatten, List.map_map]
    have h2 : (beBytes 2 (splitSlash path).length).length = 2 := by simp [beBytes]
    rw [h2]
    congr 2
    apply List.map_congr_left
    intro s _
    simp [Function.comp]
    omega

theorem readItems_truncated (items : List (Byte × Byte × List Byte)) (k : Nat)
    (h : ∀ i ∈ items, i.2.2.length ≤ 255)
    (hk : k < ((items.map itemBytes).flatten).length) :
    readItems items.length (((items.map itemBytes).flatten).take k) = none := by
  induction items generalizing k with
  | nil => simp at hk
  | cons i rest ih =>
    have hi := ofNat_length_val i.2.2 (h i (List.mem_cons_self _ _))
    have hrest : ∀ j ∈ rest, j.2.2.length ≤ 255 := fun j hj => h j (List.mem_cons_of_mem _ hj)
    simp only [List.map_cons, List.flatten_cons, itemBytes, List.cons_append, List.nil_append,
      List.length_cons, List.length_append] at hk ⊢
    match k, hk with
    | 0, _ => simp [readItems]
    | 1, _ => simp [readItems]
    | 2, _ => simp [readItems]
    | k + 3, hk =>
      simp only [List.take_succ_cons, readItems, hi]
      by_cases hshort : k < i.2.2.length
      · have : ((i.2.2 ++ (rest.map itemBytes).flatten).take k).length < i.2.2.length := by
          rw [List.length_take]; omega
        rw [if_pos this]
      · have hge : i.2.2.length ≤ k := by omega
        have hnot : ¬ (((i.2.2 ++ (rest.map itemBytes).flatten).take k).length
            < i.2.2.length) := by
          rw [List.length_take, List.length_append]; omega
        have hdrop : ((i.2.2 ++ (rest.map itemBytes).flatten).take k).drop i.2.2.length
            = ((rest.map itemBytes).flatten).take (k - i.2.2.length) := by
          rw [List.take_append_eq_append_take, List.take_of_length_le hge, List.drop_left]
        have hih := ih (k - i.2.2.length) hrest (by omega)
        simp only [hnot, if_false, hdrop, hih]

/-- C20: a wire `FilePath` that is truncated, that is a proper prefix of a
complete one (so: fewer than 2 bytes for the item count, or fewer item bytes
than the item count and the length bytes declare), makes
`FilePath.UnmarshalBinary` return an error, and `readPath` an error together
with the empty path. -/
theorem truncated_FilePath_is_malformed (items : List (Byte × Byte × List Byte)) (k : Nat)
    (fileRoot : List Byte) (fileName : Option (List Byte))
    (hcount : items.length ≤ 65535) (hlen : ∀ i ∈ items, i.2.2.length ≤ 255)
    (hk : k < (completePath items).length) :
    FilePath.UnmarshalBinary ((completePath items).take k) = Except.error "malformed" ∧
    readPath fileRoot (some ((completePath items).take k)) fileName
      = ([], some "malformed") := by
  have hU : FilePath.UnmarshalBinary ((completePath items).take k) = Except.error "malformed" := by
    have hlen2 : (beBytes 2 items.length).length = 2 := by simp [beBytes]
    by_cases h2 : k < 2
    · have : ((completePath items).take k).length < 2 := by
        rw [List.length_take]; omega
      simp only [FilePath.UnmarshalBinary]
      rw [if_pos this]
    · have hge : ¬ (((completePath items).take k).length < 2) := by
        rw [List.length_take]; omega
      have hsplit : (completePath items).take k
          = beBytes 2 items.length ++ ((items.map itemBytes).flatten).take (k - 2) := by
        unfold completePath
        rw [List.take_append_eq_append_take, hlen2, List.take_of_length_le (by omega)]
      have htake : ((completePath items).take k).take 2 = beBytes 2 items.length := by
        rw [hsplit]
        have := List.take_left (beBytes 2 items.length)
          (((items.map itemBytes).flatten).take (k - 2))
        rwa [hlen2] at this
      have hdrop : ((completePath items).take k).drop 2
          = ((items.map itemBytes).flatten).take (k - 2) := by
        rw [hsplit]
        have := List.drop_left (beBytes 2 items.length)
          (((items.map itemBytes).flatten).take (k - 2))
        rwa [hlen2] at this
      have hval : beValue (beBytes 2 items.length) = items.length := by
        rw [beValue_beBytes_two]; omega
      have hk2 : k - 2 < ((items.map itemBytes).flatten).length := by
        have : (completePath items).length = 2 + ((items.map itemBytes).flatten).length := by
          unfold completePath
          rw [List.length_append, hlen2]
        omega
      have hread := readItems_truncated items (k - 2) hlen hk2
      simp only [FilePath.UnmarshalBinary, hge, if_false, htake, hdrop, hval, hread]
  refine ⟨hU, ?_⟩
  simp only [readPath, hU]

/-- C20 witness: the wire path of "foo" without its last byte. -/
theorem truncated_FilePath_is_malformed_witness :
    FilePath.UnmarshalBinary
        ((completePath [(0, 0, ascii "foo")]).take 7) = Except.error "malformed" ∧
    readPath mobiusRoot (some ((completePath [(0, 0, ascii "foo")]).take 7)) (some (ascii "aaa"))
      = ([], some "malformed") :=
  truncated_FilePath_is_malformed [(0, 0, ascii "foo")] 7 mobiusRoot (some (ascii "aaa"))
    (by decide) (by decide) (by decide)

/-! ### C24: `Authorize` on every bitmap, the sign bit included -/

/-- C24: for every 8-byte access bitmap, also one whose most significant bit
is set (its value is at least 2^63 and negative after the conversion to
`int64`), and every access number `a` with `0 ≤ a ≤ 63`, `Authorize(a)` is
`(a = 0) OR (bit 63 - a of the big-endian unsigned value is 1)`; in particular
`Authorize(0)` is true on every bitmap, the all-zero one included. -/
theorem Authorize_eq_zero_or_bit (w : World) (cc : ClientConn) (account : Account) (p : Addr)
    (bits : List Byte) (a : Int)
    (hacc : cc.Account = some account) (hptr : account.Access = some p)
    (hmem : w.mem p = some bits) (hlen : bits.length = 8)
    (h0 : 0 ≤ a) (h63 : a ≤ 63) :
    ClientConn.Authorize w cc a
      = some (decide (a = 0) || (beValue bits).testBit (63 - a).toNat) ∧
    (2 ^ 63 ≤ beValue bits → toInt64 (beValue bits) < 0) ∧
    ClientConn.Authorize w cc 0 = some true := by
  have hlt : beValue bits < 2 ^ 64 := beValue_lt_of_length_eight bits hlen
  refine ⟨?_, ?_, ?_⟩
  · by_cases ha : a = 0
    · simp [ClientConn.Authorize, ha]
    · have hi : (63 - a).toNat < 64 := by omega
      have hnn : ¬ (63 - a < 0) := by omega
      simp only [ClientConn.Authorize, ha, if_false, hacc, hptr, hmem, Uint64_eq bits hlen,
        bigBit, hnn, testBit_toInt64 _ _ hlt hi]
      cases (beValue bits).testBit (63 - a).toNat <;> simp
  · intro hge
    unfold toInt64
    rw [Nat.mod_eq_of_lt hlt]
    have : ¬ (beValue bits < 2 ^ 63) := by omega
    rw [if_neg this]
    have : ((beValue bits : Nat) : Int) < 2 ^ 64 := by exact_mod_cast hlt
    omega
  · simp [ClientConn.Authorize]

/-- C24 witness: the bitmap `ff ff ff ff ff ff ff ff` of `chatWorld`, whose
most significant bit is set, and the access number 63. -/
theorem Authorize_eq_zero_or_bit_witness :
    ClientConn.Authorize chatWorld (chatConn 21 11) 63
      = some (decide ((63 : Int) = 0) ||
          (beValue [255, 255, 255, 255, 255, 255, 255, 255]).testBit (63 - (63 : Int)).toNat) ∧
    (2 ^ 63 ≤ beValue [255, 255, 255, 255, 255, 255, 255, 255] →
      toInt64 (beValue [255, 255, 255, 255, 255, 255, 255, 255]) < 0) ∧
    ClientConn.Authorize chatWorld (chatConn 21 11) 0 = some true :=
  Authorize_eq_zero_or_bit chatWorld (chatConn 21 11)
    { Login := [], Password := [], Access := some 11 } 11
    [255, 255, 255, 255, 255, 255, 255, 255] 63 rfl rfl rfl rfl (by decide) (by decide)

/-! ### C25: what the idle bookkeeping changes -/

theorem testBit_two_pow_add_lt (i j x : Nat) (hij : i < j) (hx : x.testBit i = false) :
    (2 ^ i + x).testBit j = x.testBit j := by
  obtain ⟨k, rfl⟩ : ∃ k, j = i + (k + 1) := ⟨j - i - 1, by omega⟩
  have h0 : x / 2 ^ i % 2 = 0 := by
    have := hx
    rw [Nat.testBit_to_div_mod] at this
    rcases Nat.mod_two_eq_zero_or_one (x / 2 ^ i) with h2 | h2
    · exact h2
    · simp [h2] at this
  have hdiv : (2 ^ i + x) / 2 ^ (i + (k + 1)) = x / 2 ^ (i + (k + 1)) := by
    rw [Nat.pow_add, ← Nat.div_div_eq_div_mul, ← Nat.div_div_eq_div_mul,
      Nat.add_div_left _ (Nat.two_pow_pos i), Nat.pow_succ', ← Nat.div_div_eq_div_mul,
      ← Nat.div_div_eq_div_mul]
    have : (x / 2 ^ i).succ / 2 = x / 2 ^ i / 2 := by omega
    rw [this]
  rw [Nat.testBit_to_div_mod, Nat.testBit_to_div_mod, hdiv]

theorem testBit_clear_other (v i j : Nat) (hv : v < 65536) (hij : j ≠ i) :
    (toUint16 (bigClearBit (v : Int) i) % 65536).testBit j = v.testBit j := by
  have hcast : ((v : Int)).testBit i = v.testBit i := rfl
  unfold bigClearBit
  rw [hcast]
  cases hb : v.testBit i with
  | false =>
    simp only [Bool.false_eq_true, if_false]
    have : toUint16 (v : Int) = v := by
      unfold toUint16
      have : ((v : Int) % 65536) = ((v % 65536 : Nat) : Int) := by norm_cast
      rw [this, Nat.mod_eq_of_lt hv]
      simp
    rw [this, Nat.mod_eq_of_lt hv]
  | true =>
    simp only [if_true]
    have hge : 2 ^ i ≤ v := Nat.testBit_implies_ge hb
    have hsub : ((v : Int) - 2 ^ i) = ((v - 2 ^ i : Nat) : Int) := by
      rw [Nat.cast_sub hge]; norm_cast
    have hlt : v - 2 ^ i < 65536 := Nat.lt_of_le_of_lt (Nat.sub_le _ _) hv
    have : toUint16 ((v : Int) - 2 ^ i) = v - 2 ^ i := by
      unfold toUint16
      rw [hsub]
      have : (((v - 2 ^ i : Nat) : Int) % 65536) = (((v - 2 ^ i) % 65536 : Nat) : Int) := by
        norm_cast
      rw [this, Nat.mod_eq_of_lt hlt]
      simp
    rw [this, Nat.mod_eq_of_lt hlt]
    have h3 : 2 ^ i + (v - 2 ^ i) = v := Nat.add_sub_cancel' hge
    have hclr : (v - 2 ^ i).testBit i = false := by
      have h2 := Nat.testBit_two_pow_add_eq (v - 2 ^ i) i
      rw [h3, hb] at h2
      cases h4 : (v - 2 ^ i).testBit i with
      | false => rfl
      | true => rw [h4] at h2; cases h2
    rcases Nat.lt_or_gt_of_ne hij with hlt2 | hgt2
    · have := Nat.testBit_two_pow_add_gt hlt2 (v - 2 ^ i)
      rw [h3] at this
      exact this.symm
    · have := testBit_two_pow_add_lt i j (v - 2 ^ i) hgt2 hclr
      rw [h3] at this
      exact this.symm

/-- The idle bookkeeping for a session that is away, by what it writes: the
first two bytes of the flag bitmap, with the away bit cleared, and the session
record; the notifications only extend the outbox. -/
theorem idleBookkeeping_away_frame (w : World) (a : Addr) (cc : ClientConn) (n : Nat)
    (hn : n ≠ tranKeepAlive) (hcc : w.conns a = some cc) (hidle : cc.Idle = true)
    (hs : w.sessionReady a = true) (hc : w.clientsReady = true) :
    ∃ w2 fp flags v, idleBookkeeping w a n = some w2 ∧
      cc.Flags = some fp ∧ w.mem fp = some flags ∧ Uint16 flags = some v ∧ 2 ≤ flags.length ∧
      w2.mem = (w.setMem fp
        (beBytes 2 (toUint16 (bigClearBit (v : Int) userFlagAway)) ++ flags.drop 2)).mem ∧
      w2.conns = (w.setConn a { cc with IdleTime := 0, Idle := false }).conns := by
  simp only [World.sessionReady, hcc, Bool.and_eq_true] at hs
  obtain ⟨⟨hID, hIcon⟩, hFlags⟩ := hs
  cases hfl : cc.Flags with
  | none => simp [hfl, deref] at hFlags
  | some fp =>
    cases hm : w.mem fp with
    | none => simp [hfl, deref, hm] at hFlags
    | some flags =>
      have hlen : 2 ≤ flags.length := by simpa [hfl, deref, hm] using hFlags
      cases hu : Uint16 flags with
      | none => simp [Uint16] at hu; omega
      | some v =>
        have hput := PutUint16_eq flags (toUint16 (bigClearBit (v : Int) userFlagAway)) hlen
        generalize hf1 : beBytes 2 (toUint16 (bigClearBit (v : Int) userFlagAway)) ++ flags.drop 2
          = flags1 at hput
        generalize hw1 : (w.setMem fp flags1).setConn a { cc with IdleTime := 0, Idle := false }
          = w1
        have hd1 : (deref w1 cc.ID).isSome = true := by
          rw [← hw1]; exact deref_update_isSome w fp a flags1 _ cc.ID hID
        have hd2 : deref w1 cc.Flags = some flags1 := by
          rw [← hw1, hfl]; simp [deref, World.setConn, World.setMem]
        have hd3 : (deref w1 cc.Icon).isSome = true := by
          rw [← hw1]; exact deref_update_isSome w fp a flags1 _ cc.Icon hIcon
        have hready : w1.Clients.all (fun kc => (keyed w1 kc.2).isSome) = true := by
          rw [List.all_eq_true]
          intro kc hkc
          have hkc2 : kc ∈ w.Clients := by rw [← hw1] at hkc; exact hkc
          have := List.all_eq_true.1 hc kc hkc2
          rw [← hw1]
          exact keyed_update_isSome w fp a kc.2 flags1 cc _ hcc rfl this
        cases hid : deref w1 cc.ID with
        | none => rw [hid] at hd1; cases hd1
        | some idb =>
          cases hic : deref w1 cc.Icon with
          | none => rw [hic] at hd3; cases hd3
          | some icb =>
            obtain ⟨w2, sent, hsend, _, hmem, hconns, _, _, _⟩ :=
              sendAll_spec w1 tranNotifyChangeUser
                [NewField fieldUserID idb, NewField fieldUserFlags flags1,
                 NewField fieldUserName cc.UserName, NewField fieldUserIconID icb] hready
            refine ⟨w2, fp, flags, v, ?_, rfl, hm, hu, hlen, ?_, ?_⟩
            · rw [hfl] at hw1 hd2
              simp only [idleBookkeeping, hn, ne_eq, not_false_eq_true, if_true, hcc, hidle, hfl,
                hm, hu, hput, hw1, hid, hd2, hic, hsend]
            · rw [hmem, ← hw1, ← hf1]; rfl
            · rw [hconns, ← hw1]; simp [World.setConn, World.setMem, hfl]

/-- C25: for a transaction other than `tranKeepAlive` that has no registered
handler, or passes the required-field validation and whose handler returns no
error, `handleTransaction` returns with `IdleTime = 0` and `Idle = false`.
With `w1` the state in which the idle bookkeeping starts (the state on entry
when no handler is registered, else the state left by the handler with its
transactions enqueued): if the session was idle, the first two bytes of its
flag bitmap differ from the ones of `w1` at most in the away bit, which is 0,
and the bytes after them are as in `w1`; if it was not idle, the memory (with
it every flag bitmap) and the outbox are those of `w1`, so that no
`tranNotifyChangeUser` is enqueued. -/
theorem handleTransaction_bookkeeping_frame (handlers : Nat → Option TransactionType)
    (w w1 : World) (a : Addr) (cc cc1 : ClientConn) (t : Transaction) (n : Nat)
    (hType : Uint16 t.Type_ = some n) (hn : n ≠ tranKeepAlive)
    (hcc : w.conns a = some cc)
    (hreach : (handlers n = none ∧ w1 = w) ∨
      ∃ handler account r, handlers n = some handler ∧ cc.Account = some account ∧
        checkRequired t handler.RequiredFields = true ∧
        handler.Handler w a t = some r ∧ r.err = none ∧
        w1 = { r.world with outbox := r.world.outbox ++ r.res })
    (hcc1 : w1.conns a = some cc1)
    (hs : cc1.Idle = true → w1.sessionReady a = true)
    (hc : cc1.Idle = true → w1.clientsReady = true) :
    ∃ o cc2, ClientConn.handleTransaction handlers w a t = some o ∧ o.err = none ∧
      o.world.conns a = some cc2 ∧ cc2.IdleTime = 0 ∧ cc2.Idle = false ∧
      (cc1.Idle = true →
        ∃ fp flags flags1 v v1, cc1.Flags = some fp ∧ w1.mem fp = some flags ∧
          o.world.mem fp = some flags1 ∧ Uint16 flags = some v ∧ Uint16 flags1 = some v1 ∧
          v1.testBit userFlagAway = false ∧
          (∀ i, i ≠ userFlagAway → v1.testBit i = v.testBit i) ∧
          flags1.length = flags.length ∧ flags1.drop 2 = flags.drop 2) ∧
      (cc1.Idle = false → o.world.mem = w1.mem ∧ o.world.outbox = w1.outbox) := by
  obtain ⟨inv, hrun⟩ := handleTransaction_reaches handlers w w1 a cc t n hType hcc hreach
  cases hidle : cc1.Idle with
  | false =>
    refine ⟨{ world := w1.setConn a { cc1 with IdleTime := 0 }, err := none, invoked := inv },
      { cc1 with IdleTime := 0 }, ?_, rfl, ?_, rfl, hidle, ?_, ?_⟩
    · rw [hrun, idleBookkeeping_active w1 a cc1 n hn hcc1 hidle]; rfl
    · simp [World.setConn]
    · intro h; cases h
    · intro _; exact ⟨rfl, rfl⟩
  | true =>
    obtain ⟨w2, fp, flags, v, hbk, hfl, hm, hu, hlen, hmem, hconns⟩ :=
      idleBookkeeping_away_frame w1 a cc1 n hn hcc1 hidle (hs hidle) (hc hidle)
    have hv : v < 65536 := Uint16_lt flags v hu
    have hl2 : (beBytes 2 (toUint16 (bigClearBit (v : Int) userFlagAway))).length = 2 := by
      simp [beBytes]
    refine ⟨{ world := w2, err := none, invoked := inv },
      { cc1 with IdleTime := 0, Idle := false }, ?_, rfl, ?_, rfl, rfl, ?_, ?_⟩
    · rw [hrun, hbk]; rfl
    · show w2.conns a = _
      rw [hconns]; simp [World.setConn]
    · intro _
      refine ⟨fp, flags, beBytes 2 (toUint16 (bigClearBit (v : Int) userFlagAway)) ++ flags.drop 2,
        v, toUint16 (bigClearBit (v : Int) userFlagAway) % 65536, hfl, hm, ?_, hu,
        Uint16_beBytes_append _ _, testBit_clear v userFlagAway hv,
        fun i hi => testBit_clear_other v userFlagAway i hv hi, ?_, ?_⟩
      · show w2.mem fp = _
        rw [hmem]; simp [World.setMem]
      · rw [List.length_append, hl2, List.length_drop]; omega
      · rw [List.drop_append_of_le_length (by omega)]
        have : List.drop 2 (beBytes 2 (toUint16 (bigClearBit (v : Int) userFlagAway))) = [] := by
          rw [List.drop_eq_nil_iff]; omega
        rw [this]; rfl
    · intro h; cases h

/-- C25 witness: a request of type 300, without registered handler, from the
away session of `lobby` (behind 100), and a complete `tranChatSend`, answered
by its handler, from the session behind 200, which is not away. -/
theorem handleTransaction_bookkeeping_frame_witness :
    (∃ o cc2, ClientConn.handleTransaction chatOnly lobby 100 listRequest = some o ∧
      o.err = none ∧
      o.world.conns 100 = some cc2 ∧ cc2.IdleTime = 0 ∧ cc2.Idle = false ∧
      (awayConn.Idle = true →
        ∃ fp flags flags1 v v1, awayConn.Flags = some fp ∧ lobby.mem fp = some flags ∧
          o.world.mem fp = some flags1 ∧ Uint16 flags = some v ∧ Uint16 flags1 = some v1 ∧
          v1.testBit userFlagAway = false ∧
          (∀ i, i ≠ userFlagAway → v1.testBit i = v.testBit i) ∧
          flags1.length = flags.length ∧ flags1.drop 2 = flags.drop 2) ∧
      (awayConn.Idle = false → o.world.mem = lobby.mem ∧ o.world.outbox = lobby.outbox)) ∧
    (∃ o cc2, ClientConn.handleTransaction chatOnly lobby 200 chatRequest = some o ∧
      o.err = none ∧
      o.world.conns 200 = some cc2 ∧ cc2.IdleTime = 0 ∧ cc2.Idle = false ∧
      (secondConn.Idle = true →
        ∃ fp flags flags1 v v1, secondConn.Flags = some fp ∧
          ({ lobby with outbox := lobby.outbox ++ [secondConn.NewReply chatRequest []] } : World).mem
            fp = some flags ∧
          o.world.mem fp = some flags1 ∧ Uint16 flags = some v ∧ Uint16 flags1 = some v1 ∧
          v1.testBit userFlagAway = false ∧
          (∀ i, i ≠ userFlagAway → v1.testBit i = v.testBit i) ∧
          flags1.length = flags.length ∧ flags1.drop 2 = flags.drop 2) ∧
      (secondConn.Idle = false →
        o.world.mem
          = ({ lobby with outbox := lobby.outbox ++ [secondConn.NewReply chatRequest []] } : World).mem ∧
        o.world.outbox
          = ({ lobby with
                outbox := lobby.outbox ++ [secondConn.NewReply chatRequest []] } : World).outbox)) :=
  ⟨handleTransaction_bookkeeping_frame chatOnly lobby lobby 100 awayConn awayConn listRequest 300
      rfl (by decide) rfl (Or.inl ⟨rfl, rfl⟩) rfl (fun _ => rfl) (fun _ => rfl),
   handleTransaction_bookkeeping_frame chatOnly lobby
      { lobby with outbox := lobby.outbox ++ [secondConn.NewReply chatRequest []] }
      200 secondConn secondConn chatRequest 105 rfl (by decide) rfl
      (Or.inr ⟨{ Handler := ackBody, Name := "tranChatSend",
                 RequiredFields := [{ ID := 101, minLen := 0 }] },
        { Login := [98], Password := [], Access := some 10 },
        { world := lobby, res := [secondConn.NewReply chatRequest []], err := none },
        rfl, rfl, by decide, rfl, rfl, rfl⟩)
      rfl (fun _ => rfl) (fun _ => rfl)⟩

/-! ### C21: `readPath` without a wire path -/

/-- C22: on a connection whose write succeeds, `Client.Handshake` writes
exactly the 12 bytes "TRTP", "HOTL", 00 01, 00 02, and no transaction; and for
every 8-byte reply read without an I/O error it returns no error exactly when
the reply is "TRTP" followed by four zero bytes, and an error otherwise. -/
theorem Handshake_exchange (c : Client) (reply : List Byte)
    (hw : c.connErr = none) (hr : c.readErr = none)
    (hreply : c.inbound.take 8 = reply) (hlen : reply.length = 8) :
    ClientHandshake = ascii "TRTP" ++ ascii "HOTL" ++ [0, 1] ++ [0, 2] ∧
    ClientHandshake.length = 12 ∧
    c.Handshake.1.rawWritten = c.rawWritten ++ [ClientHandshake] ∧
    c.Handshake.1.written = c.written ∧
    (c.Handshake.2 = none ↔ reply = ascii "TRTP" ++ [0, 0, 0, 0]) ∧
    (reply ≠ ascii "TRTP" ++ [0, 0, 0, 0] →
      c.Handshake.2 = some "handshake response err: %!s(<nil>)") := by
  have hbuf : ∀ c1 : Client, c1.inbound = c.inbound → (c1.read 8).1 = reply := by
    intro c1 h1
    simp only [Client.read, h1, hreply, hlen]
    simp
  have hS : ServerHandshake = ascii "TRTP" ++ [0, 0, 0, 0] := by decide
  refine ⟨by decide, by decide, ?_, ?_, ?_, ?_⟩
  · simp only [Client.Handshake, hw, hr]
    split <;> rfl
  · simp only [Client.Handshake, hw, hr]
    split <;> rfl
  · rw [← hS]
    by_cases h : reply = ServerHandshake
    · simp [Client.Handshake, hw, hr, hbuf, h]
    · simp [Client.Handshake, hw, hr, hbuf, h]
  · intro h
    rw [← hS] at h
    simp [Client.Handshake, hw, hr, hbuf, h]

/-- C22 witness: the server answers with `ServerHandshake`, and the server
answers with the error code 1. -/
theorem Handshake_exchange_witness :
    (ClientHandshake = ascii "TRTP" ++ ascii "HOTL" ++ [0, 1] ++ [0, 2] ∧
     ClientHandshake.length = 12 ∧
     greetedClient.Handshake.1.rawWritten = greetedClient.rawWritten ++ [ClientHandshake] ∧
     greetedClient.Handshake.1.written = greetedClient.written ∧
     (greetedClient.Handshake.2 = none ↔
       ([0x54, 0x52, 0x54, 0x50, 0, 0, 0, 0] : List Byte) = ascii "TRTP" ++ [0, 0, 0, 0]) ∧
     (([0x54, 0x52, 0x54, 0x50, 0, 0, 0, 0] : List Byte) ≠ ascii "TRTP" ++ [0, 0, 0, 0] →
       greetedClient.Handshake.2 = some "handshake response err: %!s(<nil>)")) ∧
    (ClientHandshake = ascii "TRTP" ++ ascii "HOTL" ++ [0, 1] ++ [0, 2] ∧
     ClientHandshake.length = 12 ∧
     refusedClient.Handshake.1.rawWritten = refusedClient.rawWritten ++ [ClientHandshake] ∧
     refusedClient.Handshake.1.written = refusedClient.written ∧
     (refusedClient.Handshake.2 = none ↔
       ([0x54, 0x52, 0x54, 0x50, 0, 0, 0, 1] : List Byte) = ascii "TRTP" ++ [0, 0, 0, 0]) ∧
     (([0x54, 0x52, 0x54, 0x50, 0, 0, 0, 1] : List Byte) ≠ ascii "TRTP" ++ [0, 0, 0, 0] →
       refusedClient.Handshake.2 = some "handshake response err: %!s(<nil>)")) :=
  ⟨Handshake_exchange greetedClient [0x54, 0x52, 0x54, 0x50, 0, 0, 0, 0] rfl rfl rfl rfl,
   Handshake_exchange refusedClient [0x54, 0x52, 0x54, 0x50, 0, 0, 0, 1] rfl rfl rfl rfl⟩

/-! ### C26: the user list after `tranNotifyChangeUser` -/

theorem updateUsers_eq (newUser : User) (l : List User) (acc : List User × Bool) :
    updateUsers newUser l acc
      = (acc.1 ++ l.map (fun u => if newUser.ID = u.ID then { u with Name := newUser.Name } else u),
         acc.2 || l.any (fun u => decide (newUser.ID = u.ID))) := by
  induction l generalizing acc with
  | nil => simp [updateUsers]
  | cons u rest ih =>
    by_cases h : newUser.ID = u.ID
    · simp [updateUsers, h, ih]
    · simp [updateUsers, h, ih]

theorem renderLines_isSome (l : List User) (h : ∀ u ∈ l, 2 ≤ u.Flags.length) :
    ∃ text, renderLines l = some text := by
  induction l with
  | nil => exact ⟨[], rfl⟩
  | cons u rest ih =>
    obtain ⟨text, ht⟩ := ih (fun x hx => h x (List.mem_cons_of_mem _ hx))
    have hu : ¬ u.Flags.length < 2 := by
      have := h u (List.mem_cons_self _ _)
      omega
    have hnn : ¬ ((userFlagAdmin : Int) < 0) := by decide
    simp only [renderLines, Uint16, hu, if_false, ht, bigBit, hnn]
    exact ⟨_, rfl⟩

/-- C26, at the failing input: the client lists the users 00 01 and 00 02 and
receives a `tranNotifyChangeUser` for the user 00 03, named "cy", that carries
no `fieldUserFlags`. No listed user has the ID, so the notified user, with an
empty flag bitmap, is put at the end of the new list; `renderUserList` then
reads its flags with `Uint16`, and the handler panics instead of returning. -/
theorem notice_without_flags_panics :
    (flaglessNotice.GetField fieldUserID).Data = [0, 3] ∧
    (flaglessNotice.GetField fieldUserName).Data = ascii "cy" ∧
    (flaglessNotice.GetField fieldUserFlags).Data = [] ∧
    listingClient.UserList.map (fun u => u.ID) = [[0, 1], [0, 2]] ∧
    Uint16 ([] : List Byte) = none ∧
    (handleNotifyChangeUser listingClient flaglessNotice).isNone = true ∧
    (handleNotifyChangeUser listingClient newcomerNotice).map
        (fun r => r.1.UserList.map (fun u => (u.ID, u.Name, u.Flags)))
      = some [([0, 1], ascii "al", [0, 0]), ([0, 2], ascii "bob", [0, 1]),
          ([0, 3], ascii "cy", [0, 0])] := by
  refine ⟨by decide, by decide, by decide, by decide, by decide, ?_, ?_⟩
  · decide
  · decide

/-! ### C27: icon and flags of a listed user -/

/-- C27, at the failing input: the client lists the user 00 02 as away (flags
00 01, icon 00 00) and is notified that this user has the flags 00 00 and the
icon 00 80; after `handleNotifyChangeUser` the entry still has the flags 00 01
and the icon 00 00. -/
theorem notified_flags_not_stored :
    (notifiedUser backNotice).ID = [0, 2] ∧
    (notifiedUser backNotice).Flags = [0, 0] ∧ (notifiedUser backNotice).Icon = [0, 128] ∧
    listingClient.UserList.map (fun u => (u.ID, u.Icon, u.Flags))
      = [([0, 1], [0, 0], [0, 0]), ([0, 2], [0, 0], [0, 1])] ∧
    (handleNotifyChangeUser listingClient backNotice).map
        (fun r => r.1.UserList.map (fun u => (u.ID, u.Icon, u.Flags)))
      = some [([0, 1], [0, 0], [0, 0]), ([0, 2], [0, 0], [0, 1])] := by
  refine ⟨by decide, by decide, by decide, by decide, ?_⟩
  decide

/-! ### C28: a reply that answers no request -/

/-- C28, at the failing input: a reply (IsReply = 1) with the ID 9acb0442
reaches a client whose `activeTasks` is empty; `HandleTransaction` dereferences
the `nil` pointer that the map gives for the ID, and panics. -/
theorem unregistered_reply_panics :
    keepAliveReply.IsReply = 1 ∧ Uint32 keepAliveReply.ID = some 2596996162 ∧
    freshClient.activeTasks 2596996162 = none ∧
    (Client.HandleTransaction keepAliveOnly freshClient keepAliveReply).isNone = true := by
  refine ⟨rfl, by decide, rfl, ?_⟩
  decide

/-! ### C30: `AddBookmark` -/

/-- C30, at the failing input: `AddBookmark("home", "h:5500", "guest", "pw")`
returns no error, keeps the bookmark that was there and appends one bookmark
with the address, the login and the password given, whose `Name` is empty, not
"home". -/
theorem AddBookmark_leaves_name_empty :
    (guestPrefs.AddBookmark (ascii "home") (ascii "h:5500") (ascii "guest") (ascii "pw")).2 = none ∧
    (guestPrefs.AddBookmark (ascii "home") (ascii "h:5500") (ascii "guest") (ascii "pw")).1.Bookmarks
      = guestPrefs.Bookmarks ++
        [{ Name := [], Addr := ascii "h:5500", Login := ascii "guest", Password := ascii "pw" }] ∧
    ([] : List Byte) ≠ ascii "home" := by
  refine ⟨rfl, rfl, by decide⟩

/-! ### C23, C29: the records of `getFileNameList` -/

/-- A run of the loop of `getFileNameList` that ends without error keeps the
fields it had, meets no failing entry, and has appended the field of every
entry for which a record was made. -/
theorem listEntries_ok (h : Host) (filePath : List Byte) (files : List FileInfo)
    (acc fields : List Field) (hrun : listEntries h filePath files acc = (fields, none)) :
    (∀ f ∈ acc, f ∈ fields) ∧
    ∀ file ∈ files, (∀ err, entryInfo h filePath file ≠ Listed.fail err) ∧
      ∀ fnwi, entryInfo h filePath file = Listed.record fnwi →
        NewField h.fieldFileNameWithInfo (withName fnwi file).MarshalBinary ∈ fields := by
  induction files generalizing acc with
  | nil =>
    simp only [listEntries, Prod.mk.injEq] at hrun
    refine ⟨fun f hf => hrun.1 ▸ hf, ?_⟩
    intro file hfile
    cases hfile
  | cons x rest ih =>
    cases hx : entryInfo h filePath x with
    | skip =>
      simp only [listEntries, hx] at hrun
      obtain ⟨h1, h2⟩ := ih acc hrun
      refine ⟨h1, ?_⟩
      intro file hfile
      rcases List.mem_cons.1 hfile with rfl | hfile
      · refine ⟨fun err he => ?_, fun fnwi he => ?_⟩
        · rw [hx] at he; cases he
        · rw [hx] at he; cases he
      · exact h2 file hfile
    | fail err =>
      simp [listEntries, hx] at hrun
    | record fnwi =>
      simp only [listEntries, hx] at hrun
      obtain ⟨h1, h2⟩ := ih _ hrun
      refine ⟨fun f hf => h1 f (List.mem_append_left _ hf), ?_⟩
      intro file hfile
      rcases List.mem_cons.1 hfile with rfl | hfile
      · refine ⟨fun err he => ?_, fun fnwi2 he => ?_⟩
        · rw [hx] at he; cases he
        · rw [hx] at he
          cases he
          exact h1 _ (List.mem_append_right _ (List.mem_singleton_self _))
      · exact h2 file hfile

theorem take_drop_middle (a b c : List Byte) (n m : Nat) (ha : a.length = n)
    (hb : b.length = m) : ((a ++ b ++ c).drop n).take m = b := by
  subst ha
  subst hb
  rw [List.append_assoc, List.drop_left, List.take_left]

theorem Uint32_beBytes_of_lt (v : Nat) (h : v < 4294967296) : Uint32 (beBytes 4 v) = some v := by
  rw [Uint32_beBytes, Nat.mod_eq_of_lt h]

/-- C23, at the failing input: the folder "/Files" of `absoluteLinkHost` holds
the symlink "lnk", whose target "/srv/data" is a directory with two entries
(`os.Stat` of "/Files/lnk", which follows the link, reports a directory, and
the directory read through the entry has two entries). `getFileNameList` asks
`os.Stat` for "/Files" + "/" + "/srv/data", which does not exist, goes on to
the next entry, and returns no record at all, without error. -/
theorem absolute_link_to_folder_is_not_listed :
    absoluteLinkHost.ReadDir (ascii "/Files")
      = Except.ok [{ Name := ascii "lnk", Size := 9, IsDir := false, Symlink := true }] ∧
    absoluteLinkHost.Readlink (ascii "/Files/lnk") = Except.ok (ascii "/srv/data") ∧
    (match absoluteLinkHost.Stat (ascii "/Files/lnk") with
      | StatResult.ok info => info.IsDir
      | _ => false) = true ∧
    (match absoluteLinkHost.Stat (ascii "/srv/data") with
      | StatResult.ok info => info.IsDir
      | _ => false) = true ∧
    (match absoluteLinkHost.ReadDir (ascii "/Files/lnk") with
      | Except.ok dir => some dir.length
      | Except.error _ => none) = some 2 ∧
    (match absoluteLinkHost.Stat (ascii "/Files" ++ ascii "/" ++ ascii "/srv/data") with
      | StatResult.notExist _ => true
      | _ => false) = true ∧
    getFileNameList absoluteLinkHost (ascii "/Files") = ([], none) := by
  refine ⟨rfl, rfl, by decide, by decide, by decide, by decide, ?_⟩
  decide

/-- C29, at the failing input: the folder "/Files" of `bigFileHost` holds one
regular file of 4294967296 bytes, a size that does not fit in 4 bytes; the
test `file.Size() > 4294967296` lets it pass, and `getFileNameList` lists it,
without error, with the size field 00 00 00 00. The symlink of `bigLinkHost`
to a file of 4294967301 bytes meets no test and is listed with the size field
00 00 00 05. -/
theorem file_of_four_gib_is_listed_with_size_zero :
    bigFileHost.ReadDir (ascii "/Files")
      = Except.ok [{ Name := ascii "big.bin", Size := 4294967296, IsDir := false,
                     Symlink := false }] ∧
    ¬ ((4294967296 : Int) < 2 ^ 32) ∧
    (getFileNameList bigFileHost (ascii "/Files")).2 = none ∧
    (getFileNameList bigFileHost (ascii "/Files")).1.map
        (fun f => (Uint16 f.ID, f.Data.take 4, (f.Data.drop 8).take 4, f.Data.drop 18))
      = [(some 200, ascii "TEXT", [0, 0, 0, 0], ascii "big.bin")] ∧
    (getFileNameList bigLinkHost (ascii "/Files")).2 = none ∧
    (getFileNameList bigLinkHost (ascii "/Files")).1.map
        (fun f => (Uint16 f.ID, f.Data.take 4, (f.Data.drop 8).take 4, f.Data.drop 18))
      = [(some 200, ascii "TEXT", [0, 0, 0, 5], ascii "big.lnk")] := by
  refine ⟨rfl, by decide, by decide, ?_, by decide, ?_⟩
  · decide
  · decide

end Hotline
